import Mathlib

/-!
# Whiteboard: stroke capture and two-point calibration

A shallow embedding of the Qt build of the whiteboard (`whitebrd.h`,
`whitebrd.cpp`).  The calibration branch of the pointer-down handler and
`mapMousePoint` of the X11 build (`whiteboard.cpp`) are the same text as
in the Qt build, and its tool buttons make the same assignments (with
`ERASER_WIDTH = 15`), so one embedding serves both; the X11
`processAction`, `init` and event handlers are embedded separately
(`MyWindow`).

Modelling conventions.

* C++ `int` values are `Int`; screen coordinates and counters stay far
  from the 32-bit limits, so no wrap-around is modelled.
* `double` values are exact rationals (`ℚ`): the arithmetic of the
  calibration is read as exact arithmetic, and the constant `0.49` is
  `49/100`.
* `std::vector<T>` is `List T`, `push_back` appends at the end.
* A C array `T a[N]` is a function `Fin N → T`; a subscript outside
  `[0, N)` is a fault (`Fault.outOfRange`).
* Handlers return `Except Fault σ`: a failed `assert`, a subscript out
  of range and a division by a zero denominator are faults, everything
  else is `.ok` with the new state.
* Painting does not change the fields modelled here, so the offscreen
  image is left out of the state.  `drawStroke` is a function from the
  stroke to the list of requests it sends to the painter (`DrawRequest`),
  and the painting that `processAction` does itself (`drawInOffscreen`,
  `drawLastCurveInOffscreen`; in the X11 build `drawStroke` and the
  palette subscript of DRAW_CURVE) is part of it: a failed assertion or a
  palette subscript out of range there stops the handler.  The repaint a
  handler merely asks for (`update`, `redraw`) and the redrawing of the
  buttons (`drawButtons`, `drawCurrentLineType`) are left out.
* The offscreen image is taken to exist (`image != 0`), as it does from
  the first `resizeEvent` or `drawInOffscreen` on; with no image
  `drawLastCurveInOffscreen` would return at once.
-/

namespace WB

/-! ## Constants (`whitebrd.h`, `whitebrd.cpp`) -/

abbrev THIN_WIDTH : Int := 1
abbrev NORMAL_WIDTH : Int := 2
abbrev THICK_WIDTH : Int := 3
abbrev VERY_THICK_WIDTH : Int := 5
abbrev LINE_WIDTH : Int := THICK_WIDTH
abbrev ERASER_WIDTH : Int := 32
abbrev NUM_COLORS : Int := 5

abbrev MODE_CALIBRATION : Int := 0
abbrev MODE_NORMAL : Int := 1
abbrev NUM_CALIBRATION_POINTS : Nat := 2
abbrev MAX_PAGES : Nat := 8

abbrev BLACK_COLOR_IDX : Int := 0
abbrev BLUE_COLOR_IDX : Int := 1
abbrev RED_COLOR_IDX : Int := 2
abbrev GREEN_COLOR_IDX : Int := 3
abbrev ERASER_COLOR_IDX : Int := 4

/-- The value of the enumerator `Qt::black` of `Qt::GlobalColor`, which the
default constructor of `Stroke` stores in `color`. -/
abbrev Qt_black : Int := 2

/-- What can go wrong inside a handler. -/
inductive Fault where
  | assertFailed
  | outOfRange
  | divisionByZero
deriving DecidableEq

/-- Subscript of a C array of `n` elements by an `int`. -/
def index? (n : Nat) (i : Int) : Option (Fin n) :=
  if h : 0 ≤ i ∧ i < (n : Int) then some ⟨i.toNat, by omega⟩ else none

/-- Division of two `double`s, read exactly; a zero denominator has no
value. -/
def fdiv (a b : ℚ) : Except Fault ℚ :=
  if b = 0 then .error .divisionByZero else .ok (a / b)

/-- The conversion `(int) v` of a `double`: the fractional part is
discarded (truncation toward zero). -/
def toInt (v : ℚ) : Int := Int.tdiv v.num (v.den : Int)

/-! ## Geometry (`R2Graph.h`, used through its interface only) -/

/-- Integer point `I2Point`. -/
structure I2Point where
  x : Int
  y : Int
deriving DecidableEq

/-- Integer rectangle `I2Rectangle(corner, width, height)`. -/
structure I2Rectangle where
  corner : I2Point
  width : Int
  height : Int
deriving DecidableEq

/-! ## Stroke (`whitebrd.h`) -/

/-- Class `Stroke`.  The heap object `qPath` points to is modelled by its
vertices: `none` is the null pointer, `some vs` a path built by `moveTo`
on the first vertex and `lineTo` on each further one. -/
structure Stroke where
  color : Int
  width : Int
  points : List I2Point
  qPath : Option (List I2Point)
  finished : Bool
deriving DecidableEq

namespace Stroke

/-- Default constructor `Stroke()`. -/
def new : Stroke :=
  { color := Qt_black, width := 1, points := [], qPath := none, finished := false }

/-- Copy constructor `Stroke(const Stroke&)`. -/
def copy (str : Stroke) : Stroke :=
  { color := str.color
    width := str.width
    points := str.points
    qPath := match str.qPath with
      | none => none
      | some q => some q
    finished := str.finished }

/-- Member `size()`. -/
def size (s : Stroke) : Int := (s.points.length : Int)

/-- Member `clear()`: the points and the path go, the other fields stay. -/
def clear (s : Stroke) : Stroke :=
  { s with points := [], qPath := none }

/-- Member `push_back(p)`. -/
def push_back (s : Stroke) (p : I2Point) : Except Fault Stroke :=
  if s.size = 0 then
    .ok { s with qPath := some [p], points := s.points ++ [p] }
  else
    match s.points.getLast? with
    | none => .error .outOfRange
    | some back =>
      if p ≠ back then
        match s.qPath with
        | none => .error .assertFailed
        | some q => .ok { s with points := s.points ++ [p], qPath := some (q ++ [p]) }
      else .ok s

/-- Member `finalize()`. -/
def finalize (s : Stroke) : Stroke :=
  { s with finished := true }

/-- Calls `push_back` on each point of `xs` in order. -/
def pushAll (s : Stroke) (xs : List I2Point) : Except Fault Stroke :=
  xs.foldlM push_back s

end Stroke

/-! ## Action (`whitebrd.h`) -/

/-- Class `Action`. -/
structure Action where
  type : Int
  color : Int
  width : Int
  point : I2Point
deriving DecidableEq

namespace Action

abbrev START_CURVE : Int := 0
abbrev DRAW_CURVE : Int := 1
abbrev END_CURVE : Int := 2

end Action

/-! ## WhiteBoard (`whitebrd.h`, `whitebrd.cpp`) -/

/-- Class `WhiteBoard::Page`. -/
structure Page where
  strokes : List Stroke
deriving DecidableEq

/-- The fields of class `WhiteBoard` that the handlers read or write. -/
structure WhiteBoard where
  pages : Fin MAX_PAGES → Page
  currentPage : Int
  myDrawing : Stroke
  myDrawingActive : Bool
  mode : Int
  currentColor : Int
  currentWidth : Int
  lastColor : Int
  lastWidth : Int
  calibrationPoints : Fin NUM_CALIBRATION_POINTS → I2Point
  calibrationClicks : Fin NUM_CALIBRATION_POINTS → I2Point
  numCalibrationClicks : Int
  xIntercept : ℚ
  xSlope : ℚ
  yIntercept : ℚ
  ySlope : ℚ

namespace WhiteBoard

/-- Constructor `WhiteBoard::WhiteBoard`.  The constructor leaves
`calibrationClicks` to the default constructor of `I2Point`; its value is
the argument `clicks`. -/
def new (clicks : Fin NUM_CALIBRATION_POINTS → I2Point) : WhiteBoard :=
  { pages := fun _ => { strokes := [] }
    currentPage := 0
    myDrawing := Stroke.new
    myDrawingActive := false
    mode := MODE_CALIBRATION
    currentColor := BLACK_COLOR_IDX
    currentWidth := THICK_WIDTH
    lastColor := BLACK_COLOR_IDX
    lastWidth := THICK_WIDTH
    calibrationPoints := fun i => if i = 0 then ⟨100, 100⟩ else ⟨500, 400⟩
    calibrationClicks := clicks
    numCalibrationClicks := 0
    xIntercept := 0
    xSlope := 1
    yIntercept := 0
    ySlope := 1 }

/-- Member `mapMousePoint`: the window point of a raw pointer position. -/
def mapMousePoint (s : WhiteBoard) (mousePoint : I2Point) : I2Point :=
  { x := toInt (s.xIntercept + (mousePoint.x : ℚ) * s.xSlope + 49 / 100)
    y := toInt (s.yIntercept + (mousePoint.y : ℚ) * s.ySlope + 49 / 100) }

/-- The statement `pages[currentPage].strokes.push_back(str)`. -/
def pushStroke (s : WhiteBoard) (str : Stroke) : Except Fault WhiteBoard :=
  match index? MAX_PAGES s.currentPage with
  | none => .error .outOfRange
  | some i =>
    .ok { s with
      pages := Function.update s.pages i (Page.mk ((s.pages i).strokes ++ [Stroke.copy str])) }

/-- Member `init()`: clears the active page and stops the capture. -/
def init (s : WhiteBoard) : Except Fault WhiteBoard :=
  match index? MAX_PAGES s.currentPage with
  | none => .error .outOfRange
  | some i =>
    .ok { s with
      pages := Function.update s.pages i (Page.mk [])
      myDrawingActive := false }

end WhiteBoard

/-! ## Drawing (`whitebrd.cpp`) -/

/-- Modelled from the spec: the vector type `I2Vector` of `R2Graph.h`,
which is not among the sources; an integer 2-tuple like the point. -/
structure I2Vector where
  x : Int
  y : Int
deriving DecidableEq

/-- Modelled from the spec: the operator `I2Point + I2Vector` of
`R2Graph.h`, componentwise. -/
def I2Point.plus (p : I2Point) (v : I2Vector) : I2Point := ⟨p.x + v.x, p.y + v.y⟩

/-- Modelled from the spec: the operator `I2Point - I2Vector` of
`R2Graph.h`, componentwise. -/
def I2Point.minus (p : I2Point) (v : I2Vector) : I2Point := ⟨p.x - v.x, p.y - v.y⟩

/-- The five colors of the palette. -/
inductive QColor where
  | black
  | blue
  | red
  | darkGreen
  | white
deriving DecidableEq

/-- The table `strokeColors[NUM_COLORS]`. -/
def strokeColors : Fin 5 → QColor
  | 0 => .black
  | 1 => .blue
  | 2 => .red
  | 3 => .darkGreen
  | 4 => .white

/-- A pen: `QPen pen(color); pen.setWidth(width)`. -/
structure QPen where
  color : QColor
  width : Int
deriving DecidableEq

/-- What a painter is asked to draw: a line segment under the pen that was
set (`setPen`, `drawLine`), or a path stroked with a pen (`strokePath`),
the path given by its vertices. -/
inductive DrawRequest where
  | line (pen : QPen) (p0 p1 : I2Point)
  | path (pen : QPen) (vertices : List I2Point)
deriving DecidableEq

/-- The expression `color % NUM_COLORS` on C++ `int`s: the remainder of the
division that truncates toward zero. -/
def paletteIndex (color : Int) : Int := Int.tmod color NUM_COLORS

namespace WhiteBoard

/-- Member `drawStroke`, as the list of requests it sends to the painter. -/
def drawStroke (str : Stroke) : Except Fault (List DrawRequest) :=
  if str.size = 0 then .ok []
  else
    match index? 5 (paletteIndex str.color) with
    | none => .error .outOfRange
    | some c =>
      let pen : QPen := ⟨strokeColors c, str.width⟩
      if str.size = 1 then
        if str.finished = true then
          match str.points[0]? with
          | none => .error .outOfRange
          | some p =>
            .ok [.line pen (p.minus ⟨1, 0⟩) (p.plus ⟨1, 0⟩),
                 .line pen (p.minus ⟨0, 1⟩) (p.plus ⟨0, 1⟩)]
        else .ok []
      else
        match str.qPath with
        | none => .error .assertFailed
        | some q => .ok [.path pen q]

/-- The pen of `drawCurrentLineType`:
`QPen pen(strokeColors[currentColor]); pen.setWidth(currentWidth)`. -/
def currentLinePen (s : WhiteBoard) : Except Fault QPen :=
  match index? 5 s.currentColor with
  | none => .error .outOfRange
  | some c => .ok ⟨strokeColors c, s.currentWidth⟩

/-- The loop `for (i ...) drawStroke(&qp, pages[currentPage].strokes.at(i))`:
the requests of the strokes in order; the first stroke that faults stops
it. -/
def drawStrokes : List Stroke → Except Fault (List DrawRequest)
  | [] => .ok []
  | str :: rest =>
    (drawStroke str).bind fun r =>
    (drawStrokes rest).bind fun rs => .ok (r ++ rs)

/-- Member `drawInOffscreen`, as the list of stroke requests it sends to
the painter of the offscreen image: `assert(mode != MODE_CALIBRATION)`,
then the strokes of the active page, then the stroke in progress when a
capture is active.  `allocateImage` before and `drawButtons` after draw no
stroke and are left out, as in the handlers. -/
def drawInOffscreen (s : WhiteBoard) : Except Fault (List DrawRequest) :=
  if s.mode = MODE_CALIBRATION then .error .assertFailed
  else
    match index? MAX_PAGES s.currentPage with
    | none => .error .outOfRange
    | some i =>
      (drawStrokes (s.pages i).strokes).bind fun rs =>
      (if s.myDrawingActive = true then drawStroke s.myDrawing else .ok []).bind fun r =>
      .ok (rs ++ r)

/-- Member `drawLastCurveInOffscreen`, as the list of requests it sends to
the painter of the offscreen image; of the test
`!myDrawingActive || image == 0` the first half is kept, the image being
taken to exist. -/
def drawLastCurveInOffscreen (s : WhiteBoard) : Except Fault (List DrawRequest) :=
  if s.myDrawingActive = false then .ok []
  else drawStroke s.myDrawing

/-- Member `processAction`.  DRAW_CURVE ends with
`drawLastCurveInOffscreen()` and the body of END_CURVE calls
`drawInOffscreen()` between storing the stroke and clearing it; what they
send to the painter changes no field, but a fault in them stops the
handler. -/
def processAction (s : WhiteBoard) (a : Action) : Except Fault WhiteBoard :=
  if a.type = Action.START_CURVE then
    (if s.myDrawingActive = true ∧ s.myDrawing.size > 0 then
      (pushStroke s s.myDrawing).bind fun s1 =>
        .ok { s1 with myDrawing := s1.myDrawing.clear }
    else .ok s).bind fun s1 =>
    ({ s1.myDrawing with color := a.color, width := a.width }.push_back a.point).bind
      fun curve => .ok { s1 with myDrawing := curve, myDrawingActive := true }
  else if a.type = Action.DRAW_CURVE then
    if s.myDrawingActive = false then .ok s
    else
      (s.myDrawing.push_back a.point).bind fun curve =>
      (drawLastCurveInOffscreen { s with myDrawing := curve }).bind fun _ =>
        .ok { s with myDrawing := curve }
  else if a.type = Action.END_CURVE then
    (if s.myDrawingActive = true ∧ s.myDrawing.size > 0 then
      (s.myDrawing.push_back a.point).bind fun curve =>
      (pushStroke { s with myDrawing := curve.finalize } curve.finalize).bind fun s1 =>
      (drawInOffscreen s1).bind fun _ =>
        .ok { s1 with myDrawing := s1.myDrawing.clear }
    else .ok s).bind fun s1 =>
    .ok { s1 with myDrawingActive := false }
  else .ok s

/-- The branch `mode == MODE_CALIBRATION` of `mousePressEvent`, for a
click at the raw point `t`. -/
def calibrationPress (s : WhiteBoard) (t : I2Point) : Except Fault WhiteBoard :=
  if ¬ s.numCalibrationClicks < (NUM_CALIBRATION_POINTS : Int) then
    .error .assertFailed
  else
    match index? NUM_CALIBRATION_POINTS s.numCalibrationClicks with
    | none => .error .outOfRange
    | some i =>
      let s1 : WhiteBoard :=
        { s with calibrationClicks := Function.update s.calibrationClicks i t
                 numCalibrationClicks := s.numCalibrationClicks + 1 }
      if s1.numCalibrationClicks = (NUM_CALIBRATION_POINTS : Int) then
        let lastClick : Fin NUM_CALIBRATION_POINTS := 1
        if t.x = (s1.calibrationPoints 0).x ∨ t.y = (s1.calibrationPoints 0).y then
          .ok s1
        else
          (fdiv (((s1.calibrationPoints lastClick).x - (s1.calibrationPoints 0).x : Int) : ℚ)
                (((s1.calibrationClicks lastClick).x - (s1.calibrationClicks 0).x : Int) : ℚ)).bind
          fun xSlope =>
          (fdiv (((s1.calibrationPoints lastClick).y - (s1.calibrationPoints 0).y : Int) : ℚ)
                (((s1.calibrationClicks lastClick).y - (s1.calibrationClicks 0).y : Int) : ℚ)).bind
          fun ySlope =>
          let s2 : WhiteBoard :=
            { s1 with xSlope := xSlope
                      ySlope := ySlope
                      xIntercept := ((s1.calibrationPoints 0).x : ℚ)
                        - ((s1.calibrationClicks 0).x : ℚ) * xSlope
                      yIntercept := ((s1.calibrationPoints 0).y : ℚ)
                        - ((s1.calibrationClicks 0).y : ℚ) * ySlope }
          if s2.numCalibrationClicks ≥ (NUM_CALIBRATION_POINTS : Int) then
            .ok { s2 with mode := MODE_NORMAL }
          else .ok s2
      else if s1.numCalibrationClicks ≥ (NUM_CALIBRATION_POINTS : Int) then
        .ok { s1 with mode := MODE_NORMAL }
      else .ok s1

/-! ### Buttons (`whitebrd.cpp`) -/

abbrev BUTTON_WIDTH : Int := 70
abbrev BUTTON_WIDTH2 : Int := BUTTON_WIDTH / 2
abbrev BUTTON_HEIGHT : Int := 20
abbrev BUTTON_SKIP : Int := 8
abbrev BUTTON_DX : Int := BUTTON_WIDTH + BUTTON_SKIP
abbrev BUTTON_DX2 : Int := BUTTON_WIDTH2 + BUTTON_SKIP

def blackButtonRect : I2Rectangle := ⟨⟨10, 10⟩, BUTTON_WIDTH, BUTTON_HEIGHT⟩
def redButtonRect : I2Rectangle := ⟨⟨10 + BUTTON_DX, 10⟩, BUTTON_WIDTH, BUTTON_HEIGHT⟩
def blueButtonRect : I2Rectangle := ⟨⟨10 + 2 * BUTTON_DX, 10⟩, BUTTON_WIDTH, BUTTON_HEIGHT⟩
def greenButtonRect : I2Rectangle := ⟨⟨10 + 3 * BUTTON_DX, 10⟩, BUTTON_WIDTH, BUTTON_HEIGHT⟩
def clearButtonRect : I2Rectangle := ⟨⟨10 + 4 * BUTTON_DX, 10⟩, BUTTON_WIDTH, BUTTON_HEIGHT⟩
def eraseButtonRect : I2Rectangle := ⟨⟨10 + 5 * BUTTON_DX, 10⟩, BUTTON_WIDTH, BUTTON_HEIGHT⟩
def calibrateButtonRect : I2Rectangle := ⟨⟨10 + 6 * BUTTON_DX, 10⟩, BUTTON_WIDTH, BUTTON_HEIGHT⟩
def thinButtonRect : I2Rectangle := ⟨⟨10 + 7 * BUTTON_DX, 10⟩, BUTTON_WIDTH2, BUTTON_HEIGHT⟩
def normalButtonRect : I2Rectangle :=
  ⟨⟨10 + 7 * BUTTON_DX + BUTTON_DX2, 10⟩, BUTTON_WIDTH2, BUTTON_HEIGHT⟩
def thickButtonRect : I2Rectangle :=
  ⟨⟨10 + 7 * BUTTON_DX + 2 * BUTTON_DX2, 10⟩, BUTTON_WIDTH2, BUTTON_HEIGHT⟩
def veryThickButtonRect : I2Rectangle :=
  ⟨⟨10 + 7 * BUTTON_DX + 3 * BUTTON_DX2, 10⟩, BUTTON_WIDTH2, BUTTON_HEIGHT⟩
def quitButtonRect : I2Rectangle :=
  ⟨⟨10 + 7 * BUTTON_DX + 4 * BUTTON_DX2, 10⟩, BUTTON_WIDTH, BUTTON_HEIGHT⟩

/-- The body shared by the four color buttons of `mousePressEvent`. -/
def colorButton (s : WhiteBoard) (c : Int) : WhiteBoard :=
  { s with
    currentColor := c
    lastColor := c
    currentWidth := s.lastWidth
    myDrawing := { s.myDrawing with color := c } }

/-- The body shared by the four width buttons of `mousePressEvent`. -/
def widthButton (s : WhiteBoard) (w : Int) : WhiteBoard :=
  { s with
    currentWidth := w
    lastWidth := w
    currentColor := s.lastColor
    myDrawing := { s.myDrawing with color := s.lastColor, width := w } }

/-- Member `mousePressEvent`, for a press at the raw point `t`.  The test
`I2Rectangle::contains` of `R2Graph.h` is the argument `contains`. -/
def mousePressEvent (contains : I2Rectangle → I2Point → Bool) (s : WhiteBoard)
    (t : I2Point) : Except Fault WhiteBoard :=
  if s.mode = MODE_CALIBRATION then calibrationPress s t
  else
    let wp := s.mapMousePoint t
    if contains blackButtonRect wp then .ok (colorButton s BLACK_COLOR_IDX)
    else if contains blueButtonRect wp then .ok (colorButton s BLUE_COLOR_IDX)
    else if contains redButtonRect wp then .ok (colorButton s RED_COLOR_IDX)
    else if contains greenButtonRect wp then .ok (colorButton s GREEN_COLOR_IDX)
    else if contains clearButtonRect wp then
      init { s with
        currentColor := BLACK_COLOR_IDX
        lastColor := BLACK_COLOR_IDX
        currentWidth := LINE_WIDTH }
    else if contains calibrateButtonRect wp then
      .ok { s with mode := MODE_CALIBRATION, numCalibrationClicks := 0 }
    else if contains eraseButtonRect wp then
      .ok { s with
        currentColor := ERASER_COLOR_IDX
        currentWidth := ERASER_WIDTH
        myDrawing := { s.myDrawing with color := ERASER_COLOR_IDX, width := ERASER_WIDTH } }
    else if contains thinButtonRect wp then .ok (widthButton s THIN_WIDTH)
    else if contains normalButtonRect wp then .ok (widthButton s NORMAL_WIDTH)
    else if contains thickButtonRect wp then .ok (widthButton s THICK_WIDTH)
    else if contains veryThickButtonRect wp then .ok (widthButton s VERY_THICK_WIDTH)
    else if contains quitButtonRect wp then .ok s
    else processAction s ⟨Action.START_CURVE, s.currentColor, s.currentWidth, wp⟩

/-- Member `mouseReleaseEvent`, for a release at the raw point `t`. -/
def mouseReleaseEvent (s : WhiteBoard) (t : I2Point) : Except Fault WhiteBoard :=
  if s.mode = MODE_CALIBRATION then .ok s
  else processAction s ⟨Action.END_CURVE, 0, 0, s.mapMousePoint t⟩

/-- Member `mouseMoveEvent`, for a move to the raw point `t`. -/
def mouseMoveEvent (s : WhiteBoard) (t : I2Point) : Except Fault WhiteBoard :=
  if s.myDrawingActive = false then .ok s
  else processAction s ⟨Action.DRAW_CURVE, 0, 0, s.mapMousePoint t⟩

end WhiteBoard

namespace Action

/-- The action `mousePressEvent` builds for a press at window point `p`
with tool `c`, `w`. -/
def startCurve (p : I2Point) (c w : Int) : Action := ⟨START_CURVE, c, w, p⟩

/-- The action `mouseMoveEvent` builds for a move to window point `q`. -/
def drawCurve (q : I2Point) : Action := ⟨DRAW_CURVE, 0, 0, q⟩

/-- The action `mouseReleaseEvent` builds for a release at window point `r`. -/
def endCurve (r : I2Point) : Action := ⟨END_CURVE, 0, 0, r⟩

end Action

/-- A list with every run of equal consecutive elements collapsed to one
element. -/
def collapseRuns : List I2Point → List I2Point
  | [] => []
  | [a] => [a]
  | a :: b :: l => if a = b then collapseRuns (b :: l) else a :: collapseRuns (b :: l)

/-! ## Tool bar and inputs -/

/-- Modelled from the spec: the test `I2Rectangle::contains` of `R2Graph.h`,
which is not among the sources.  The spec gives the rectangle as "a corner
plus width/height" and the test as "true iff `left ≤ p.x ≤ right` and
`top ≤ p.y ≤ bottom`, inclusive".  The handlers take the test as an
argument; this one is used for concrete runs only, at points well inside
or well outside the buttons. -/
def I2Rectangle.contains (r : I2Rectangle) (p : I2Point) : Bool :=
  decide (r.corner.x ≤ p.x ∧ p.x ≤ r.corner.x + r.width
    ∧ r.corner.y ≤ p.y ∧ p.y ≤ r.corner.y + r.height)

/-- The twelve buttons that `mousePressEvent` tests. -/
inductive Button where
  | black
  | blue
  | red
  | green
  | clear
  | calibrate
  | erase
  | thin
  | normal
  | thick
  | veryThick
  | quit
deriving DecidableEq

namespace Button

/-- The rectangle of a button. -/
def rect : Button → I2Rectangle
  | black => WhiteBoard.blackButtonRect
  | blue => WhiteBoard.blueButtonRect
  | red => WhiteBoard.redButtonRect
  | green => WhiteBoard.greenButtonRect
  | clear => WhiteBoard.clearButtonRect
  | calibrate => WhiteBoard.calibrateButtonRect
  | erase => WhiteBoard.eraseButtonRect
  | thin => WhiteBoard.thinButtonRect
  | normal => WhiteBoard.normalButtonRect
  | thick => WhiteBoard.thickButtonRect
  | veryThick => WhiteBoard.veryThickButtonRect
  | quit => WhiteBoard.quitButtonRect

/-- The buttons in the order in which `mousePressEvent` tests them. -/
def order : List Button :=
  [black, blue, red, green, clear, calibrate, erase, thin, normal, thick, veryThick, quit]

/-- The color a color button selects. -/
def color? : Button → Option Int
  | black => some BLACK_COLOR_IDX
  | blue => some BLUE_COLOR_IDX
  | red => some RED_COLOR_IDX
  | green => some GREEN_COLOR_IDX
  | _ => none

/-- The width a width button selects. -/
def width? : Button → Option Int
  | thin => some THIN_WIDTH
  | normal => some NORMAL_WIDTH
  | thick => some THICK_WIDTH
  | veryThick => some VERY_THICK_WIDTH
  | _ => none

/-- The nine tool-selection buttons: four colors, four widths, the eraser. -/
def isTool (b : Button) : Bool :=
  (color? b).isSome || (width? b).isSome || decide (b = erase)

end Button

/-- The button a press at window point `wp` lands on: the first one, in the
order of the tests of `mousePressEvent`, whose rectangle contains `wp`. -/
def hitButton (contains : I2Rectangle → I2Point → Bool) (wp : I2Point) : Option Button :=
  Button.order.find? fun b => contains b.rect wp

namespace WhiteBoard

/-- The drawing-mode part of `mousePressEvent` once the button under the
window point `wp` is known (`none`: no button). -/
def pressButton (s : WhiteBoard) (wp : I2Point) : Option Button → Except Fault WhiteBoard
  | some .black => .ok (colorButton s BLACK_COLOR_IDX)
  | some .blue => .ok (colorButton s BLUE_COLOR_IDX)
  | some .red => .ok (colorButton s RED_COLOR_IDX)
  | some .green => .ok (colorButton s GREEN_COLOR_IDX)
  | some .clear =>
    init { s with
      currentColor := BLACK_COLOR_IDX
      lastColor := BLACK_COLOR_IDX
      currentWidth := LINE_WIDTH }
  | some .calibrate => .ok { s with mode := MODE_CALIBRATION, numCalibrationClicks := 0 }
  | some .erase =>
    .ok { s with
      currentColor := ERASER_COLOR_IDX
      currentWidth := ERASER_WIDTH
      myDrawing := { s.myDrawing with color := ERASER_COLOR_IDX, width := ERASER_WIDTH } }
  | some .thin => .ok (widthButton s THIN_WIDTH)
  | some .normal => .ok (widthButton s NORMAL_WIDTH)
  | some .thick => .ok (widthButton s THICK_WIDTH)
  | some .veryThick => .ok (widthButton s VERY_THICK_WIDTH)
  | some .quit => .ok s
  | none => processAction s ⟨Action.START_CURVE, s.currentColor, s.currentWidth, wp⟩

end WhiteBoard

/-- What the widget can be given: the three pointer events at a raw point,
and, for the claims that speak of actions and clears, a direct call of
`processAction` or of `init`. -/
inductive Input where
  | press (t : I2Point)
  | release (t : I2Point)
  | move (t : I2Point)
  | action (a : Action)
  | clear

namespace WhiteBoard

/-- One input handled by the widget. -/
def step (contains : I2Rectangle → I2Point → Bool) (s : WhiteBoard) :
    Input → Except Fault WhiteBoard
  | .press t => s.mousePressEvent contains t
  | .release t => s.mouseReleaseEvent t
  | .move t => s.mouseMoveEvent t
  | .action a => s.processAction a
  | .clear => s.init

/-- A list of inputs handled in order. -/
def run (contains : I2Rectangle → I2Point → Bool) (s : WhiteBoard) (inputs : List Input) :
    Except Fault WhiteBoard :=
  inputs.foldlM (step contains) s

end WhiteBoard

/-- The states the widget can be in: the constructor's state and every
state a handled input leads to from such a state. -/
inductive Reachable (contains : I2Rectangle → I2Point → Bool) : WhiteBoard → Prop where
  | new (clicks : Fin NUM_CALIBRATION_POINTS → I2Point) :
      Reachable contains (WhiteBoard.new clicks)
  | step {s s' : WhiteBoard} (i : Input) :
      Reachable contains s → s.step contains i = .ok s' → Reachable contains s'

/-- The inputs whose color, if they carry one, is a subscript of the
palette: every pointer event and `init`, and a call of `processAction` with
a color in `[0, NUM_COLORS)`, as in every call the handlers make
(`currentColor` or 0). -/
def Input.Palette : Input → Prop
  | .action a => 0 ≤ a.color ∧ a.color < NUM_COLORS
  | _ => True

/-- The states the widget reaches on inputs with a palette color: the
constructor's state and every state a handled input with a palette color
leads to from such a state.  They include every state reached by pointer
events. -/
inductive PaletteReachable (contains : I2Rectangle → I2Point → Bool) :
    WhiteBoard → Prop where
  | new (clicks : Fin NUM_CALIBRATION_POINTS → I2Point) :
      PaletteReachable contains (WhiteBoard.new clicks)
  | step {s s' : WhiteBoard} (i : Input) :
      i.Palette → PaletteReachable contains s → s.step contains i = .ok s' →
      PaletteReachable contains s'

/-- The cached path of a stroke mirrors its points: null when there are no
points, the points otherwise. -/
def Stroke.PathMirrors (m : Stroke) : Prop :=
  m.qPath = if m.points = [] then none else some m.points

/-- The well-formedness the handlers maintain: page 0 is the active page
and the path of the in-progress stroke mirrors its points. -/
def WhiteBoard.WF (s : WhiteBoard) : Prop :=
  s.currentPage = 0 ∧ s.myDrawing.PathMirrors

/-- A stroke that `drawStroke` handles without fault: its color is not
negative, so that `color % NUM_COLORS` is a subscript of the palette, and
its path mirrors its points. -/
def Stroke.Drawable (m : Stroke) : Prop :=
  0 ≤ m.color ∧ m.PathMirrors

/-! ## Assignment of strokes (`whitebrd.h`) -/

namespace Stroke

/-- Member `operator=(str)` when `str` is another object than `*this`. -/
def assign (_self str : Stroke) : Stroke :=
  { color := str.color
    width := str.width
    points := str.points
    qPath := match str.qPath with
      | none => none
      | some q => some q
    finished := str.finished }

/-- Member `operator=(str)` when `str` is `*this` itself (`s = s`): the
fields are assigned to themselves, the path is deleted and set to null,
and the test `str.qPath != 0` then reads that null pointer. -/
def assignSelf (self : Stroke) : Stroke :=
  { color := self.color
    width := self.width
    points := self.points
    qPath := none
    finished := self.finished }

end Stroke

/-- The strokes obtained from a default-constructed one by `push_back`,
`clear`, `finalize`, copy construction, assignment from another such
stroke, and the writes to `color` and `width` the handlers make. -/
inductive Stroke.Built : Stroke → Prop where
  | new : Stroke.Built Stroke.new
  | push_back {m m' : Stroke} (p : I2Point) :
      Stroke.Built m → m.push_back p = .ok m' → Stroke.Built m'
  | clear {m : Stroke} : Stroke.Built m → Stroke.Built m.clear
  | finalize {m : Stroke} : Stroke.Built m → Stroke.Built m.finalize
  | copy {m : Stroke} : Stroke.Built m → Stroke.Built (Stroke.copy m)
  | assign {m str : Stroke} : Stroke.Built m → Stroke.Built str → Stroke.Built (m.assign str)
  | setTool {m : Stroke} (c w : Int) :
      Stroke.Built m → Stroke.Built { m with color := c, width := w }

/-! ## The X11 build (`whiteboard.cpp`) -/

/-- Class `Stroke` of the X11 build: color, width and points only. -/
structure XStroke where
  color : Int
  width : Int
  points : List I2Point
deriving DecidableEq

/-- Class `MyWindow::Page`. -/
structure XPage where
  strokes : List XStroke
deriving DecidableEq

/-- The fields of class `MyWindow` that the handlers read or write. -/
structure MyWindow where
  pages : Fin MAX_PAGES → XPage
  currentPage : Int
  myDrawing : XStroke
  myDrawingActive : Bool
  mode : Int
  currentColor : Int
  currentWidth : Int
  lastColor : Int
  lastWidth : Int
  calibrationPoints : Fin NUM_CALIBRATION_POINTS → I2Point
  calibrationClicks : Fin NUM_CALIBRATION_POINTS → I2Point
  numCalibrationClicks : Int
  xIntercept : ℚ
  xSlope : ℚ
  yIntercept : ℚ
  ySlope : ℚ

namespace MyWindow

/-- The statement `pages[currentPage].strokes.push_back(str)`. -/
def pushStroke (s : MyWindow) (str : XStroke) : Except Fault MyWindow :=
  match index? MAX_PAGES s.currentPage with
  | none => .error .outOfRange
  | some i =>
    .ok { s with
      pages := Function.update s.pages i (XPage.mk ((s.pages i).strokes ++ [str])) }

/-- Member `MyWindow::init()`. -/
def init (s : MyWindow) : Except Fault MyWindow :=
  match index? MAX_PAGES s.currentPage with
  | none => .error .outOfRange
  | some i =>
    .ok { s with
      pages := Function.update s.pages i (XPage.mk [])
      myDrawingActive := false }

/-- Member `MyWindow::drawStroke`.  The X calls change no field; what is
kept of them is the subscript `strokeColors[str.color % NUM_COLORS]`, read
whenever the stroke has a point. -/
def drawStroke (str : XStroke) : Except Fault Unit :=
  if (str.points.length : Int) = 0 then .ok ()
  else
    match index? 5 (paletteIndex str.color) with
    | none => .error .outOfRange
    | some _ => .ok ()

/-- The subscript of `strokeColors[curve->color]` in the DRAW_CURVE branch
of `MyWindow::processAction`. -/
def drawCurveColorIndex (s : MyWindow) : Option (Fin 5) :=
  index? 5 s.myDrawing.color

/-- Member `MyWindow::processAction`.  Of the drawing calls the palette
subscripts are kept: `drawStroke(*curve)` in the three branches and
`setForeground(strokeColors[curve->color])` in DRAW_CURVE; `drawLineStrip`
and `drawButtons` change none of the fields and are left out. -/
def processAction (s : MyWindow) (a : Action) : Except Fault MyWindow :=
  if a.type = Action.START_CURVE then
    (if s.myDrawingActive = true ∧ (s.myDrawing.points.length : Int) > 0 then
      (pushStroke s s.myDrawing).bind fun s1 =>
        .ok { s1 with myDrawing := { s1.myDrawing with points := [] } }
    else .ok s).bind fun s1 =>
    (drawStroke
      { color := a.color, width := a.width, points := s1.myDrawing.points ++ [a.point] }).bind
    fun _ =>
    .ok { s1 with
      myDrawing :=
        { color := a.color, width := a.width, points := s1.myDrawing.points ++ [a.point] }
      myDrawingActive := true }
  else if a.type = Action.DRAW_CURVE then
    if s.myDrawingActive = false then .ok s
    else if (s.myDrawing.points.length : Int) ≤ 2 then
      (drawStroke { s.myDrawing with points := s.myDrawing.points ++ [a.point] }).bind fun _ =>
      .ok { s with myDrawing := { s.myDrawing with points := s.myDrawing.points ++ [a.point] } }
    else
      match s.myDrawing.points.getLast? with
      | none => .error .outOfRange
      | some lastPoint =>
        if a.point ≠ lastPoint then
          match s.drawCurveColorIndex with
          | none => .error .outOfRange
          | some _ =>
            .ok { s with
              myDrawing := { s.myDrawing with points := s.myDrawing.points ++ [a.point] } }
        else .ok s
  else if a.type = Action.END_CURVE then
    (if s.myDrawingActive = true ∧ (s.myDrawing.points.length : Int) > 0 then
      (pushStroke s s.myDrawing).bind fun s1 =>
      (drawStroke s1.myDrawing).bind fun _ =>
        .ok { s1 with myDrawing := { s1.myDrawing with points := [] } }
    else .ok s).bind fun s1 =>
    .ok { s1 with myDrawingActive := false }
  else .ok s

end MyWindow

/-! ### The X11 handlers (`whiteboard.cpp`) -/

namespace MyWindow

/-- The X11 build's `ERASER_WIDTH`. -/
abbrev ERASER_WIDTH : Int := 15

/-- Constructor `MyWindow::MyWindow`.  `myDrawing()` value-initializes the
stroke (color 0, width 0, no points); `calibrationClicks` is left to the
default constructor of `I2Point`, its value being the argument `clicks`. -/
def new (clicks : Fin NUM_CALIBRATION_POINTS → I2Point) : MyWindow :=
  { pages := fun _ => { strokes := [] }
    currentPage := 0
    myDrawing := { color := 0, width := 0, points := [] }
    myDrawingActive := false
    mode := MODE_CALIBRATION
    currentColor := BLACK_COLOR_IDX
    currentWidth := THICK_WIDTH
    lastColor := BLACK_COLOR_IDX
    lastWidth := THICK_WIDTH
    calibrationPoints := fun i => if i = 0 then ⟨100, 100⟩ else ⟨500, 400⟩
    calibrationClicks := clicks
    numCalibrationClicks := 0
    xIntercept := 0
    xSlope := 1
    yIntercept := 0
    ySlope := 1 }

/-- Member `MyWindow::mapMousePoint`. -/
def mapMousePoint (s : MyWindow) (mousePoint : I2Point) : I2Point :=
  { x := toInt (s.xIntercept + (mousePoint.x : ℚ) * s.xSlope + 49 / 100)
    y := toInt (s.yIntercept + (mousePoint.y : ℚ) * s.ySlope + 49 / 100) }

/-- The branch `mode == MODE_CALIBRATION` of `onButtonPress`. -/
def calibrationPress (s : MyWindow) (t : I2Point) : Except Fault MyWindow :=
  if ¬ s.numCalibrationClicks < (NUM_CALIBRATION_POINTS : Int) then
    .error .assertFailed
  else
    match index? NUM_CALIBRATION_POINTS s.numCalibrationClicks with
    | none => .error .outOfRange
    | some i =>
      let s1 : MyWindow :=
        { s with calibrationClicks := Function.update s.calibrationClicks i t
                 numCalibrationClicks := s.numCalibrationClicks + 1 }
      if s1.numCalibrationClicks = (NUM_CALIBRATION_POINTS : Int) then
        let lastClick : Fin NUM_CALIBRATION_POINTS := 1
        if t.x = (s1.calibrationPoints 0).x ∨ t.y = (s1.calibrationPoints 0).y then
          .ok s1
        else
          (fdiv (((s1.calibrationPoints lastClick).x - (s1.calibrationPoints 0).x : Int) : ℚ)
                (((s1.calibrationClicks lastClick).x - (s1.calibrationClicks 0).x : Int) : ℚ)).bind
          fun xSlope =>
          (fdiv (((s1.calibrationPoints lastClick).y - (s1.calibrationPoints 0).y : Int) : ℚ)
                (((s1.calibrationClicks lastClick).y - (s1.calibrationClicks 0).y : Int) : ℚ)).bind
          fun ySlope =>
          let s2 : MyWindow :=
            { s1 with xSlope := xSlope
                      ySlope := ySlope
                      xIntercept := ((s1.calibrationPoints 0).x : ℚ)
                        - ((s1.calibrationClicks 0).x : ℚ) * xSlope
                      yIntercept := ((s1.calibrationPoints 0).y : ℚ)
                        - ((s1.calibrationClicks 0).y : ℚ) * ySlope }
          if s2.numCalibrationClicks ≥ (NUM_CALIBRATION_POINTS : Int) then
            .ok { s2 with mode := MODE_NORMAL }
          else .ok s2
      else if s1.numCalibrationClicks ≥ (NUM_CALIBRATION_POINTS : Int) then
        .ok { s1 with mode := MODE_NORMAL }
      else .ok s1

/-- The body shared by the four color buttons of `onButtonPress`. -/
def colorButton (s : MyWindow) (c : Int) : MyWindow :=
  { s with
    currentColor := c
    lastColor := c
    currentWidth := s.lastWidth
    myDrawing := { s.myDrawing with color := c } }

/-- The body shared by the four width buttons of `onButtonPress`. -/
def widthButton (s : MyWindow) (w : Int) : MyWindow :=
  { s with
    currentWidth := w
    lastWidth := w
    currentColor := s.lastColor
    myDrawing := { s.myDrawing with color := s.lastColor, width := w } }

/-- Member `onButtonPress`, for a press at the raw point `t`; the test
`I2Rectangle::contains` is the argument `contains`, the button rectangles
are those of the Qt build. -/
def onButtonPress (contains : I2Rectangle → I2Point → Bool) (s : MyWindow)
    (t : I2Point) : Except Fault MyWindow :=
  if s.mode = MODE_CALIBRATION then calibrationPress s t
  else
    let wp := s.mapMousePoint t
    if contains WhiteBoard.blackButtonRect wp then .ok (colorButton s BLACK_COLOR_IDX)
    else if contains WhiteBoard.blueButtonRect wp then .ok (colorButton s BLUE_COLOR_IDX)
    else if contains WhiteBoard.redButtonRect wp then .ok (colorButton s RED_COLOR_IDX)
    else if contains WhiteBoard.greenButtonRect wp then .ok (colorButton s GREEN_COLOR_IDX)
    else if contains WhiteBoard.clearButtonRect wp then
      init { s with
        currentColor := BLACK_COLOR_IDX
        lastColor := BLACK_COLOR_IDX
        currentWidth := LINE_WIDTH }
    else if contains WhiteBoard.calibrateButtonRect wp then
      .ok { s with mode := MODE_CALIBRATION, numCalibrationClicks := 0 }
    else if contains WhiteBoard.eraseButtonRect wp then
      .ok { s with
        currentColor := ERASER_COLOR_IDX
        currentWidth := MyWindow.ERASER_WIDTH
        myDrawing :=
          { s.myDrawing with color := ERASER_COLOR_IDX, width := MyWindow.ERASER_WIDTH } }
    else if contains WhiteBoard.thinButtonRect wp then .ok (widthButton s THIN_WIDTH)
    else if contains WhiteBoard.normalButtonRect wp then .ok (widthButton s NORMAL_WIDTH)
    else if contains WhiteBoard.thickButtonRect wp then .ok (widthButton s THICK_WIDTH)
    else if contains WhiteBoard.veryThickButtonRect wp then
      .ok (widthButton s VERY_THICK_WIDTH)
    else if contains WhiteBoard.quitButtonRect wp then .ok s
    else processAction s ⟨Action.START_CURVE, s.currentColor, s.currentWidth, wp⟩

/-- The drawing-mode part of `onButtonPress` once the button under the
window point `wp` is known (`none`: no button). -/
def pressButton (s : MyWindow) (wp : I2Point) : Option Button → Except Fault MyWindow
  | some .black => .ok (colorButton s BLACK_COLOR_IDX)
  | some .blue => .ok (colorButton s BLUE_COLOR_IDX)
  | some .red => .ok (colorButton s RED_COLOR_IDX)
  | some .green => .ok (colorButton s GREEN_COLOR_IDX)
  | some .clear =>
    init { s with
      currentColor := BLACK_COLOR_IDX
      lastColor := BLACK_COLOR_IDX
      currentWidth := LINE_WIDTH }
  | some .calibrate => .ok { s with mode := MODE_CALIBRATION, numCalibrationClicks := 0 }
  | some .erase =>
    .ok { s with
      currentColor := ERASER_COLOR_IDX
      currentWidth := MyWindow.ERASER_WIDTH
      myDrawing :=
        { s.myDrawing with color := ERASER_COLOR_IDX, width := MyWindow.ERASER_WIDTH } }
  | some .thin => .ok (widthButton s THIN_WIDTH)
  | some .normal => .ok (widthButton s NORMAL_WIDTH)
  | some .thick => .ok (widthButton s THICK_WIDTH)
  | some .veryThick => .ok (widthButton s VERY_THICK_WIDTH)
  | some .quit => .ok s
  | none => processAction s ⟨Action.START_CURVE, s.currentColor, s.currentWidth, wp⟩

/-- Member `onButtonRelease`. -/
def onButtonRelease (s : MyWindow) (t : I2Point) : Except Fault MyWindow :=
  if s.mode = MODE_CALIBRATION then .ok s
  else processAction s ⟨Action.END_CURVE, 0, 0, s.mapMousePoint t⟩

/-- Member `onMotionNotify`. -/
def onMotionNotify (s : MyWindow) (t : I2Point) : Except Fault MyWindow :=
  if s.myDrawingActive = false then .ok s
  else processAction s ⟨Action.DRAW_CURVE, 0, 0, s.mapMousePoint t⟩

/-- Member `onKeyPress`, for the first character `key` of the key name:
`q` closes the window, `i` clears, `c` starts a calibration. -/
def onKeyPress (s : MyWindow) (key : Char) : Except Fault MyWindow :=
  if key = 'q' then .ok s
  else if key = 'i' ∨ key = 'I' then init s
  else if key = 'c' ∨ key = 'C' then
    .ok { s with mode := MODE_CALIBRATION, numCalibrationClicks := 0 }
  else .ok s

end MyWindow

/-- The events the X11 window is given. -/
inductive XInput where
  | press (t : I2Point)
  | release (t : I2Point)
  | move (t : I2Point)
  | key (c : Char)

/-- One event handled by the X11 window. -/
def MyWindow.step (contains : I2Rectangle → I2Point → Bool) (s : MyWindow) :
    XInput → Except Fault MyWindow
  | .press t => s.onButtonPress contains t
  | .release t => s.onButtonRelease t
  | .move t => s.onMotionNotify t
  | .key c => s.onKeyPress c

/-- The states of the X11 window: the constructor's state and every state a
handled event leads to from such a state. -/
inductive XReachable (contains : I2Rectangle → I2Point → Bool) : MyWindow → Prop where
  | new (clicks : Fin NUM_CALIBRATION_POINTS → I2Point) :
      XReachable contains (MyWindow.new clicks)
  | step {s s' : MyWindow} (e : XInput) :
      XReachable contains s → s.step contains e = .ok s' → XReachable contains s'

/-- The tool state is in range: `currentColor` is a palette index,
`lastColor` a non-eraser index, `lastWidth` one of the four pen widths. -/
def ToolInRange (currentColor lastColor lastWidth : Int) : Prop :=
  (0 ≤ currentColor ∧ currentColor < NUM_COLORS)
    ∧ (lastColor = 0 ∨ lastColor = 1 ∨ lastColor = 2 ∨ lastColor = 3)
    ∧ (lastWidth = 1 ∨ lastWidth = 2 ∨ lastWidth = 3 ∨ lastWidth = 5)

/-! ## Auxiliary lemmas -/

theorem collapseRuns_eq_destutter (xs : List I2Point) :
    collapseRuns xs = xs.destutter (· ≠ ·) := by
  induction xs with
  | nil => rfl
  | cons a l ih =>
    cases l with
    | nil => rfl
    | cons b l =>
      rw [collapseRuns, ih, List.destutter_cons_cons]
      by_cases h : a = b
      · subst h
        simp [List.destutter]
      · simp [h, List.destutter]

theorem size_eq_zero_iff (s : Stroke) : s.size = 0 ↔ s.points = [] := by
  unfold Stroke.size
  constructor
  · intro h
    exact List.length_eq_zero.mp (by exact_mod_cast h)
  · intro h
    simp [h]

theorem push_back_empty (s : Stroke) (p : I2Point) (h : s.points = []) :
    s.push_back p = .ok { s with qPath := some [p], points := [p] } := by
  unfold Stroke.push_back
  rw [if_pos ((size_eq_zero_iff s).mpr h), h]
  rfl

theorem push_back_snoc (s : Stroke) (p a : I2Point) (init path : List I2Point)
    (hpts : s.points = init ++ [a]) (hpath : s.qPath = some path) :
    s.push_back p =
      .ok (if p = a then s
           else { s with points := init ++ [a] ++ [p], qPath := some (path ++ [p]) }) := by
  unfold Stroke.push_back
  have hne : ¬ s.size = 0 := by
    rw [size_eq_zero_iff, hpts]
    simp
  rw [if_neg hne, hpts, hpath]
  simp only [List.getLast?_append, List.getLast?_singleton, Option.or_some]
  by_cases h : p = a
  · simp [h]
  · simp [h]

/-- Pushing a list of points onto a stroke that ends in `a` and whose
path mirrors its points. -/
theorem pushAll_snoc (l : List I2Point) :
    ∀ (s : Stroke) (a : I2Point) (init : List I2Point),
      s.points = init ++ [a] → s.qPath = some (init ++ [a]) →
      s.pushAll l =
        .ok { s with points := init ++ List.destutter' (· ≠ ·) a l
                     qPath := some (init ++ List.destutter' (· ≠ ·) a l) } := by
  induction l with
  | nil =>
    intro s a init hpts hpath
    cases s
    simp_all [Stroke.pushAll, pure, Except.pure]
  | cons b l ih =>
    intro s a init hpts hpath
    unfold Stroke.pushAll
    rw [List.foldlM_cons, push_back_snoc s b a init (init ++ [a]) hpts hpath]
    by_cases h : b = a
    · subst h
      have := ih s b init hpts hpath
      unfold Stroke.pushAll at this
      simp only [if_true, bind, Except.bind, this]
      simp [List.destutter']
    · have hab : a ≠ b := fun e => h e.symm
      have := ih { s with points := init ++ [a] ++ [b], qPath := some (init ++ [a] ++ [b]) }
        b (init ++ [a]) rfl rfl
      unfold Stroke.pushAll at this
      simp only [if_neg h, bind, Except.bind, this]
      simp [List.destutter', hab]

/-- Pushing a non-empty list onto a stroke without points. -/
theorem pushAll_cons_of_empty (s : Stroke) (p : I2Point) (l : List I2Point)
    (h : s.points = []) :
    s.pushAll (p :: l) =
      .ok { s with points := collapseRuns (p :: l), qPath := some (collapseRuns (p :: l)) } := by
  have hstep : s.pushAll (p :: l) =
      Stroke.pushAll { s with qPath := some [p], points := [p] } l := by
    unfold Stroke.pushAll
    rw [List.foldlM_cons, push_back_empty s p h]
    rfl
  rw [hstep, pushAll_snoc l _ p [] rfl rfl, collapseRuns_eq_destutter]
  rfl

theorem copy_eq (str : Stroke) : Stroke.copy str = str := by
  cases str with
  | mk c w pts q f => cases q <;> rfl

theorem index_some (n : Nat) (i : Int) (h0 : 0 ≤ i) (h1 : i < (n : Int)) :
    ∃ c : Fin n, index? n i = some c ∧ ((c : Nat) : Int) = i := by
  unfold index?
  rw [dif_pos ⟨h0, h1⟩]
  exact ⟨_, rfl, Int.toNat_of_nonneg h0⟩

/-- For a non-negative color the palette index is the remainder modulo
`NUM_COLORS` and a valid subscript of `strokeColors`. -/
theorem paletteIndex_of_nonneg (color : Int) (h : 0 ≤ color) :
    ∃ c : Fin 5, index? 5 (paletteIndex color) = some c
      ∧ ((c : Nat) : Int) = color % NUM_COLORS := by
  have e : paletteIndex color = color % 5 := by
    unfold paletteIndex
    exact Int.tmod_eq_emod h (by decide)
  have h0 : 0 ≤ color % 5 := Int.emod_nonneg _ (by decide)
  have h1 : color % 5 < 5 := Int.emod_lt_of_pos _ (by decide)
  obtain ⟨c, hc, hv⟩ := index_some 5 (color % 5) h0 (by exact_mod_cast h1)
  exact ⟨c, by rw [e]; exact hc, hv⟩

theorem length_eq_one_size (str : Stroke) (p : I2Point) (h : str.points = [p]) :
    str.size = 1 := by
  unfold Stroke.size
  rw [h]
  rfl

/-- `drawStroke` handles a drawable stroke without fault. -/
theorem drawStroke_ok (m : Stroke) (h : m.Drawable) :
    ∃ r, WhiteBoard.drawStroke m = .ok r := by
  obtain ⟨hc, hm⟩ := h
  obtain ⟨c, hidx, -⟩ := paletteIndex_of_nonneg m.color hc
  unfold WhiteBoard.drawStroke
  by_cases h0 : m.size = 0
  · rw [if_pos h0]
    exact ⟨_, rfl⟩
  · rw [if_neg h0, hidx]
    have hne : m.points ≠ [] := fun e => h0 ((size_eq_zero_iff m).mpr e)
    have hq : m.qPath = some m.points := by
      rw [hm, if_neg hne]
    by_cases h1 : m.size = 1
    · by_cases hf : m.finished = true
      · cases hp : m.points with
        | nil => exact absurd hp hne
        | cons p l =>
          simp only [h1, hf, if_true, List.getElem?_cons_zero]
          exact ⟨_, rfl⟩
      · simp only [h1, hf, if_true]
        exact ⟨_, rfl⟩
    · simp only [if_neg h1, hq]
      exact ⟨_, rfl⟩

theorem drawStrokes_ok (l : List Stroke) (h : ∀ m ∈ l, m.Drawable) :
    ∃ r, WhiteBoard.drawStrokes l = .ok r := by
  induction l with
  | nil => exact ⟨_, rfl⟩
  | cons m l ih =>
    obtain ⟨r, hr⟩ := drawStroke_ok m (h m (List.mem_cons_self _ _))
    obtain ⟨rs, hrs⟩ := ih fun x hx => h x (List.mem_cons_of_mem _ hx)
    unfold WhiteBoard.drawStrokes
    rw [hr, hrs]
    exact ⟨_, rfl⟩

/-- Outside calibration mode, with a valid active page whose strokes are
drawable and a drawable stroke in progress, `drawInOffscreen` returns. -/
theorem drawInOffscreen_ok (s : WhiteBoard) (i : Fin MAX_PAGES)
    (hmode : s.mode ≠ MODE_CALIBRATION) (hidx : index? MAX_PAGES s.currentPage = some i)
    (hstrokes : ∀ m ∈ (s.pages i).strokes, m.Drawable)
    (hm : s.myDrawingActive = true → s.myDrawing.Drawable) :
    ∃ r, s.drawInOffscreen = .ok r := by
  obtain ⟨rs, hrs⟩ := drawStrokes_ok (s.pages i).strokes hstrokes
  unfold WhiteBoard.drawInOffscreen
  rw [if_neg hmode, hidx]
  simp only [hrs, Except.bind]
  by_cases hact : s.myDrawingActive = true
  · obtain ⟨r, hr⟩ := drawStroke_ok s.myDrawing (hm hact)
    rw [if_pos hact, hr]
    exact ⟨_, rfl⟩
  · rw [if_neg hact]
    exact ⟨_, rfl⟩

theorem drawInOffscreen_calibration (s : WhiteBoard) (hmode : s.mode = MODE_CALIBRATION) :
    s.drawInOffscreen = .error .assertFailed := by
  unfold WhiteBoard.drawInOffscreen
  rw [if_pos hmode]

theorem calibrationPress_first (s : WhiteBoard) (t : I2Point)
    (h : s.numCalibrationClicks = 0) :
    s.calibrationPress t =
      .ok { s with calibrationClicks := Function.update s.calibrationClicks 0 t
                   numCalibrationClicks := 1 } := by
  unfold WhiteBoard.calibrationPress
  simp [h, index?]

theorem calibrationPress_second_rejected (s : WhiteBoard) (t : I2Point)
    (h : s.numCalibrationClicks = 1)
    (hg : t.x = (s.calibrationPoints 0).x ∨ t.y = (s.calibrationPoints 0).y) :
    s.calibrationPress t =
      .ok { s with calibrationClicks := Function.update s.calibrationClicks 1 t
                   numCalibrationClicks := 2 } := by
  unfold WhiteBoard.calibrationPress
  simp [h, index?, hg]

theorem calibrationPress_second_accepted (s : WhiteBoard) (t : I2Point)
    (h : s.numCalibrationClicks = 1)
    (hgx : t.x ≠ (s.calibrationPoints 0).x) (hgy : t.y ≠ (s.calibrationPoints 0).y)
    (hx : t.x ≠ (s.calibrationClicks 0).x) (hy : t.y ≠ (s.calibrationClicks 0).y) :
    s.calibrationPress t =
      .ok { s with
        calibrationClicks := Function.update s.calibrationClicks 1 t
        numCalibrationClicks := 2
        mode := MODE_NORMAL
        xSlope := (((s.calibrationPoints 1).x - (s.calibrationPoints 0).x : Int) : ℚ)
          / ((t.x - (s.calibrationClicks 0).x : Int) : ℚ)
        ySlope := (((s.calibrationPoints 1).y - (s.calibrationPoints 0).y : Int) : ℚ)
          / ((t.y - (s.calibrationClicks 0).y : Int) : ℚ)
        xIntercept := ((s.calibrationPoints 0).x : ℚ) - ((s.calibrationClicks 0).x : ℚ)
          * ((((s.calibrationPoints 1).x - (s.calibrationPoints 0).x : Int) : ℚ)
              / ((t.x - (s.calibrationClicks 0).x : Int) : ℚ))
        yIntercept := ((s.calibrationPoints 0).y : ℚ) - ((s.calibrationClicks 0).y : ℚ)
          * ((((s.calibrationPoints 1).y - (s.calibrationPoints 0).y : Int) : ℚ)
              / ((t.y - (s.calibrationClicks 0).y : Int) : ℚ)) } := by
  have hx' : (t.x : ℚ) - ((s.calibrationClicks 0).x : ℚ) ≠ 0 := by
    exact_mod_cast sub_ne_zero.mpr hx
  have hy' : (t.y : ℚ) - ((s.calibrationClicks 0).y : ℚ) ≠ 0 := by
    exact_mod_cast sub_ne_zero.mpr hy
  unfold WhiteBoard.calibrationPress
  simp [h, index?, hgx, hgy, fdiv, Except.bind, hx', hy']


theorem toInt_of_nonneg (v : ℚ) (h : 0 ≤ v) : toInt v = ⌊v⌋ := by
  unfold toInt
  rw [Rat.floor_def]
  exact Int.tdiv_eq_ediv (Rat.num_nonneg.mpr h) (Int.ofNat_nonneg _)

theorem toInt_neg (v : ℚ) : toInt (-v) = -toInt v := by
  unfold toInt
  rw [Rat.neg_num, Rat.neg_den, Int.neg_tdiv]

theorem toInt_of_nonpos (v : ℚ) (h : v ≤ 0) : toInt v = ⌈v⌉ := by
  have h1 : toInt (-v) = ⌊-v⌋ := toInt_of_nonneg (-v) (neg_nonneg.mpr h)
  rw [toInt_neg, Int.floor_neg] at h1
  omega

/-- The conversion `(int) v` drops the fractional part: it is the floor of
a non-negative value and the ceiling of a negative one. -/
theorem toInt_eq (v : ℚ) : toInt v = if 0 ≤ v then ⌊v⌋ else ⌈v⌉ := by
  split
  · next h => exact toInt_of_nonneg v h
  · next h => exact toInt_of_nonpos v (le_of_lt (not_le.mp h))

theorem toInt_intCast_add (n : Int) (h : 0 ≤ n) : toInt ((n : ℚ) + 49 / 100) = n := by
  have hn : (0 : ℚ) ≤ (n : ℚ) := by exact_mod_cast h
  rw [toInt_of_nonneg _ (by linarith), Int.floor_eq_iff]
  constructor <;> linarith

theorem toInt_eq_of_floor (v : ℚ) (n : Int) (h0 : 0 ≤ v) (h1 : (n : ℚ) ≤ v)
    (h2 : v < (n : ℚ) + 1) : toInt v = n := by
  rw [toInt_of_nonneg v h0, Int.floor_eq_iff]
  exact ⟨h1, h2⟩

theorem toInt_eq_of_ceil (v : ℚ) (n : Int) (h0 : v ≤ 0) (h1 : (n : ℚ) - 1 < v)
    (h2 : v ≤ (n : ℚ)) : toInt v = n := by
  rw [toInt_of_nonpos v h0, Int.ceil_eq_iff]
  exact ⟨h1, h2⟩

/-- With the constructor's transform a negative coordinate comes back one
larger. -/
theorem toInt_intCast_add_of_neg (n : Int) (h : n < 0) :
    toInt ((n : ℚ) + 49 / 100) = n + 1 := by
  have hn : (n : ℚ) ≤ -1 := by exact_mod_cast (by omega : n ≤ -1)
  apply toInt_eq_of_ceil
  · linarith
  · push_cast; linarith
  · push_cast; linarith

theorem mousePressEvent_calibration (contains : I2Rectangle → I2Point → Bool)
    (s : WhiteBoard) (t : I2Point) (h : s.mode = MODE_CALIBRATION) :
    s.mousePressEvent contains t = s.calibrationPress t := by
  unfold WhiteBoard.mousePressEvent
  rw [if_pos h]

theorem calibrationPress_second_zero_denominator (s : WhiteBoard) (t : I2Point)
    (h : s.numCalibrationClicks = 1)
    (hgx : t.x ≠ (s.calibrationPoints 0).x) (hgy : t.y ≠ (s.calibrationPoints 0).y)
    (hz : t.x = (s.calibrationClicks 0).x ∨ t.y = (s.calibrationClicks 0).y) :
    s.calibrationPress t = .error .divisionByZero := by
  unfold WhiteBoard.calibrationPress
  by_cases hx : (t.x : ℚ) - ((s.calibrationClicks 0).x : ℚ) = 0
  · simp [h, index?, hgx, hgy, fdiv, Except.bind, hx]
  · have hy : (t.y : ℚ) - ((s.calibrationClicks 0).y : ℚ) = 0 := by
      rcases hz with hz | hz
      · exact absurd (by rw [hz]; ring) hx
      · rw [hz]; ring
    simp [h, index?, hgx, hgy, fdiv, Except.bind, hx, hy]

theorem calibrationPress_assert (s : WhiteBoard) (t : I2Point)
    (h : 2 ≤ s.numCalibrationClicks) :
    s.calibrationPress t = .error .assertFailed := by
  unfold WhiteBoard.calibrationPress
  rw [if_pos (by push_cast; omega)]

/-- The biased truncation of `mapMousePoint` on a value `v ≥ -0.49`: the
nearest integer, except that a fractional part in `[0.5, 0.51)` is rounded
down. -/
theorem toInt_bias (v : ℚ) (h : -(49 / 100) ≤ v) :
    toInt (v + 49 / 100) =
      if 1 / 2 ≤ Int.fract v ∧ Int.fract v < 51 / 100 then ⌊v⌋ else ⌊v + 1 / 2⌋ := by
  have hv : (⌊v⌋ : ℚ) + Int.fract v = v := Int.floor_add_fract v
  have hf0 : 0 ≤ Int.fract v := Int.fract_nonneg v
  have hf1 : Int.fract v < 1 := Int.fract_lt_one v
  rw [toInt_of_nonneg _ (by linarith)]
  split
  · next hc =>
    rw [Int.floor_eq_iff]
    constructor <;> linarith [hc.1, hc.2]
  · next hc =>
    by_cases hlt : Int.fract v < 1 / 2
    · have e1 : ⌊v + 49 / 100⌋ = ⌊v⌋ := by
        rw [Int.floor_eq_iff]
        constructor <;> linarith
      have e2 : ⌊v + 1 / 2⌋ = ⌊v⌋ := by
        rw [Int.floor_eq_iff]
        constructor <;> linarith
      rw [e1, e2]
    · have hge : 51 / 100 ≤ Int.fract v := by
        by_contra hcon
        exact hc ⟨not_lt.mp hlt, not_le.mp hcon⟩
      have e1 : ⌊v + 49 / 100⌋ = ⌊v⌋ + 1 := by
        rw [Int.floor_eq_iff]
        push_cast
        constructor <;> linarith
      have e2 : ⌊v + 1 / 2⌋ = ⌊v⌋ + 1 := by
        rw [Int.floor_eq_iff]
        push_cast
        constructor <;> linarith
      rw [e1, e2]

/-- A raw point whose affine images are the non-negative integers `a`, `b`
is mapped to `(a, b)`. -/
theorem mapMousePoint_of_exact (s : WhiteBoard) (raw : I2Point) (a b : Int)
    (hx : s.xIntercept + (raw.x : ℚ) * s.xSlope = (a : ℚ))
    (hy : s.yIntercept + (raw.y : ℚ) * s.ySlope = (b : ℚ))
    (ha : 0 ≤ a) (hb : 0 ≤ b) :
    s.mapMousePoint raw = ⟨a, b⟩ := by
  unfold WhiteBoard.mapMousePoint
  rw [hx, hy, toInt_intCast_add a ha, toInt_intCast_add b hb]

/-- In drawing mode `mousePressEvent` is `pressButton` on the button under
the mapped point. -/
theorem mousePressEvent_drawing (contains : I2Rectangle → I2Point → Bool)
    (s : WhiteBoard) (t : I2Point) (hmode : s.mode ≠ MODE_CALIBRATION) :
    s.mousePressEvent contains t =
      s.pressButton (s.mapMousePoint t) (hitButton contains (s.mapMousePoint t)) := by
  unfold WhiteBoard.mousePressEvent
  rw [if_neg hmode]
  generalize s.mapMousePoint t = wp
  simp only [hitButton, Button.order, List.find?, Button.rect]
  cases h1 : contains WhiteBoard.blackButtonRect wp
  case true => simp [WhiteBoard.pressButton]
  cases h2 : contains WhiteBoard.blueButtonRect wp
  case true => simp [WhiteBoard.pressButton]
  cases h3 : contains WhiteBoard.redButtonRect wp
  case true => simp [WhiteBoard.pressButton]
  cases h4 : contains WhiteBoard.greenButtonRect wp
  case true => simp [WhiteBoard.pressButton]
  cases h5 : contains WhiteBoard.clearButtonRect wp
  case true => simp [WhiteBoard.pressButton]
  cases h6 : contains WhiteBoard.calibrateButtonRect wp
  case true => simp [WhiteBoard.pressButton]
  cases h7 : contains WhiteBoard.eraseButtonRect wp
  case true => simp [WhiteBoard.pressButton]
  cases h8 : contains WhiteBoard.thinButtonRect wp
  case true => simp [WhiteBoard.pressButton]
  cases h9 : contains WhiteBoard.normalButtonRect wp
  case true => simp [WhiteBoard.pressButton]
  cases h10 : contains WhiteBoard.thickButtonRect wp
  case true => simp [WhiteBoard.pressButton]
  cases h11 : contains WhiteBoard.veryThickButtonRect wp
  case true => simp [WhiteBoard.pressButton]
  cases h12 : contains WhiteBoard.quitButtonRect wp
  case true => simp [WhiteBoard.pressButton]
  simp [WhiteBoard.pressButton]

theorem push_back_total (m : Stroke) (p : I2Point) (h : m.PathMirrors) :
    ∃ m', m.push_back p = .ok m' := by
  by_cases hp : m.points = []
  · exact ⟨_, push_back_empty m p hp⟩
  · obtain ⟨init, a, hl⟩ : ∃ init a, m.points = init ++ [a] :=
      ⟨m.points.dropLast, m.points.getLast hp, (List.dropLast_append_getLast hp).symm⟩
    have hq : m.qPath = some m.points := by
      rw [h, if_neg hp]
    exact ⟨_, push_back_snoc m p a init m.points hl hq⟩

theorem push_back_pathMirrors (m m' : Stroke) (p : I2Point) (h : m.PathMirrors)
    (hm : m.push_back p = .ok m') : m'.PathMirrors := by
  by_cases hp : m.points = []
  · rw [push_back_empty m p hp] at hm
    cases hm
    simp [Stroke.PathMirrors]
  · obtain ⟨init, a, hl⟩ : ∃ init a, m.points = init ++ [a] :=
      ⟨m.points.dropLast, m.points.getLast hp, (List.dropLast_append_getLast hp).symm⟩
    have hq : m.qPath = some m.points := by
      rw [h, if_neg hp]
    rw [push_back_snoc m p a init m.points hl hq] at hm
    cases hm
    split
    · exact h
    · simp [Stroke.PathMirrors, hl]

theorem pushStroke_some (s : WhiteBoard) (str : Stroke) (i : Fin MAX_PAGES)
    (h : index? MAX_PAGES s.currentPage = some i) :
    s.pushStroke str =
      .ok { s with pages := Function.update s.pages i (Page.mk ((s.pages i).strokes ++ [str])) } := by
  unfold WhiteBoard.pushStroke
  rw [h, copy_eq]

theorem pushStroke_none (s : WhiteBoard) (str : Stroke)
    (h : index? MAX_PAGES s.currentPage = none) :
    s.pushStroke str = .error .outOfRange := by
  unfold WhiteBoard.pushStroke
  rw [h]

theorem pathMirrors_clear (m : Stroke) : m.clear.PathMirrors := by
  simp [Stroke.PathMirrors, Stroke.clear]

theorem push_back_fields (m m' : Stroke) (p : I2Point) (hm : m.push_back p = .ok m') :
    m'.color = m.color ∧ m'.width = m.width ∧ m'.finished = m.finished := by
  unfold Stroke.push_back at hm
  split at hm
  · cases hm
    exact ⟨rfl, rfl, rfl⟩
  · split at hm
    · cases hm
    · split at hm
      · split at hm
        · cases hm
        · cases hm
          exact ⟨rfl, rfl, rfl⟩
      · cases hm
        exact ⟨rfl, rfl, rfl⟩

theorem push_back_drawable (m m' : Stroke) (p : I2Point) (h : m.Drawable)
    (hm : m.push_back p = .ok m') : m'.Drawable := by
  refine ⟨?_, push_back_pathMirrors m m' p h.2 hm⟩
  rw [(push_back_fields m m' p hm).1]
  exact h.1

theorem finalize_drawable (m : Stroke) (h : m.Drawable) : m.finalize.Drawable := h

/-- END_CURVE while a capture with at least one point is in progress,
outside calibration mode and with drawable strokes. -/
theorem processAction_end_active (s : WhiteBoard) (r : I2Point) (m : Stroke)
    (i : Fin MAX_PAGES) (hpage : index? MAX_PAGES s.currentPage = some i)
    (hmode : s.mode ≠ MODE_CALIBRATION)
    (hact : s.myDrawingActive = true) (hne : s.myDrawing.points ≠ [])
    (hpush : s.myDrawing.push_back r = .ok m)
    (hstrokes : ∀ x ∈ (s.pages i).strokes, x.Drawable) (hm : m.Drawable) :
    s.processAction (Action.endCurve r) =
      .ok { s with
        pages := Function.update s.pages i (Page.mk ((s.pages i).strokes ++ [m.finalize]))
        myDrawing := m.finalize.clear
        myDrawingActive := false } := by
  have hsz : s.myDrawing.size > 0 := by
    have h0 : s.myDrawing.size ≠ 0 := fun h => hne ((size_eq_zero_iff _).mp h)
    have h1 : 0 ≤ s.myDrawing.size := by unfold Stroke.size; omega
    omega
  obtain ⟨rq, hrq⟩ := drawInOffscreen_ok
    { s with
      myDrawing := m.finalize
      myDrawingActive := true
      pages := Function.update s.pages i (Page.mk ((s.pages i).strokes ++ [m.finalize])) }
    i hmode hpage
    (by
      intro x hx
      simp only [Function.update_same, List.mem_append, List.mem_singleton] at hx
      rcases hx with hx | hx
      · exact hstrokes x hx
      · rw [hx]
        exact finalize_drawable m hm)
    (fun _ => finalize_drawable m hm)
  unfold WhiteBoard.processAction Action.endCurve
  simp [hact, hsz, hpush, Except.bind, WhiteBoard.pushStroke, hpage, copy_eq, hrq]

/-- END_CURVE in calibration mode while a capture with at least one point
is in progress fails the assertion of `drawInOffscreen`. -/
theorem processAction_end_calibration (s : WhiteBoard) (r : I2Point) (m : Stroke)
    (i : Fin MAX_PAGES) (hpage : index? MAX_PAGES s.currentPage = some i)
    (hmode : s.mode = MODE_CALIBRATION)
    (hact : s.myDrawingActive = true) (hne : s.myDrawing.points ≠ [])
    (hpush : s.myDrawing.push_back r = .ok m) :
    s.processAction (Action.endCurve r) = .error .assertFailed := by
  have hsz : s.myDrawing.size > 0 := by
    have h0 : s.myDrawing.size ≠ 0 := fun h => hne ((size_eq_zero_iff _).mp h)
    have h1 : 0 ≤ s.myDrawing.size := by unfold Stroke.size; omega
    omega
  unfold WhiteBoard.processAction Action.endCurve
  simp [hact, hsz, hpush, Except.bind, WhiteBoard.pushStroke, hpage, copy_eq,
    WhiteBoard.drawInOffscreen, hmode]

/-- What a successful `processAction` changes: only the pages, the
in-progress stroke and the capture flag; the pages either stay or get one
stroke appended to the active page (never by DRAW_CURVE), the stroke in
progress as it was or with the point of the action pushed; the path keeps
mirroring the points; START_CURVE sets color, width and the flag; the
color of the in-progress stroke stays or becomes that of the action. -/
theorem processAction_ok (s s' : WhiteBoard) (a : Action)
    (h : s.processAction a = .ok s') :
    ∃ (pages' : Fin MAX_PAGES → Page) (m' : Stroke) (act' : Bool),
      s' = { s with pages := pages', myDrawing := m', myDrawingActive := act' }
      ∧ (pages' = s.pages ∨ (a.type ≠ Action.DRAW_CURVE ∧ ∃ i str,
          index? MAX_PAGES s.currentPage = some i
          ∧ pages' = Function.update s.pages i (Page.mk ((s.pages i).strokes ++ [str]))
          ∧ (s.myDrawing.Drawable → str.Drawable)))
      ∧ (s.myDrawing.PathMirrors → m'.PathMirrors)
      ∧ (a.type = Action.START_CURVE → m'.color = a.color ∧ m'.width = a.width ∧ act' = true)
      ∧ (m'.color = s.myDrawing.color ∨ m'.color = a.color) := by
  unfold WhiteBoard.processAction at h
  by_cases hS : a.type = Action.START_CURVE
  · rw [if_pos hS] at h
    by_cases hact : s.myDrawingActive = true ∧ s.myDrawing.size > 0
    · rw [if_pos hact] at h
      cases hidx : index? MAX_PAGES s.currentPage with
      | none =>
        rw [pushStroke_none s _ hidx] at h
        simp [Except.bind] at h
      | some i =>
        rw [pushStroke_some s _ i hidx] at h
        simp only [Except.bind] at h
        rw [push_back_empty _ a.point (by rfl)] at h
        simp only [Except.ok.injEq] at h
        subst h
        refine ⟨_, _, _, rfl, Or.inr ⟨by rw [hS]; decide, i, _, rfl, rfl, fun hd => hd⟩,
          ?_, ?_, Or.inr rfl⟩
        · intro _
          simp [Stroke.PathMirrors]
        · intro _
          exact ⟨rfl, rfl, rfl⟩
    · rw [if_neg hact] at h
      simp only [Except.bind] at h
      cases hpb : ({ s.myDrawing with color := a.color, width := a.width } : Stroke).push_back
          a.point with
      | error e =>
        rw [hpb] at h
        simp at h
      | ok m =>
        rw [hpb] at h
        simp only [Except.ok.injEq] at h
        subst h
        have hf := push_back_fields _ _ _ hpb
        refine ⟨_, _, _, rfl, Or.inl rfl, ?_, ?_, Or.inr hf.1⟩
        · intro hm
          exact push_back_pathMirrors
            { s.myDrawing with color := a.color, width := a.width } m a.point hm hpb
        · intro _
          exact ⟨hf.1, hf.2.1, rfl⟩
  · rw [if_neg hS] at h
    by_cases hD : a.type = Action.DRAW_CURVE
    · rw [if_pos hD] at h
      by_cases hact : s.myDrawingActive = false
      · rw [if_pos hact] at h
        simp only [Except.ok.injEq] at h
        subst h
        exact ⟨_, _, _, rfl, Or.inl rfl, fun hm => hm, fun e => absurd e hS, Or.inl rfl⟩
      · rw [if_neg hact] at h
        cases hpb : s.myDrawing.push_back a.point with
        | error e =>
          rw [hpb] at h
          simp [Except.bind] at h
        | ok m =>
          rw [hpb] at h
          simp only [Except.bind] at h
          cases hdr : WhiteBoard.drawLastCurveInOffscreen { s with myDrawing := m } with
          | error e =>
            rw [hdr] at h
            simp at h
          | ok r =>
            rw [hdr] at h
            simp only [Except.ok.injEq] at h
            subst h
            exact ⟨_, _, _, rfl, Or.inl rfl,
              fun hm => push_back_pathMirrors _ _ _ hm hpb, fun e => absurd e hS,
              Or.inl (push_back_fields _ _ _ hpb).1⟩
    · rw [if_neg hD] at h
      by_cases hE : a.type = Action.END_CURVE
      · rw [if_pos hE] at h
        by_cases hact : s.myDrawingActive = true ∧ s.myDrawing.size > 0
        · rw [if_pos hact] at h
          cases hpb : s.myDrawing.push_back a.point with
          | error e =>
            rw [hpb] at h
            simp [Except.bind] at h
          | ok m =>
            rw [hpb] at h
            simp only [Except.bind] at h
            cases hidx : index? MAX_PAGES s.currentPage with
            | none =>
              rw [pushStroke_none { s with myDrawing := m.finalize } m.finalize hidx] at h
              simp at h
            | some i =>
              rw [pushStroke_some { s with myDrawing := m.finalize } m.finalize i hidx] at h
              simp only at h
              cases hdr : WhiteBoard.drawInOffscreen
                  { s with
                    myDrawing := m.finalize
                    pages := Function.update s.pages i
                      (Page.mk ((s.pages i).strokes ++ [m.finalize])) } with
              | error e =>
                rw [hdr] at h
                simp at h
              | ok r =>
                rw [hdr] at h
                simp only [Except.ok.injEq] at h
                subst h
                exact ⟨_, _, _, rfl,
                  Or.inr ⟨hD, i, _, rfl, rfl,
                    fun hd => finalize_drawable m (push_back_drawable _ _ _ hd hpb)⟩,
                  fun _ => pathMirrors_clear _, fun e => absurd e hS,
                  Or.inl (push_back_fields _ _ _ hpb).1⟩
        · rw [if_neg hact] at h
          simp only [Except.bind, Except.ok.injEq] at h
          subst h
          exact ⟨_, _, _, rfl, Or.inl rfl, fun hm => hm, fun e => absurd e hS, Or.inl rfl⟩
      · rw [if_neg hE] at h
        simp only [Except.ok.injEq] at h
        subst h
        exact ⟨_, _, _, rfl, Or.inl rfl, fun hm => hm, fun e => absurd e hS, Or.inl rfl⟩

/-- START_CURVE is handled without fault whenever the active page exists
and the path of the in-progress stroke mirrors its points. -/
theorem processAction_start_total (s : WhiteBoard) (a : Action) (i : Fin MAX_PAGES)
    (ha : a.type = Action.START_CURVE)
    (hidx : index? MAX_PAGES s.currentPage = some i) (hm : s.myDrawing.PathMirrors) :
    ∃ s', s.processAction a = .ok s' := by
  unfold WhiteBoard.processAction
  rw [if_pos ha]
  by_cases hact : s.myDrawingActive = true ∧ s.myDrawing.size > 0
  · rw [if_pos hact, pushStroke_some s _ i hidx]
    simp only [Except.bind]
    rw [push_back_empty _ a.point (by rfl)]
    exact ⟨_, rfl⟩
  · rw [if_neg hact]
    simp only [Except.bind]
    obtain ⟨m, hpb⟩ := push_back_total
      { s.myDrawing with color := a.color, width := a.width } a.point hm
    rw [hpb]
    exact ⟨_, rfl⟩

/-- Outside calibration mode, with a valid active page whose strokes are
drawable and a drawable stroke in progress, `processAction` handles every
action without fault. -/
theorem processAction_total (s : WhiteBoard) (a : Action) (i : Fin MAX_PAGES)
    (hidx : index? MAX_PAGES s.currentPage = some i) (hmode : s.mode ≠ MODE_CALIBRATION)
    (hstrokes : ∀ x ∈ (s.pages i).strokes, x.Drawable) (hd : s.myDrawing.Drawable) :
    ∃ s', s.processAction a = .ok s' := by
  by_cases hS : a.type = Action.START_CURVE
  · exact processAction_start_total s a i hS hidx hd.2
  unfold WhiteBoard.processAction
  rw [if_neg hS]
  by_cases hD : a.type = Action.DRAW_CURVE
  · rw [if_pos hD]
    by_cases hact : s.myDrawingActive = false
    · rw [if_pos hact]
      exact ⟨_, rfl⟩
    · rw [if_neg hact]
      obtain ⟨m, hpb⟩ := push_back_total s.myDrawing a.point hd.2
      obtain ⟨r, hr⟩ := drawStroke_ok m (push_back_drawable _ _ _ hd hpb)
      rw [hpb]
      simp only [Except.bind, WhiteBoard.drawLastCurveInOffscreen, if_neg hact, hr]
      exact ⟨_, rfl⟩
  · rw [if_neg hD]
    by_cases hE : a.type = Action.END_CURVE
    · rw [if_pos hE]
      by_cases hact : s.myDrawingActive = true ∧ s.myDrawing.size > 0
      · obtain ⟨m, hpb⟩ := push_back_total s.myDrawing a.point hd.2
        have hne : s.myDrawing.points ≠ [] := by
          intro e
          have := (size_eq_zero_iff s.myDrawing).mpr e
          omega
        have h := processAction_end_active s a.point m i hidx hmode hact.1 hne hpb hstrokes
          (push_back_drawable _ _ _ hd hpb)
        unfold WhiteBoard.processAction Action.endCurve at h
        simp only [Action.END_CURVE, Action.START_CURVE, Action.DRAW_CURVE, Int.reduceEq,
          if_false, if_true] at h
        exact ⟨_, h⟩
      · rw [if_neg hact]
        exact ⟨_, rfl⟩
    · rw [if_neg hE]
      exact ⟨_, rfl⟩

theorem index_page_zero : index? MAX_PAGES 0 = some 0 := by decide

theorem init_ok (s s' : WhiteBoard) (h : s.init = .ok s') :
    ∃ i, index? MAX_PAGES s.currentPage = some i
      ∧ s' = { s with pages := Function.update s.pages i (Page.mk []), myDrawingActive := false } := by
  unfold WhiteBoard.init at h
  cases hidx : index? MAX_PAGES s.currentPage with
  | none =>
    rw [hidx] at h
    simp at h
  | some i =>
    rw [hidx] at h
    simp only [Except.ok.injEq] at h
    exact ⟨i, rfl, h.symm⟩

theorem calibrationPress_frame (s s' : WhiteBoard) (t : I2Point)
    (h : s.calibrationPress t = .ok s') :
    s'.currentPage = s.currentPage ∧ s'.myDrawing = s.myDrawing ∧ s'.pages = s.pages
      ∧ s'.myDrawingActive = s.myDrawingActive
      ∧ s'.currentColor = s.currentColor ∧ s'.currentWidth = s.currentWidth
      ∧ s'.lastColor = s.lastColor ∧ s'.lastWidth = s.lastWidth := by
  unfold WhiteBoard.calibrationPress at h
  split at h
  · cases h
  · split at h
    · cases h
    · simp only at h
      split at h
      · split at h
        · cases h
          simp
        · cases hx : fdiv _ _ with
          | error e => rw [hx] at h; simp [Except.bind] at h
          | ok x =>
            rw [hx] at h
            simp only [Except.bind] at h
            cases hy : fdiv _ _ with
            | error e => rw [hy] at h; simp at h
            | ok y =>
              rw [hy] at h
              simp only at h
              split at h <;> cases h <;> simp
      · split at h <;> cases h <;> simp

theorem wf_new (clicks : Fin NUM_CALIBRATION_POINTS → I2Point) :
    (WhiteBoard.new clicks).WF :=
  ⟨rfl, rfl⟩

theorem wf_index (s : WhiteBoard) (h : s.WF) : index? MAX_PAGES s.currentPage = some 0 := by
  rw [h.1]
  exact index_page_zero

theorem processAction_wf (s s' : WhiteBoard) (a : Action) (hwf : s.WF)
    (h : s.processAction a = .ok s') : s'.WF := by
  obtain ⟨pages', m', act', rfl, -, hm, -⟩ := processAction_ok s s' a h
  exact ⟨hwf.1, hm hwf.2⟩

theorem init_wf (s s' : WhiteBoard) (hwf : s.WF) (h : s.init = .ok s') : s'.WF := by
  obtain ⟨i, -, rfl⟩ := init_ok s s' h
  exact hwf

theorem pressButton_wf (s s' : WhiteBoard) (wp : I2Point) (b : Option Button) (hwf : s.WF)
    (h : s.pressButton wp b = .ok s') : s'.WF := by
  cases b with
  | none => exact processAction_wf s s' _ hwf h
  | some b =>
    cases b
    case clear =>
      simp only [WhiteBoard.pressButton] at h
      refine init_wf _ s' ?_ h
      exact hwf
    all_goals
      simp only [WhiteBoard.pressButton, Except.ok.injEq] at h
      subst h
      exact hwf

theorem step_wf (contains : I2Rectangle → I2Point → Bool) (s s' : WhiteBoard) (i : Input)
    (hwf : s.WF) (h : s.step contains i = .ok s') : s'.WF := by
  cases i with
  | press t =>
    simp only [WhiteBoard.step] at h
    by_cases hmode : s.mode = MODE_CALIBRATION
    · rw [mousePressEvent_calibration contains s t hmode] at h
      obtain ⟨h1, h2, -⟩ := calibrationPress_frame s s' t h
      exact ⟨h1.trans hwf.1, by rw [h2]; exact hwf.2⟩
    · rw [mousePressEvent_drawing contains s t hmode] at h
      exact pressButton_wf s s' _ _ hwf h
  | release t =>
    simp only [WhiteBoard.step, WhiteBoard.mouseReleaseEvent] at h
    split at h
    · cases h
      exact hwf
    · exact processAction_wf s s' _ hwf h
  | move t =>
    simp only [WhiteBoard.step, WhiteBoard.mouseMoveEvent] at h
    split at h
    · cases h
      exact hwf
    · exact processAction_wf s s' _ hwf h
  | action a => exact processAction_wf s s' a hwf h
  | clear => exact init_wf s s' hwf h

/-- Every reachable state is well formed. -/
theorem reachable_wf (contains : I2Rectangle → I2Point → Bool) (s : WhiteBoard)
    (h : Reachable contains s) : s.WF := by
  induction h with
  | new clicks => exact wf_new clicks
  | step i _ hstep ih => exact step_wf contains _ _ i ih hstep

/-- A state with the identity transform maps points with non-negative
coordinates to themselves. -/
theorem mapMousePoint_identity (s : WhiteBoard) (t : I2Point)
    (hxi : s.xIntercept = 0) (hxs : s.xSlope = 1) (hyi : s.yIntercept = 0) (hys : s.ySlope = 1)
    (hx : 0 ≤ t.x) (hy : 0 ≤ t.y) : s.mapMousePoint t = t := by
  apply mapMousePoint_of_exact s t t.x t.y _ _ hx hy
  · rw [hxi, hxs]; ring
  · rw [hyi, hys]; ring

theorem run_cons (contains : I2Rectangle → I2Point → Bool) (s s1 : WhiteBoard) (i : Input)
    (rest : List Input) (h : s.step contains i = .ok s1) :
    s.run contains (i :: rest) = s1.run contains rest := by
  unfold WhiteBoard.run
  rw [List.foldlM_cons, h]
  rfl

/-- The two calibration clicks on the reference points themselves leave the
identity transform and switch to drawing mode. -/
theorem run_calibrated (contains : I2Rectangle → I2Point → Bool) (rest : List Input) :
    (WhiteBoard.new fun _ => ⟨0, 0⟩).run contains
        (.press ⟨100, 100⟩ :: .press ⟨500, 400⟩ :: rest) =
      ({ WhiteBoard.new (fun _ => ⟨0, 0⟩) with
        calibrationClicks := fun i => if i = 0 then ⟨100, 100⟩ else ⟨500, 400⟩
        numCalibrationClicks := 2
        mode := MODE_NORMAL } : WhiteBoard).run contains rest := by
  let s1 : WhiteBoard :=
    { WhiteBoard.new (fun _ => ⟨0, 0⟩) with
      calibrationClicks := Function.update (fun _ => ⟨0, 0⟩) 0 ⟨100, 100⟩
      numCalibrationClicks := 1 }
  have h1 : (WhiteBoard.new fun _ => ⟨0, 0⟩).step contains (.press ⟨100, 100⟩) = .ok s1 := by
    show (WhiteBoard.new fun _ => ⟨0, 0⟩).mousePressEvent contains ⟨100, 100⟩ = .ok s1
    rw [mousePressEvent_calibration _ _ _ rfl, calibrationPress_first _ _ rfl]
    rfl
  have h2 := calibrationPress_second_accepted s1 ⟨500, 400⟩ rfl
    (by decide) (by decide) (by decide) (by decide)
  rw [← mousePressEvent_calibration contains s1 _ rfl] at h2
  rw [run_cons contains _ s1 _ _ h1]
  refine run_cons contains s1 _ _ rest ?_
  show s1.mousePressEvent contains ⟨500, 400⟩ = _
  rw [h2]
  simp only [s1, WhiteBoard.new, Function.update_same]
  norm_num
  funext i
  fin_cases i <;> rfl

/-- A press in drawing mode under the identity transform, at a point with
non-negative coordinates. -/
theorem step_press_identity (contains : I2Rectangle → I2Point → Bool) (s : WhiteBoard)
    (t : I2Point) (hmode : s.mode = MODE_NORMAL)
    (hxi : s.xIntercept = 0) (hxs : s.xSlope = 1) (hyi : s.yIntercept = 0) (hys : s.ySlope = 1)
    (hx : 0 ≤ t.x) (hy : 0 ≤ t.y) :
    s.step contains (.press t) = s.pressButton t (hitButton contains t) := by
  show s.mousePressEvent contains t = _
  rw [mousePressEvent_drawing contains s t (by rw [hmode]; decide),
    mapMousePoint_identity s t hxi hxs hyi hys hx hy]

/-- A release in drawing mode under the identity transform, at a point with
non-negative coordinates. -/
theorem step_release_identity (contains : I2Rectangle → I2Point → Bool) (s : WhiteBoard)
    (t : I2Point) (hmode : s.mode = MODE_NORMAL)
    (hxi : s.xIntercept = 0) (hxs : s.xSlope = 1) (hyi : s.yIntercept = 0) (hys : s.ySlope = 1)
    (hx : 0 ≤ t.x) (hy : 0 ≤ t.y) :
    s.step contains (.release t) = s.processAction (Action.endCurve t) := by
  show s.mouseReleaseEvent t = _
  unfold WhiteBoard.mouseReleaseEvent
  rw [if_neg (by rw [hmode]; decide), mapMousePoint_identity s t hxi hxs hyi hys hx hy]
  rfl

theorem processAction_idle (s : WhiteBoard) (a : Action) (hidle : s.myDrawingActive = false)
    (ha : a.type = Action.DRAW_CURVE ∨ a.type = Action.END_CURVE) :
    s.processAction a = .ok s := by
  unfold WhiteBoard.processAction
  rcases ha with ha | ha
  · rw [if_neg (by rw [ha]; decide), if_pos ha, if_pos hidle]
  · rw [if_neg (by rw [ha]; decide), if_neg (by rw [ha]; decide), if_pos ha,
      if_neg (by rw [hidle]; simp)]
    simp only [Except.bind, Except.ok.injEq]
    cases s
    simp_all

theorem xPushStroke_some (s : MyWindow) (str : XStroke) (i : Fin MAX_PAGES)
    (h : index? MAX_PAGES s.currentPage = some i) :
    s.pushStroke str =
      .ok { s with pages := Function.update s.pages i (XPage.mk ((s.pages i).strokes ++ [str])) } := by
  unfold MyWindow.pushStroke
  rw [h]

theorem xPushStroke_none (s : MyWindow) (str : XStroke)
    (h : index? MAX_PAGES s.currentPage = none) :
    s.pushStroke str = .error .outOfRange := by
  unfold MyWindow.pushStroke
  rw [h]

/-- What a successful `MyWindow::processAction` changes: only the pages,
the in-progress stroke and the capture flag; the pages either stay or get
one stroke appended to the active page (never by DRAW_CURVE); the color of
the in-progress stroke stays or becomes that of the action. -/
theorem xProcessAction_ok (s s' : MyWindow) (a : Action)
    (h : s.processAction a = .ok s') :
    ∃ (pages' : Fin MAX_PAGES → XPage) (m' : XStroke) (act' : Bool),
      s' = { s with pages := pages', myDrawing := m', myDrawingActive := act' }
      ∧ (pages' = s.pages ∨ (a.type ≠ Action.DRAW_CURVE ∧ ∃ i str,
          index? MAX_PAGES s.currentPage = some i
          ∧ pages' = Function.update s.pages i (XPage.mk ((s.pages i).strokes ++ [str]))))
      ∧ (m'.color = s.myDrawing.color ∨ m'.color = a.color) := by
  unfold MyWindow.processAction at h
  by_cases hS : a.type = Action.START_CURVE
  · rw [if_pos hS] at h
    by_cases hact : s.myDrawingActive = true ∧ (s.myDrawing.points.length : Int) > 0
    · rw [if_pos hact] at h
      cases hidx : index? MAX_PAGES s.currentPage with
      | none =>
        rw [xPushStroke_none s _ hidx] at h
        simp [Except.bind] at h
      | some i =>
        rw [xPushStroke_some s _ i hidx] at h
        simp only [Except.bind] at h
        split at h
        · cases h
        · cases h
          exact ⟨_, _, _, rfl, Or.inr ⟨by rw [hS]; decide, i, _, rfl, rfl⟩, Or.inr rfl⟩
    · rw [if_neg hact] at h
      simp only [Except.bind] at h
      split at h
      · cases h
      · cases h
        exact ⟨_, _, _, rfl, Or.inl rfl, Or.inr rfl⟩
  · rw [if_neg hS] at h
    by_cases hD : a.type = Action.DRAW_CURVE
    · rw [if_pos hD] at h
      by_cases hact : s.myDrawingActive = false
      · rw [if_pos hact] at h
        cases h
        exact ⟨s.pages, s.myDrawing, s.myDrawingActive, rfl, Or.inl rfl, Or.inl rfl⟩
      · rw [if_neg hact] at h
        by_cases hn : (s.myDrawing.points.length : Int) ≤ 2
        · rw [if_pos hn] at h
          simp only [Except.bind] at h
          split at h
          · cases h
          · cases h
            exact ⟨_, _, _, rfl, Or.inl rfl, Or.inl rfl⟩
        · rw [if_neg hn] at h
          split at h
          · cases h
          · split at h
            · split at h
              · cases h
              · cases h
                exact ⟨_, _, _, rfl, Or.inl rfl, Or.inl rfl⟩
            · cases h
              exact ⟨s.pages, s.myDrawing, s.myDrawingActive, rfl, Or.inl rfl, Or.inl rfl⟩
    · rw [if_neg hD] at h
      by_cases hE : a.type = Action.END_CURVE
      · rw [if_pos hE] at h
        by_cases hact : s.myDrawingActive = true ∧ (s.myDrawing.points.length : Int) > 0
        · rw [if_pos hact] at h
          cases hidx : index? MAX_PAGES s.currentPage with
          | none =>
            rw [xPushStroke_none s _ hidx] at h
            simp [Except.bind] at h
          | some i =>
            rw [xPushStroke_some s _ i hidx] at h
            simp only [Except.bind] at h
            cases hdr : MyWindow.drawStroke s.myDrawing with
            | error e =>
              rw [hdr] at h
              cases h
            | ok u =>
              rw [hdr] at h
              cases h
              exact ⟨_, _, _, rfl, Or.inr ⟨hD, i, _, rfl, rfl⟩, Or.inl rfl⟩
        · rw [if_neg hact] at h
          cases h
          exact ⟨_, _, _, rfl, Or.inl rfl, Or.inl rfl⟩
      · rw [if_neg hE] at h
        cases h
        exact ⟨s.pages, s.myDrawing, s.myDrawingActive, rfl, Or.inl rfl, Or.inl rfl⟩

theorem reachable_run (contains : I2Rectangle → I2Point → Bool) (inputs : List Input) :
    ∀ s s' : WhiteBoard, Reachable contains s → s.run contains inputs = .ok s' →
      Reachable contains s' := by
  induction inputs with
  | nil =>
    intro s s' hs h
    cases h
    exact hs
  | cons i rest ih =>
    intro s s' hs h
    cases h1 : s.step contains i with
    | error e =>
      unfold WhiteBoard.run at h
      rw [List.foldlM_cons, h1] at h
      cases h
    | ok s1 =>
      rw [run_cons contains s s1 i rest h1] at h
      exact ih s1 s' (Reachable.step i hs h1) h

/-- The state after the two calibration clicks on the reference points is
reachable. -/
theorem reachable_calibrated (contains : I2Rectangle → I2Point → Bool) :
    Reachable contains
      { WhiteBoard.new (fun _ => ⟨0, 0⟩) with
        calibrationClicks := fun i => if i = 0 then ⟨100, 100⟩ else ⟨500, 400⟩
        numCalibrationClicks := 2
        mode := MODE_NORMAL } :=
  reachable_run contains [.press ⟨100, 100⟩, .press ⟨500, 400⟩] _ _ (Reachable.new _)
    (run_calibrated contains [])

/-- A press on the canvas in a well-formed state in drawing mode. -/
theorem press_canvas (contains : I2Rectangle → I2Point → Bool) (s : WhiteBoard) (t : I2Point)
    (hwf : s.WF) (hmode : s.mode ≠ MODE_CALIBRATION)
    (hhit : hitButton contains (s.mapMousePoint t) = none) :
    ∃ s' : WhiteBoard, s.mousePressEvent contains t = .ok s'
      ∧ s'.myDrawingActive = true
      ∧ s'.myDrawing.color = s.currentColor ∧ s'.myDrawing.width = s.currentWidth
      ∧ s'.currentColor = s.currentColor ∧ s'.currentWidth = s.currentWidth := by
  rw [mousePressEvent_drawing contains s t hmode, hhit]
  obtain ⟨s', h⟩ := processAction_start_total s
    ⟨Action.START_CURVE, s.currentColor, s.currentWidth, s.mapMousePoint t⟩ 0 rfl
    (wf_index s hwf) hwf.2
  refine ⟨s', h, ?_⟩
  obtain ⟨pages', m', act', rfl, -, -, hst, -⟩ := processAction_ok s s' _ h
  obtain ⟨hc, hw, ha⟩ := hst rfl
  exact ⟨ha, hc, hw, rfl, rfl⟩

theorem toolInRange_color (c lw : Int) (hc : c = 0 ∨ c = 1 ∨ c = 2 ∨ c = 3)
    (hlw : lw = 1 ∨ lw = 2 ∨ lw = 3 ∨ lw = 5) : ToolInRange c c lw := by
  refine ⟨?_, hc, hlw⟩
  rcases hc with e | e | e | e <;> rw [e] <;> decide

theorem toolInRange_eraser (lc lw : Int) (hlc : lc = 0 ∨ lc = 1 ∨ lc = 2 ∨ lc = 3)
    (hlw : lw = 1 ∨ lw = 2 ∨ lw = 3 ∨ lw = 5) : ToolInRange ERASER_COLOR_IDX lc lw :=
  ⟨by decide, hlc, hlw⟩

theorem toolInRange_step (contains : I2Rectangle → I2Point → Bool) (s s' : WhiteBoard)
    (i : Input) (h : ToolInRange s.currentColor s.lastColor s.lastWidth)
    (hs : s.step contains i = .ok s') :
    ToolInRange s'.currentColor s'.lastColor s'.lastWidth := by
  have hact : ∀ a, s.processAction a = .ok s' →
      ToolInRange s'.currentColor s'.lastColor s'.lastWidth := by
    intro a ha
    obtain ⟨pages', m', act', rfl, -⟩ := processAction_ok s s' a ha
    exact h
  have hinit : ∀ s0 : WhiteBoard, ToolInRange s0.currentColor s0.lastColor s0.lastWidth →
      s0.init = .ok s' → ToolInRange s'.currentColor s'.lastColor s'.lastWidth := by
    intro s0 h0 hi
    obtain ⟨i, -, rfl⟩ := init_ok s0 s' hi
    exact h0
  obtain ⟨hc, hlc, hlw⟩ := h
  cases i with
  | press t =>
    simp only [WhiteBoard.step] at hs
    by_cases hmode : s.mode = MODE_CALIBRATION
    · rw [mousePressEvent_calibration contains s t hmode] at hs
      obtain ⟨-, -, -, -, h1, -, h2, h3⟩ := calibrationPress_frame s s' t hs
      rw [ToolInRange, h1, h2, h3]
      exact ⟨hc, hlc, hlw⟩
    · rw [mousePressEvent_drawing contains s t hmode] at hs
      cases hb : hitButton contains (s.mapMousePoint t) with
      | none =>
        rw [hb] at hs
        exact hact _ hs
      | some b =>
        rw [hb] at hs
        cases b with
        | black =>
          simp only [WhiteBoard.pressButton, Except.ok.injEq] at hs
          subst hs
          exact toolInRange_color _ _ (Or.inl rfl) hlw
        | blue =>
          simp only [WhiteBoard.pressButton, Except.ok.injEq] at hs
          subst hs
          exact toolInRange_color _ _ (Or.inr (Or.inl rfl)) hlw
        | red =>
          simp only [WhiteBoard.pressButton, Except.ok.injEq] at hs
          subst hs
          exact toolInRange_color _ _ (Or.inr (Or.inr (Or.inl rfl))) hlw
        | green =>
          simp only [WhiteBoard.pressButton, Except.ok.injEq] at hs
          subst hs
          exact toolInRange_color _ _ (Or.inr (Or.inr (Or.inr rfl))) hlw
        | clear =>
          simp only [WhiteBoard.pressButton] at hs
          refine hinit _ ?_ hs
          exact toolInRange_color _ _ (Or.inl rfl) hlw
        | calibrate =>
          simp only [WhiteBoard.pressButton, Except.ok.injEq] at hs
          subst hs
          exact ⟨hc, hlc, hlw⟩
        | erase =>
          simp only [WhiteBoard.pressButton, Except.ok.injEq] at hs
          subst hs
          exact toolInRange_eraser _ _ hlc hlw
        | thin =>
          simp only [WhiteBoard.pressButton, Except.ok.injEq] at hs
          subst hs
          exact toolInRange_color _ _ hlc (Or.inl rfl)
        | normal =>
          simp only [WhiteBoard.pressButton, Except.ok.injEq] at hs
          subst hs
          exact toolInRange_color _ _ hlc (Or.inr (Or.inl rfl))
        | thick =>
          simp only [WhiteBoard.pressButton, Except.ok.injEq] at hs
          subst hs
          exact toolInRange_color _ _ hlc (Or.inr (Or.inr (Or.inl rfl)))
        | veryThick =>
          simp only [WhiteBoard.pressButton, Except.ok.injEq] at hs
          subst hs
          exact toolInRange_color _ _ hlc (Or.inr (Or.inr (Or.inr rfl)))
        | quit =>
          simp only [WhiteBoard.pressButton, Except.ok.injEq] at hs
          subst hs
          exact ⟨hc, hlc, hlw⟩
  | release t =>
    simp only [WhiteBoard.step, WhiteBoard.mouseReleaseEvent] at hs
    split at hs
    · cases hs
      exact ⟨hc, hlc, hlw⟩
    · exact hact _ hs
  | move t =>
    simp only [WhiteBoard.step, WhiteBoard.mouseMoveEvent] at hs
    split at hs
    · cases hs
      exact ⟨hc, hlc, hlw⟩
    · exact hact _ hs
  | action a => exact hact a hs
  | clear => exact hinit s ⟨hc, hlc, hlw⟩ hs

/-- In every reachable state of the Qt build the tool state is in range. -/
theorem reachable_toolInRange (contains : I2Rectangle → I2Point → Bool) (s : WhiteBoard)
    (h : Reachable contains s) : ToolInRange s.currentColor s.lastColor s.lastWidth := by
  induction h with
  | new clicks =>
    exact toolInRange_color _ _ (Or.inl rfl) (Or.inr (Or.inr (Or.inl rfl)))
  | step i _ hstep ih => exact toolInRange_step contains _ _ i ih hstep

theorem processAction_drawable (s s' : WhiteBoard) (a : Action) (ha : 0 ≤ a.color)
    (hinv : (∀ j, ∀ m ∈ (s.pages j).strokes, m.Drawable) ∧ s.myDrawing.Drawable)
    (h : s.processAction a = .ok s') :
    (∀ j, ∀ m ∈ (s'.pages j).strokes, m.Drawable) ∧ s'.myDrawing.Drawable := by
  obtain ⟨pages', m', act', rfl, hp, hm, -, hcol⟩ := processAction_ok s s' a h
  constructor
  · rcases hp with hp | ⟨-, i, str, -, hp, hstr⟩
    · subst hp
      exact hinv.1
    · subst hp
      intro j m hmem
      by_cases hj : j = i
      · subst hj
        simp only [Function.update_same, List.mem_append, List.mem_singleton] at hmem
        rcases hmem with hmem | hmem
        · exact hinv.1 j m hmem
        · rw [hmem]
          exact hstr hinv.2
      · simp only [Function.update_noteq hj] at hmem
        exact hinv.1 j m hmem
  · refine ⟨?_, hm hinv.2.2⟩
    rcases hcol with e | e
    · show 0 ≤ m'.color
      rw [e]
      exact hinv.2.1
    · show 0 ≤ m'.color
      rw [e]
      exact ha

theorem init_drawable (s s' : WhiteBoard)
    (hinv : (∀ j, ∀ m ∈ (s.pages j).strokes, m.Drawable) ∧ s.myDrawing.Drawable)
    (h : s.init = .ok s') :
    (∀ j, ∀ m ∈ (s'.pages j).strokes, m.Drawable) ∧ s'.myDrawing.Drawable := by
  obtain ⟨i, -, rfl⟩ := init_ok s s' h
  refine ⟨?_, hinv.2⟩
  intro j m hmem
  by_cases hj : j = i
  · subst hj
    simp only [Function.update_same, List.not_mem_nil] at hmem
  · simp only [Function.update_noteq hj] at hmem
    exact hinv.1 j m hmem

theorem nonneg_of_lastColor (lc : Int) (h : lc = 0 ∨ lc = 1 ∨ lc = 2 ∨ lc = 3) : 0 ≤ lc := by
  rcases h with e | e | e | e <;> rw [e] <;> decide

theorem step_drawable (contains : I2Rectangle → I2Point → Bool) (s s' : WhiteBoard)
    (i : Input) (hpal : i.Palette)
    (htool : ToolInRange s.currentColor s.lastColor s.lastWidth)
    (hinv : (∀ j, ∀ m ∈ (s.pages j).strokes, m.Drawable) ∧ s.myDrawing.Drawable)
    (hs : s.step contains i = .ok s') :
    (∀ j, ∀ m ∈ (s'.pages j).strokes, m.Drawable) ∧ s'.myDrawing.Drawable := by
  have hlc : 0 ≤ s.lastColor := nonneg_of_lastColor _ htool.2.1
  have hzero : (0 : Int) ≤ 0 := le_refl _
  cases i with
  | press t =>
    simp only [WhiteBoard.step] at hs
    by_cases hmode : s.mode = MODE_CALIBRATION
    · rw [mousePressEvent_calibration contains s t hmode] at hs
      obtain ⟨-, h1, h2, -⟩ := calibrationPress_frame s s' t hs
      rw [h1, h2]
      exact hinv
    · rw [mousePressEvent_drawing contains s t hmode] at hs
      cases hb : hitButton contains (s.mapMousePoint t) with
      | none =>
        rw [hb] at hs
        exact processAction_drawable s s' _ htool.1.1 hinv hs
      | some b =>
        rw [hb] at hs
        cases b with
        | black =>
          simp only [WhiteBoard.pressButton, Except.ok.injEq] at hs
          subst hs
          exact ⟨hinv.1, le_refl _, hinv.2.2⟩
        | blue =>
          simp only [WhiteBoard.pressButton, Except.ok.injEq] at hs
          subst hs
          exact ⟨hinv.1, show (0 : Int) ≤ 1 by decide, hinv.2.2⟩
        | red =>
          simp only [WhiteBoard.pressButton, Except.ok.injEq] at hs
          subst hs
          exact ⟨hinv.1, show (0 : Int) ≤ 2 by decide, hinv.2.2⟩
        | green =>
          simp only [WhiteBoard.pressButton, Except.ok.injEq] at hs
          subst hs
          exact ⟨hinv.1, show (0 : Int) ≤ 3 by decide, hinv.2.2⟩
        | clear =>
          simp only [WhiteBoard.pressButton] at hs
          refine init_drawable _ s' ?_ hs
          exact hinv
        | calibrate =>
          simp only [WhiteBoard.pressButton, Except.ok.injEq] at hs
          subst hs
          exact hinv
        | erase =>
          simp only [WhiteBoard.pressButton, Except.ok.injEq] at hs
          subst hs
          exact ⟨hinv.1, show (0 : Int) ≤ 4 by decide, hinv.2.2⟩
        | thin =>
          simp only [WhiteBoard.pressButton, Except.ok.injEq] at hs
          subst hs
          exact ⟨hinv.1, hlc, hinv.2.2⟩
        | normal =>
          simp only [WhiteBoard.pressButton, Except.ok.injEq] at hs
          subst hs
          exact ⟨hinv.1, hlc, hinv.2.2⟩
        | thick =>
          simp only [WhiteBoard.pressButton, Except.ok.injEq] at hs
          subst hs
          exact ⟨hinv.1, hlc, hinv.2.2⟩
        | veryThick =>
          simp only [WhiteBoard.pressButton, Except.ok.injEq] at hs
          subst hs
          exact ⟨hinv.1, hlc, hinv.2.2⟩
        | quit =>
          simp only [WhiteBoard.pressButton, Except.ok.injEq] at hs
          subst hs
          exact hinv
  | release t =>
    simp only [WhiteBoard.step, WhiteBoard.mouseReleaseEvent] at hs
    split at hs
    · cases hs
      exact hinv
    · exact processAction_drawable s s' _ hzero hinv hs
  | move t =>
    simp only [WhiteBoard.step, WhiteBoard.mouseMoveEvent] at hs
    split at hs
    · cases hs
      exact hinv
    · exact processAction_drawable s s' _ hzero hinv hs
  | action a => exact processAction_drawable s s' a hpal.1 hinv hs
  | clear => exact init_drawable s s' hinv hs

theorem paletteReachable_reachable (contains : I2Rectangle → I2Point → Bool) (s : WhiteBoard)
    (h : PaletteReachable contains s) : Reachable contains s := by
  induction h with
  | new clicks => exact Reachable.new clicks
  | step i _ _ hstep ih => exact Reachable.step i ih hstep

/-- In every state reached on inputs with a palette color every stored
stroke and the stroke in progress are drawable. -/
theorem paletteReachable_drawable (contains : I2Rectangle → I2Point → Bool) (s : WhiteBoard)
    (h : PaletteReachable contains s) :
    (∀ j, ∀ m ∈ (s.pages j).strokes, m.Drawable) ∧ s.myDrawing.Drawable := by
  induction h with
  | new clicks =>
    refine ⟨?_, show (0 : Int) ≤ 2 by decide, rfl⟩
    intro j m hmem
    cases hmem
  | step i hpal hreach hstep ih =>
    exact step_drawable contains _ _ i hpal
      (reachable_toolInRange contains _ (paletteReachable_reachable contains _ hreach)) ih hstep

/-! ## Stroke deduplication -/

/-- C2. Calling `push_back` on each point of `xs` in order, starting from
a stroke without points (a default-constructed or cleared one), returns
without a failed assertion a stroke whose points are `xs` with every run
of equal consecutive points collapsed to one; so no two consecutive stored
points are equal, and the number of stored points is the number of
distinct consecutive points of `xs`. -/
theorem push_back_all_collapses_runs (s0 : Stroke) (h0 : s0.points = [])
    (xs : List I2Point) :
    ∃ s : Stroke, s0.pushAll xs = .ok s
      ∧ s.points = collapseRuns xs
      ∧ s.points = xs.destutter (· ≠ ·)
      ∧ s.points.Chain' (· ≠ ·)
      ∧ s.size = ((collapseRuns xs).length : Int) := by
  cases xs with
  | nil =>
    refine ⟨s0, rfl, h0, h0, ?_, ?_⟩
    · rw [h0]
      exact List.chain'_nil
    · exact (size_eq_zero_iff s0).mpr h0
  | cons p l =>
    refine ⟨_, pushAll_cons_of_empty s0 p l h0, rfl, ?_, ?_, rfl⟩
    · exact collapseRuns_eq_destutter (p :: l)
    · show (collapseRuns (p :: l)).Chain' (· ≠ ·)
      rw [collapseRuns_eq_destutter]
      exact List.destutter_is_chain' _ _

/-- C2 on the default-constructed stroke and the points (10,10), (10,10),
(20,10), (20,10), (10,10): three points are stored. -/
theorem push_back_all_collapses_runs_witness :
    ∃ s : Stroke,
      Stroke.new.pushAll [⟨10, 10⟩, ⟨10, 10⟩, ⟨20, 10⟩, ⟨20, 10⟩, ⟨10, 10⟩] = .ok s
      ∧ s.points = [⟨10, 10⟩, ⟨20, 10⟩, ⟨10, 10⟩]
      ∧ s.points = [(⟨10, 10⟩ : I2Point), ⟨10, 10⟩, ⟨20, 10⟩, ⟨20, 10⟩, ⟨10, 10⟩].destutter (· ≠ ·)
      ∧ s.points.Chain' (· ≠ ·)
      ∧ s.size = 3 :=
  push_back_all_collapses_runs Stroke.new rfl
    [⟨10, 10⟩, ⟨10, 10⟩, ⟨20, 10⟩, ⟨20, 10⟩, ⟨10, 10⟩]

/-! ## A whole gesture -/

theorem onButtonPress_calibration (contains : I2Rectangle → I2Point → Bool)
    (s : MyWindow) (t : I2Point) (h : s.mode = MODE_CALIBRATION) :
    s.onButtonPress contains t = s.calibrationPress t := by
  unfold MyWindow.onButtonPress
  rw [if_pos h]

theorem xCalibrationPress_first (s : MyWindow) (t : I2Point)
    (h : s.numCalibrationClicks = 0) :
    s.calibrationPress t =
      .ok { s with calibrationClicks := Function.update s.calibrationClicks 0 t
                   numCalibrationClicks := 1 } := by
  unfold MyWindow.calibrationPress
  simp [h, index?]

theorem xCalibrationPress_second_accepted (s : MyWindow) (t : I2Point)
    (h : s.numCalibrationClicks = 1)
    (hgx : t.x ≠ (s.calibrationPoints 0).x) (hgy : t.y ≠ (s.calibrationPoints 0).y)
    (hx : t.x ≠ (s.calibrationClicks 0).x) (hy : t.y ≠ (s.calibrationClicks 0).y) :
    s.calibrationPress t =
      .ok { s with
        calibrationClicks := Function.update s.calibrationClicks 1 t
        numCalibrationClicks := 2
        mode := MODE_NORMAL
        xSlope := (((s.calibrationPoints 1).x - (s.calibrationPoints 0).x : Int) : ℚ)
          / ((t.x - (s.calibrationClicks 0).x : Int) : ℚ)
        ySlope := (((s.calibrationPoints 1).y - (s.calibrationPoints 0).y : Int) : ℚ)
          / ((t.y - (s.calibrationClicks 0).y : Int) : ℚ)
        xIntercept := ((s.calibrationPoints 0).x : ℚ) - ((s.calibrationClicks 0).x : ℚ)
          * ((((s.calibrationPoints 1).x - (s.calibrationPoints 0).x : Int) : ℚ)
              / ((t.x - (s.calibrationClicks 0).x : Int) : ℚ))
        yIntercept := ((s.calibrationPoints 0).y : ℚ) - ((s.calibrationClicks 0).y : ℚ)
          * ((((s.calibrationPoints 1).y - (s.calibrationPoints 0).y : Int) : ℚ)
              / ((t.y - (s.calibrationClicks 0).y : Int) : ℚ)) } := by
  have hx' : (t.x : ℚ) - ((s.calibrationClicks 0).x : ℚ) ≠ 0 := by
    exact_mod_cast sub_ne_zero.mpr hx
  have hy' : (t.y : ℚ) - ((s.calibrationClicks 0).y : ℚ) ≠ 0 := by
    exact_mod_cast sub_ne_zero.mpr hy
  unfold MyWindow.calibrationPress
  simp [h, index?, hgx, hgy, fdiv, Except.bind, hx', hy']

/-- C3. In both builds, in calibration mode with no click recorded, a first
click `c0` and a second click `c1` that passes the guard and differs from
`c0` in both coordinates are both handled without fault by the pointer-down
handler (`WhiteBoard::mousePressEvent`, `MyWindow::onButtonPress`), and
afterwards the slopes and intercepts are the two-point formulas in exact
arithmetic and the mode is `MODE_NORMAL`. -/
theorem calibration_commit (contains : I2Rectangle → I2Point → Bool) (c0 c1 : I2Point)
    (hx : c1.x ≠ c0.x) (hy : c1.y ≠ c0.y) :
    (∀ s : WhiteBoard, s.mode = MODE_CALIBRATION → s.numCalibrationClicks = 0 →
      c1.x ≠ (s.calibrationPoints 0).x → c1.y ≠ (s.calibrationPoints 0).y →
      ∃ s1 s2 : WhiteBoard,
        s.mousePressEvent contains c0 = .ok s1
        ∧ s1.mousePressEvent contains c1 = .ok s2
        ∧ s2.xSlope = (((s.calibrationPoints 1).x : ℚ) - ((s.calibrationPoints 0).x : ℚ))
            / ((c1.x : ℚ) - (c0.x : ℚ))
        ∧ s2.ySlope = (((s.calibrationPoints 1).y : ℚ) - ((s.calibrationPoints 0).y : ℚ))
            / ((c1.y : ℚ) - (c0.y : ℚ))
        ∧ s2.xIntercept = ((s.calibrationPoints 0).x : ℚ) - (c0.x : ℚ) * s2.xSlope
        ∧ s2.yIntercept = ((s.calibrationPoints 0).y : ℚ) - (c0.y : ℚ) * s2.ySlope
        ∧ s2.mode = MODE_NORMAL)
    ∧ (∀ s : MyWindow, s.mode = MODE_CALIBRATION → s.numCalibrationClicks = 0 →
      c1.x ≠ (s.calibrationPoints 0).x → c1.y ≠ (s.calibrationPoints 0).y →
      ∃ s1 s2 : MyWindow,
        s.onButtonPress contains c0 = .ok s1
        ∧ s1.onButtonPress contains c1 = .ok s2
        ∧ s2.xSlope = (((s.calibrationPoints 1).x : ℚ) - ((s.calibrationPoints 0).x : ℚ))
            / ((c1.x : ℚ) - (c0.x : ℚ))
        ∧ s2.ySlope = (((s.calibrationPoints 1).y : ℚ) - ((s.calibrationPoints 0).y : ℚ))
            / ((c1.y : ℚ) - (c0.y : ℚ))
        ∧ s2.xIntercept = ((s.calibrationPoints 0).x : ℚ) - (c0.x : ℚ) * s2.xSlope
        ∧ s2.yIntercept = ((s.calibrationPoints 0).y : ℚ) - (c0.y : ℚ) * s2.ySlope
        ∧ s2.mode = MODE_NORMAL) := by
  constructor
  · intro s hmode hnum hgx hgy
    let s1 : WhiteBoard :=
      { s with calibrationClicks := Function.update s.calibrationClicks 0 c0
               numCalibrationClicks := 1 }
    have h1 : s.mousePressEvent contains c0 = .ok s1 := by
      rw [mousePressEvent_calibration contains s c0 hmode, calibrationPress_first s c0 hnum]
    have hc0 : s1.calibrationClicks 0 = c0 := by
      show Function.update s.calibrationClicks 0 c0 0 = c0
      exact Function.update_same _ _ _
    have h2 := calibrationPress_second_accepted s1 c1 rfl hgx hgy
      (by rw [hc0]; exact hx) (by rw [hc0]; exact hy)
    rw [← mousePressEvent_calibration contains s1 c1 hmode] at h2
    refine ⟨s1, _, h1, h2, ?_, ?_, ?_, ?_, ?_⟩
    · simp only [hc0]; push_cast; rfl
    · simp only [hc0]; push_cast; rfl
    · simp only [hc0]; rfl
    · simp only [hc0]; rfl
    · rfl
  · intro s hmode hnum hgx hgy
    let s1 : MyWindow :=
      { s with calibrationClicks := Function.update s.calibrationClicks 0 c0
               numCalibrationClicks := 1 }
    have h1 : s.onButtonPress contains c0 = .ok s1 := by
      rw [onButtonPress_calibration contains s c0 hmode, xCalibrationPress_first s c0 hnum]
    have hc0 : s1.calibrationClicks 0 = c0 := by
      show Function.update s.calibrationClicks 0 c0 0 = c0
      exact Function.update_same _ _ _
    have h2 := xCalibrationPress_second_accepted s1 c1 rfl hgx hgy
      (by rw [hc0]; exact hx) (by rw [hc0]; exact hy)
    rw [← onButtonPress_calibration contains s1 c1 hmode] at h2
    refine ⟨s1, _, h1, h2, ?_, ?_, ?_, ?_, ?_⟩
    · simp only [hc0]; push_cast; rfl
    · simp only [hc0]; push_cast; rfl
    · simp only [hc0]; rfl
    · simp only [hc0]; rfl
    · rfl

/-- The scenario of C3 in both builds: references (100,100), (500,400),
clicks (50,50) then (250,200) give slopes 2 and intercepts 0 and end the
calibration. -/
theorem calibration_commit_witness :
    (∃ s1 s2 : WhiteBoard,
      (WhiteBoard.new fun _ => ⟨0, 0⟩).mousePressEvent (fun _ _ => false) ⟨50, 50⟩ = .ok s1
      ∧ s1.mousePressEvent (fun _ _ => false) ⟨250, 200⟩ = .ok s2
      ∧ s2.xSlope = 2 ∧ s2.ySlope = 2 ∧ s2.xIntercept = 0 ∧ s2.yIntercept = 0
      ∧ s2.mode = MODE_NORMAL)
    ∧ (∃ s1 s2 : MyWindow,
      (MyWindow.new fun _ => ⟨0, 0⟩).onButtonPress (fun _ _ => false) ⟨50, 50⟩ = .ok s1
      ∧ s1.onButtonPress (fun _ _ => false) ⟨250, 200⟩ = .ok s2
      ∧ s2.xSlope = 2 ∧ s2.ySlope = 2 ∧ s2.xIntercept = 0 ∧ s2.yIntercept = 0
      ∧ s2.mode = MODE_NORMAL) := by
  have h := calibration_commit (fun _ _ => false) ⟨50, 50⟩ ⟨250, 200⟩ (by decide) (by decide)
  constructor
  · obtain ⟨s1, s2, h1, h2, hxs, hys, hxi, hyi, hm⟩ :=
      h.1 (WhiteBoard.new fun _ => ⟨0, 0⟩) rfl rfl (by decide) (by decide)
    have hxs2 : s2.xSlope = 2 := by rw [hxs]; norm_num [WhiteBoard.new]
    have hys2 : s2.ySlope = 2 := by rw [hys]; norm_num [WhiteBoard.new]
    refine ⟨s1, s2, h1, h2, hxs2, hys2, ?_, ?_, hm⟩
    · rw [hxi, hxs2]; norm_num [WhiteBoard.new]
    · rw [hyi, hys2]; norm_num [WhiteBoard.new]
  · obtain ⟨s1, s2, h1, h2, hxs, hys, hxi, hyi, hm⟩ :=
      h.2 (MyWindow.new fun _ => ⟨0, 0⟩) rfl rfl (by decide) (by decide)
    have hxs2 : s2.xSlope = 2 := by rw [hxs]; norm_num [MyWindow.new]
    have hys2 : s2.ySlope = 2 := by rw [hys]; norm_num [MyWindow.new]
    refine ⟨s1, s2, h1, h2, hxs2, hys2, ?_, ?_, hm⟩
    · rw [hxi, hxs2]; norm_num [MyWindow.new]
    · rw [hyi, hys2]; norm_num [MyWindow.new]

/-- C4 as stated fails: with the first reference point at (-100,-100) and
the accepted, non-degenerate clicks (50,50), (250,200), the committed
transform maps the first click to (-99,-99), not to the reference point. -/
theorem calibration_round_trip_counterexample :
    ∃ s1 s2 : WhiteBoard,
      ({ WhiteBoard.new (fun _ => ⟨0, 0⟩) with
          calibrationPoints := fun i => if i = 0 then ⟨-100, -100⟩ else ⟨500, 400⟩ }
        : WhiteBoard).mousePressEvent (fun _ _ => false) ⟨50, 50⟩ = .ok s1
      ∧ s1.mousePressEvent (fun _ _ => false) ⟨250, 200⟩ = .ok s2
      ∧ s2.calibrationPoints 0 = ⟨-100, -100⟩
      ∧ s2.mapMousePoint ⟨50, 50⟩ = ⟨-99, -99⟩ := by
  let s0 : WhiteBoard :=
    { WhiteBoard.new (fun _ => ⟨0, 0⟩) with
      calibrationPoints := fun i => if i = 0 then ⟨-100, -100⟩ else ⟨500, 400⟩ }
  let s1 : WhiteBoard :=
    { s0 with calibrationClicks := Function.update s0.calibrationClicks 0 ⟨50, 50⟩
              numCalibrationClicks := 1 }
  have h1 : s0.mousePressEvent (fun _ _ => false) ⟨50, 50⟩ = .ok s1 := by
    rw [mousePressEvent_calibration _ s0 _ rfl, calibrationPress_first s0 _ rfl]
  have h2 := calibrationPress_second_accepted s1 ⟨250, 200⟩ rfl
    (by decide) (by decide) (by decide) (by decide)
  rw [← mousePressEvent_calibration (fun _ _ => false) s1 _ rfl] at h2
  refine ⟨s1, _, h1, h2, rfl, ?_⟩
  simp only [WhiteBoard.mapMousePoint, s1, s0, WhiteBoard.new, Function.update_same]
  norm_num
  apply toInt_eq_of_ceil <;> norm_num

/-- C4, amended. For reference points with non-negative coordinates and
two clicks `c0`, `c1` that differ in both coordinates, `c1` passing the
guard, the calibration is committed and the committed transform maps `c0`
to the first reference point and `c1` to the second, exactly. -/
theorem calibration_round_trip (contains : I2Rectangle → I2Point → Bool)
    (s : WhiteBoard) (c0 c1 : I2Point)
    (hmode : s.mode = MODE_CALIBRATION) (hnum : s.numCalibrationClicks = 0)
    (hgx : c1.x ≠ (s.calibrationPoints 0).x) (hgy : c1.y ≠ (s.calibrationPoints 0).y)
    (hx : c1.x ≠ c0.x) (hy : c1.y ≠ c0.y)
    (h0x : 0 ≤ (s.calibrationPoints 0).x) (h0y : 0 ≤ (s.calibrationPoints 0).y)
    (h1x : 0 ≤ (s.calibrationPoints 1).x) (h1y : 0 ≤ (s.calibrationPoints 1).y) :
    ∃ s1 s2 : WhiteBoard,
      s.mousePressEvent contains c0 = .ok s1
      ∧ s1.mousePressEvent contains c1 = .ok s2
      ∧ s2.mapMousePoint c0 = s.calibrationPoints 0
      ∧ s2.mapMousePoint c1 = s.calibrationPoints 1 := by
  let s1 : WhiteBoard :=
    { s with calibrationClicks := Function.update s.calibrationClicks 0 c0
             numCalibrationClicks := 1 }
  have h1 : s.mousePressEvent contains c0 = .ok s1 := by
    rw [mousePressEvent_calibration contains s c0 hmode, calibrationPress_first s c0 hnum]
  have hc0 : s1.calibrationClicks 0 = c0 := by
    show Function.update s.calibrationClicks 0 c0 0 = c0
    exact Function.update_same _ _ _
  have h2 := calibrationPress_second_accepted s1 c1 rfl hgx hgy
    (by rw [hc0]; exact hx) (by rw [hc0]; exact hy)
  rw [← mousePressEvent_calibration contains s1 c1 hmode] at h2
  have hx' : (c1.x : ℚ) - (c0.x : ℚ) ≠ 0 := by exact_mod_cast sub_ne_zero.mpr hx
  have hy' : (c1.y : ℚ) - (c0.y : ℚ) ≠ 0 := by exact_mod_cast sub_ne_zero.mpr hy
  refine ⟨s1, _, h1, h2, ?_, ?_⟩
  · apply mapMousePoint_of_exact _ _ _ _ _ _ h0x h0y
    · simp only [s1, Function.update_same]
      ring
    · simp only [s1, Function.update_same]
      ring
  · apply mapMousePoint_of_exact _ _ _ _ _ _ h1x h1y
    · simp only [s1, Function.update_same]
      push_cast
      field_simp
      ring
    · simp only [s1, Function.update_same]
      push_cast
      field_simp
      ring

/-- The round trip of C4 on the constructor's reference points (100,100),
(500,400) with the clicks (50,50), (250,200). -/
theorem calibration_round_trip_witness :
    ∃ s1 s2 : WhiteBoard,
      (WhiteBoard.new fun _ => ⟨0, 0⟩).mousePressEvent (fun _ _ => false) ⟨50, 50⟩ = .ok s1
      ∧ s1.mousePressEvent (fun _ _ => false) ⟨250, 200⟩ = .ok s2
      ∧ s2.mapMousePoint ⟨50, 50⟩ = ⟨100, 100⟩
      ∧ s2.mapMousePoint ⟨250, 200⟩ = ⟨500, 400⟩ :=
  calibration_round_trip (fun _ _ => false) (WhiteBoard.new fun _ => ⟨0, 0⟩) ⟨50, 50⟩ ⟨250, 200⟩
    rfl rfl (by decide) (by decide) (by decide) (by decide)
    (by decide) (by decide) (by decide) (by decide)

/-- C5 at its failing input: with the constructor's reference points the
second click (50,200) passes the guard (50 ≠ 100, 200 ≠ 100) although it
shares its x with the first click (50,50), and the handler divides by
`50 - 50 = 0`. -/
theorem calibration_guard_misses_zero_denominator :
    ∃ s1 : WhiteBoard,
      (WhiteBoard.new fun _ => ⟨0, 0⟩).mousePressEvent (fun _ _ => false) ⟨50, 50⟩ = .ok s1
      ∧ s1.mousePressEvent (fun _ _ => false) ⟨50, 200⟩ = .error .divisionByZero := by
  let s0 : WhiteBoard := WhiteBoard.new fun _ => ⟨0, 0⟩
  let s1 : WhiteBoard :=
    { s0 with calibrationClicks := Function.update s0.calibrationClicks 0 ⟨50, 50⟩
              numCalibrationClicks := 1 }
  have h1 : s0.mousePressEvent (fun _ _ => false) ⟨50, 50⟩ = .ok s1 := by
    rw [mousePressEvent_calibration _ s0 _ rfl, calibrationPress_first s0 _ rfl]
  refine ⟨s1, h1, ?_⟩
  rw [mousePressEvent_calibration _ s1 _ rfl]
  exact calibrationPress_second_zero_denominator s1 ⟨50, 200⟩ rfl (by decide) (by decide)
    (Or.inl rfl)

/-- C6. In calibration mode after one click, a second click that shares
its x or its y with `calibrationPoints[0]` is handled without fault and
leaves the four coefficients of the transform and the mode
`MODE_CALIBRATION` as they were. -/
theorem degenerate_click_keeps_transform (contains : I2Rectangle → I2Point → Bool)
    (s : WhiteBoard) (t : I2Point)
    (hmode : s.mode = MODE_CALIBRATION) (hnum : s.numCalibrationClicks = 1)
    (hdeg : t.x = (s.calibrationPoints 0).x ∨ t.y = (s.calibrationPoints 0).y) :
    ∃ s' : WhiteBoard,
      s.mousePressEvent contains t = .ok s'
      ∧ s'.xIntercept = s.xIntercept ∧ s'.xSlope = s.xSlope
      ∧ s'.yIntercept = s.yIntercept ∧ s'.ySlope = s.ySlope
      ∧ s'.mode = MODE_CALIBRATION := by
  let s' : WhiteBoard :=
    { s with calibrationClicks := Function.update s.calibrationClicks 1 t
             numCalibrationClicks := 2 }
  refine ⟨s', ?_, rfl, rfl, rfl, rfl, hmode⟩
  rw [mousePressEvent_calibration contains s t hmode,
    calibrationPress_second_rejected s t hnum hdeg]

/-- C6 after the first click (50,50) on the constructor's state: the click
(100,300) shares its x with the reference point (100,100). -/
theorem degenerate_click_keeps_transform_witness :
    ∃ s' : WhiteBoard,
      ({ WhiteBoard.new (fun _ => ⟨50, 50⟩) with numCalibrationClicks := 1 }
        : WhiteBoard).mousePressEvent (fun _ _ => false) ⟨100, 300⟩ = .ok s'
      ∧ s'.xIntercept = 0 ∧ s'.xSlope = 1 ∧ s'.yIntercept = 0 ∧ s'.ySlope = 1
      ∧ s'.mode = MODE_CALIBRATION :=
  degenerate_click_keeps_transform (fun _ _ => false)
    { WhiteBoard.new (fun _ => ⟨50, 50⟩) with numCalibrationClicks := 1 } ⟨100, 300⟩
    rfl rfl (Or.inl rfl)

/-- C7 at its failing input: after the first click (50,50) the rejected
click (100,300) leaves `numCalibrationClicks = 2` in calibration mode, and
the next click (250,200) fails `assert(numCalibrationClicks <
NUM_CALIBRATION_POINTS)` instead of completing the calibration. -/
theorem rejected_click_is_counted :
    ∃ s1 s2 : WhiteBoard,
      (WhiteBoard.new fun _ => ⟨0, 0⟩).mousePressEvent (fun _ _ => false) ⟨50, 50⟩ = .ok s1
      ∧ s1.mousePressEvent (fun _ _ => false) ⟨100, 300⟩ = .ok s2
      ∧ s2.numCalibrationClicks = 2
      ∧ s2.mode = MODE_CALIBRATION
      ∧ s2.mousePressEvent (fun _ _ => false) ⟨250, 200⟩ = .error .assertFailed := by
  let s0 : WhiteBoard := WhiteBoard.new fun _ => ⟨0, 0⟩
  let s1 : WhiteBoard :=
    { s0 with calibrationClicks := Function.update s0.calibrationClicks 0 ⟨50, 50⟩
              numCalibrationClicks := 1 }
  let s2 : WhiteBoard :=
    { s1 with calibrationClicks := Function.update s1.calibrationClicks 1 ⟨100, 300⟩
              numCalibrationClicks := 2 }
  have h1 : s0.mousePressEvent (fun _ _ => false) ⟨50, 50⟩ = .ok s1 := by
    rw [mousePressEvent_calibration _ s0 _ rfl, calibrationPress_first s0 _ rfl]
  have h2 : s1.mousePressEvent (fun _ _ => false) ⟨100, 300⟩ = .ok s2 := by
    rw [mousePressEvent_calibration _ s1 _ rfl,
      calibrationPress_second_rejected s1 ⟨100, 300⟩ rfl (Or.inl rfl)]
  refine ⟨s1, s2, h1, h2, rfl, rfl, ?_⟩
  rw [mousePressEvent_calibration _ s2 _ rfl]
  exact calibrationPress_assert s2 _ (le_refl _)

/-! ## The coordinate map -/

/-- C8. In both builds (`WhiteBoard::mapMousePoint`,
`MyWindow::mapMousePoint`), with the doubles read as exact rationals and
0.49 as 49/100, each coordinate returned by `mapMousePoint` is the affine
value plus 49/100 with its fractional part dropped: the floor when that sum
is non-negative, the ceiling when it is negative. -/
theorem mapMousePoint_truncates (raw : I2Point) :
    (∀ s : WhiteBoard,
      (s.mapMousePoint raw).x =
          (if 0 ≤ s.xIntercept + (raw.x : ℚ) * s.xSlope + 49 / 100
            then ⌊s.xIntercept + (raw.x : ℚ) * s.xSlope + 49 / 100⌋
            else ⌈s.xIntercept + (raw.x : ℚ) * s.xSlope + 49 / 100⌉)
        ∧ (s.mapMousePoint raw).y =
          (if 0 ≤ s.yIntercept + (raw.y : ℚ) * s.ySlope + 49 / 100
            then ⌊s.yIntercept + (raw.y : ℚ) * s.ySlope + 49 / 100⌋
            else ⌈s.yIntercept + (raw.y : ℚ) * s.ySlope + 49 / 100⌉))
    ∧ (∀ s : MyWindow,
      (s.mapMousePoint raw).x =
          (if 0 ≤ s.xIntercept + (raw.x : ℚ) * s.xSlope + 49 / 100
            then ⌊s.xIntercept + (raw.x : ℚ) * s.xSlope + 49 / 100⌋
            else ⌈s.xIntercept + (raw.x : ℚ) * s.xSlope + 49 / 100⌉)
        ∧ (s.mapMousePoint raw).y =
          (if 0 ≤ s.yIntercept + (raw.y : ℚ) * s.ySlope + 49 / 100
            then ⌊s.yIntercept + (raw.y : ℚ) * s.ySlope + 49 / 100⌋
            else ⌈s.yIntercept + (raw.y : ℚ) * s.ySlope + 49 / 100⌉)) :=
  ⟨fun _ => ⟨toInt_eq _, toInt_eq _⟩, fun _ => ⟨toInt_eq _, toInt_eq _⟩⟩

/-- The scenario of C8 in both builds: with slopes 2 and intercepts 0 the
raw point (60,60) maps to (120,120). -/
theorem mapMousePoint_truncates_witness :
    ({ WhiteBoard.new (fun _ => ⟨0, 0⟩) with xSlope := 2, ySlope := 2 }
      : WhiteBoard).mapMousePoint ⟨60, 60⟩ = ⟨120, 120⟩
    ∧ ({ MyWindow.new (fun _ => ⟨0, 0⟩) with xSlope := 2, ySlope := 2 }
      : MyWindow).mapMousePoint ⟨60, 60⟩ = ⟨120, 120⟩ := by
  have h := (mapMousePoint_truncates ⟨60, 60⟩).1
    { WhiteBoard.new (fun _ => ⟨0, 0⟩) with xSlope := 2, ySlope := 2 }
  have h' := (mapMousePoint_truncates ⟨60, 60⟩).2
    { MyWindow.new (fun _ => ⟨0, 0⟩) with xSlope := 2, ySlope := 2 }
  norm_num [WhiteBoard.new] at h
  norm_num [MyWindow.new] at h'
  have e : ∀ q : I2Point, q.x = 120 → q.y = 120 → q = ⟨120, 120⟩ := by
    rintro ⟨x, y⟩ h1 h2
    simp only at h1 h2
    rw [h1, h2]
  exact ⟨e _ h.1 h.2, e _ h'.1 h'.2⟩

/-- C9 as stated fails: with slope 1/2 and intercept 0 the raw coordinate
1 has the affine value 1/2, exactly halfway between 0 and 1; the code
returns 0, while rounding half up, `⌊v + 1/2⌋`, is 1. -/
theorem mapMousePoint_half_up_counterexample :
    (({ WhiteBoard.new (fun _ => ⟨0, 0⟩) with xSlope := 1 / 2, ySlope := 1 / 2 }
        : WhiteBoard).mapMousePoint ⟨1, 1⟩).x = 0
      ∧ ⌊({ WhiteBoard.new (fun _ => ⟨0, 0⟩) with xSlope := 1 / 2, ySlope := 1 / 2 }
            : WhiteBoard).xIntercept
          + ((1 : Int) : ℚ)
            * ({ WhiteBoard.new (fun _ => ⟨0, 0⟩) with xSlope := 1 / 2, ySlope := 1 / 2 }
              : WhiteBoard).xSlope
          + 1 / 2⌋ = 1 := by
  constructor
  · show toInt ((0 : ℚ) + ((1 : Int) : ℚ) * (1 / 2) + 49 / 100) = 0
    apply toInt_eq_of_floor <;> norm_num
  · show ⌊(0 : ℚ) + ((1 : Int) : ℚ) * (1 / 2) + 1 / 2⌋ = 1
    rw [Int.floor_eq_iff]
    norm_num

/-- C9, amended. In exact arithmetic (the doubles read as exact rationals,
0.49 as 49/100), for an affine value `v ≥ -49/100` the coordinate returned
by `mapMousePoint` is `v` rounded to the nearest integer, `⌊v + 1/2⌋`,
unless the fractional part of `v` lies in `[1/2, 51/100)`; then, and so
for a value exactly halfway between two integers, it is `v` rounded down. -/
theorem mapMousePoint_rounds (s : WhiteBoard) (raw : I2Point) :
    (-(49 / 100) ≤ s.xIntercept + (raw.x : ℚ) * s.xSlope →
        (s.mapMousePoint raw).x =
          if 1 / 2 ≤ Int.fract (s.xIntercept + (raw.x : ℚ) * s.xSlope)
              ∧ Int.fract (s.xIntercept + (raw.x : ℚ) * s.xSlope) < 51 / 100
          then ⌊s.xIntercept + (raw.x : ℚ) * s.xSlope⌋
          else ⌊s.xIntercept + (raw.x : ℚ) * s.xSlope + 1 / 2⌋)
      ∧ (-(49 / 100) ≤ s.yIntercept + (raw.y : ℚ) * s.ySlope →
        (s.mapMousePoint raw).y =
          if 1 / 2 ≤ Int.fract (s.yIntercept + (raw.y : ℚ) * s.ySlope)
              ∧ Int.fract (s.yIntercept + (raw.y : ℚ) * s.ySlope) < 51 / 100
          then ⌊s.yIntercept + (raw.y : ℚ) * s.ySlope⌋
          else ⌊s.yIntercept + (raw.y : ℚ) * s.ySlope + 1 / 2⌋) :=
  ⟨fun h => toInt_bias _ h, fun h => toInt_bias _ h⟩

/-- C9, amended, with slope 1/2 and intercept 0 at the raw point (1,4): the
value 1/2 is rounded down to 0 and the value 2 stays 2. -/
theorem mapMousePoint_rounds_witness :
    (({ WhiteBoard.new (fun _ => ⟨0, 0⟩) with xSlope := 1 / 2, ySlope := 1 / 2 }
        : WhiteBoard).mapMousePoint ⟨1, 4⟩).x = 0
      ∧ (({ WhiteBoard.new (fun _ => ⟨0, 0⟩) with xSlope := 1 / 2, ySlope := 1 / 2 }
        : WhiteBoard).mapMousePoint ⟨1, 4⟩).y = 2 := by
  have h := mapMousePoint_rounds
    { WhiteBoard.new (fun _ => ⟨0, 0⟩) with xSlope := 1 / 2, ySlope := 1 / 2 } ⟨1, 4⟩
  have hfx : Int.fract ((0 : ℚ) + ((1 : Int) : ℚ) * (1 / 2)) = 1 / 2 := by
    rw [Int.fract_eq_iff]
    exact ⟨by norm_num, by norm_num, 0, by norm_num⟩
  have hfy : Int.fract ((0 : ℚ) + ((4 : Int) : ℚ) * (1 / 2)) = 0 := by
    rw [Int.fract_eq_iff]
    exact ⟨by norm_num, by norm_num, 2, by norm_num⟩
  have hx := h.1 (by show -(49 / 100 : ℚ) ≤ (0 : ℚ) + ((1 : Int) : ℚ) * (1 / 2); norm_num)
  have hy := h.2 (by show -(49 / 100 : ℚ) ≤ (0 : ℚ) + ((4 : Int) : ℚ) * (1 / 2); norm_num)
  constructor
  · rw [hx]
    show (if 1 / 2 ≤ Int.fract ((0 : ℚ) + ((1 : Int) : ℚ) * (1 / 2))
            ∧ Int.fract ((0 : ℚ) + ((1 : Int) : ℚ) * (1 / 2)) < 51 / 100
          then ⌊(0 : ℚ) + ((1 : Int) : ℚ) * (1 / 2)⌋
          else ⌊(0 : ℚ) + ((1 : Int) : ℚ) * (1 / 2) + 1 / 2⌋) = 0
    rw [hfx, if_pos (by norm_num), Int.floor_eq_iff]
    norm_num
  · rw [hy]
    show (if 1 / 2 ≤ Int.fract ((0 : ℚ) + ((4 : Int) : ℚ) * (1 / 2))
            ∧ Int.fract ((0 : ℚ) + ((4 : Int) : ℚ) * (1 / 2)) < 51 / 100
          then ⌊(0 : ℚ) + ((4 : Int) : ℚ) * (1 / 2)⌋
          else ⌊(0 : ℚ) + ((4 : Int) : ℚ) * (1 / 2) + 1 / 2⌋) = 2
    rw [hfy, if_neg (by norm_num), Int.floor_eq_iff]
    norm_num

/-- C10 as stated fails: in the constructor's state the raw point (-1,-1)
is mapped to (0,0), since `-1 + 0.49` is truncated toward zero. -/
theorem mapMousePoint_default_counterexample :
    (WhiteBoard.new fun _ => ⟨0, 0⟩).mapMousePoint ⟨-1, -1⟩ = ⟨0, 0⟩
      ∧ (WhiteBoard.new fun _ => ⟨0, 0⟩).mapMousePoint ⟨-1, -1⟩ ≠ ⟨-1, -1⟩ := by
  have h : (WhiteBoard.new fun _ => ⟨0, 0⟩).mapMousePoint ⟨-1, -1⟩ = ⟨0, 0⟩ := by
    have e : toInt ((0 : ℚ) + ((-1 : Int) : ℚ) * 1 + 49 / 100) = 0 := by
      apply toInt_eq_of_ceil <;> norm_num
    show (⟨toInt ((0 : ℚ) + ((-1 : Int) : ℚ) * 1 + 49 / 100),
      toInt ((0 : ℚ) + ((-1 : Int) : ℚ) * 1 + 49 / 100)⟩ : I2Point) = ⟨0, 0⟩
    rw [e]
  refine ⟨h, ?_⟩
  rw [h]
  decide

/-- C10, amended. In the state built by the constructor, `mapMousePoint`
returns every point with non-negative coordinates unchanged. -/
theorem mapMousePoint_default (clicks : Fin NUM_CALIBRATION_POINTS → I2Point)
    (p : I2Point) (hx : 0 ≤ p.x) (hy : 0 ≤ p.y) :
    (WhiteBoard.new clicks).mapMousePoint p = p := by
  have ex : (WhiteBoard.new clicks).xIntercept + (p.x : ℚ) * (WhiteBoard.new clicks).xSlope
      = (p.x : ℚ) := by
    show (0 : ℚ) + (p.x : ℚ) * 1 = (p.x : ℚ)
    ring
  have ey : (WhiteBoard.new clicks).yIntercept + (p.y : ℚ) * (WhiteBoard.new clicks).ySlope
      = (p.y : ℚ) := by
    show (0 : ℚ) + (p.y : ℚ) * 1 = (p.y : ℚ)
    ring
  exact mapMousePoint_of_exact _ p p.x p.y ex ey hx hy

/-- C10, amended, at the point (640, 0). -/
theorem mapMousePoint_default_witness :
    (WhiteBoard.new fun _ => ⟨0, 0⟩).mapMousePoint ⟨640, 0⟩ = ⟨640, 0⟩ :=
  mapMousePoint_default (fun _ => ⟨0, 0⟩) ⟨640, 0⟩ (by decide) (by decide)

/-! ## The action state machine -/

/-- C13. In both builds, for every state whose active page exists,
capturing or not, `init()` returns a state in which the active page has no
strokes and no capture is in progress; the other pages are as before. -/
theorem init_clears_active_page :
    (∀ (s : WhiteBoard) (i : Fin MAX_PAGES), index? MAX_PAGES s.currentPage = some i →
      ∃ s' : WhiteBoard, s.init = .ok s'
        ∧ (s'.pages i).strokes = []
        ∧ (s'.pages i).strokes.length = 0
        ∧ s'.myDrawingActive = false
        ∧ ∀ j, j ≠ i → s'.pages j = s.pages j)
    ∧ (∀ (s : MyWindow) (i : Fin MAX_PAGES), index? MAX_PAGES s.currentPage = some i →
      ∃ s' : MyWindow, s.init = .ok s'
        ∧ (s'.pages i).strokes = []
        ∧ (s'.pages i).strokes.length = 0
        ∧ s'.myDrawingActive = false
        ∧ ∀ j, j ≠ i → s'.pages j = s.pages j) := by
  constructor
  · intro s i hpage
    refine ⟨{ s with pages := Function.update s.pages i (Page.mk []), myDrawingActive := false },
      ?_, ?_, ?_, rfl, ?_⟩
    · unfold WhiteBoard.init
      rw [hpage]
    · simp
    · simp
    · intro j hj
      exact Function.update_noteq hj _ _
  · intro s i hpage
    refine ⟨{ s with pages := Function.update s.pages i (XPage.mk []), myDrawingActive := false },
      ?_, ?_, ?_, rfl, ?_⟩
    · unfold MyWindow.init
      rw [hpage]
    · simp
    · simp
    · intro j hj
      exact Function.update_noteq hj _ _

/-- C13 in the Qt build on a state with a stroke on every page and a
capture in progress. -/
theorem init_clears_active_page_witness :
    ∃ s' : WhiteBoard,
      ({ WhiteBoard.new (fun _ => ⟨0, 0⟩) with
          pages := fun _ => ⟨[⟨0, 3, [⟨1, 1⟩], some [⟨1, 1⟩], true⟩]⟩
          myDrawing := ⟨0, 3, [⟨5, 5⟩], some [⟨5, 5⟩], false⟩
          myDrawingActive := true } : WhiteBoard).init = .ok s'
      ∧ (s'.pages 0).strokes = []
      ∧ (s'.pages 0).strokes.length = 0
      ∧ s'.myDrawingActive = false
      ∧ ∀ j, j ≠ 0 → s'.pages j = ⟨[⟨0, 3, [⟨1, 1⟩], some [⟨1, 1⟩], true⟩]⟩ :=
  init_clears_active_page.1 _ 0 (by decide)

/-- C14. With no capture in progress, DRAW_CURVE and END_CURVE return the
state they were given: no stroke is appended, no point is recorded, the
flag stays off. -/
theorem idle_absorbs_draw_and_end (s : WhiteBoard) (hidle : s.myDrawingActive = false)
    (q : I2Point) (c w : Int) :
    s.processAction ⟨Action.DRAW_CURVE, c, w, q⟩ = .ok s
      ∧ s.processAction ⟨Action.END_CURVE, c, w, q⟩ = .ok s :=
  ⟨processAction_idle s _ hidle (Or.inl rfl), processAction_idle s _ hidle (Or.inr rfl)⟩

/-- C14 on the constructor's state. -/
theorem idle_absorbs_draw_and_end_witness :
    (WhiteBoard.new fun _ => ⟨0, 0⟩).processAction ⟨Action.DRAW_CURVE, 0, 0, ⟨7, 9⟩⟩
        = .ok (WhiteBoard.new fun _ => ⟨0, 0⟩)
      ∧ (WhiteBoard.new fun _ => ⟨0, 0⟩).processAction ⟨Action.END_CURVE, 0, 0, ⟨7, 9⟩⟩
        = .ok (WhiteBoard.new fun _ => ⟨0, 0⟩) :=
  idle_absorbs_draw_and_end (WhiteBoard.new fun _ => ⟨0, 0⟩) rfl ⟨7, 9⟩ 0 0

/-- C11 at its failing input.  From the constructor's state: the two
calibration clicks, a press on the canvas at (300,300) that starts a
capture, a press on the Clear button at (350,20) while that capture is in
progress, and a press on the canvas at (300,200).  `init()` switched the
capture off without discarding its point, so the stroke started by the
last press has two points, the stale (300,300) and (300,200).  The same
happens on the actions alone: START_CURVE, `init()`, START_CURVE. -/
theorem start_after_clear_keeps_stale_point :
    ∃ s' : WhiteBoard,
      (WhiteBoard.new fun _ => ⟨0, 0⟩).run I2Rectangle.contains
          [.press ⟨100, 100⟩, .press ⟨500, 400⟩, .press ⟨300, 300⟩, .press ⟨350, 20⟩,
            .press ⟨300, 200⟩] = .ok s'
      ∧ s'.myDrawingActive = true
      ∧ s'.myDrawing.points = [⟨300, 300⟩, ⟨300, 200⟩]
      ∧ ∃ s'' : WhiteBoard,
        (WhiteBoard.new fun _ => ⟨0, 0⟩).run I2Rectangle.contains
            [.action (Action.startCurve ⟨300, 300⟩ 0 3), .clear,
              .action (Action.startCurve ⟨300, 200⟩ 0 3)] = .ok s''
        ∧ s''.myDrawingActive = true
        ∧ s''.myDrawing.points = [⟨300, 300⟩, ⟨300, 200⟩] := by
  let d : WhiteBoard :=
    { WhiteBoard.new (fun _ => ⟨0, 0⟩) with
      calibrationClicks := fun i => if i = 0 then ⟨100, 100⟩ else ⟨500, 400⟩
      numCalibrationClicks := 2
      mode := MODE_NORMAL }
  let s3 : WhiteBoard :=
    { d with
      myDrawing := ⟨0, 3, [⟨300, 300⟩], some [⟨300, 300⟩], false⟩
      myDrawingActive := true }
  let s4 : WhiteBoard :=
    { s3 with
      pages := Function.update s3.pages 0 (Page.mk [])
      myDrawingActive := false }
  let s5 : WhiteBoard :=
    { s4 with
      myDrawing := ⟨0, 3, [⟨300, 300⟩, ⟨300, 200⟩], some [⟨300, 300⟩, ⟨300, 200⟩], false⟩
      myDrawingActive := true }
  have h3 : d.step I2Rectangle.contains (.press ⟨300, 300⟩) = .ok s3 := by
    rw [step_press_identity _ d _ rfl rfl rfl rfl rfl (by decide) (by decide)]
    rfl
  have h4 : s3.step I2Rectangle.contains (.press ⟨350, 20⟩) = .ok s4 := by
    rw [step_press_identity _ s3 _ rfl rfl rfl rfl rfl (by decide) (by decide)]
    rfl
  have h5 : s4.step I2Rectangle.contains (.press ⟨300, 200⟩) = .ok s5 := by
    rw [step_press_identity _ s4 _ rfl rfl rfl rfl rfl (by decide) (by decide)]
    rfl
  refine ⟨s5, ?_, rfl, rfl, ⟨_, rfl, rfl, rfl⟩⟩
  rw [run_calibrated, run_cons _ d s3 _ _ h3, run_cons _ s3 s4 _ _ h4, run_cons _ s4 s5 _ _ h5]
  rfl

/-- C15 at its failing input.  From the constructor's state: the two
calibration clicks, a press at (300,300), a release at (310,300) that
finishes and stores the stroke, and a press at (200,200).  `clear()` does
not reset `finished`, so the capture begun by the last press has
`finished = true` while it is in progress.  The same happens on the
actions alone, processed in drawing mode: START_CURVE, END_CURVE,
START_CURVE after the two calibration clicks. -/
theorem second_capture_starts_finished :
    ∃ s' : WhiteBoard,
      (WhiteBoard.new fun _ => ⟨0, 0⟩).run I2Rectangle.contains
          [.press ⟨100, 100⟩, .press ⟨500, 400⟩, .press ⟨300, 300⟩, .release ⟨310, 300⟩,
            .press ⟨200, 200⟩] = .ok s'
      ∧ s'.myDrawingActive = true
      ∧ s'.myDrawing.points = [⟨200, 200⟩]
      ∧ s'.myDrawing.finished = true
      ∧ ∃ s'' : WhiteBoard,
        (WhiteBoard.new fun _ => ⟨0, 0⟩).run I2Rectangle.contains
            [.press ⟨100, 100⟩, .press ⟨500, 400⟩,
              .action (Action.startCurve ⟨300, 300⟩ 0 3), .action (Action.endCurve ⟨310, 300⟩),
              .action (Action.startCurve ⟨200, 200⟩ 0 3)] = .ok s''
        ∧ s''.myDrawingActive = true
        ∧ s''.myDrawing.finished = true := by
  let d : WhiteBoard :=
    { WhiteBoard.new (fun _ => ⟨0, 0⟩) with
      calibrationClicks := fun i => if i = 0 then ⟨100, 100⟩ else ⟨500, 400⟩
      numCalibrationClicks := 2
      mode := MODE_NORMAL }
  let s3 : WhiteBoard :=
    { d with
      myDrawing := ⟨0, 3, [⟨300, 300⟩], some [⟨300, 300⟩], false⟩
      myDrawingActive := true }
  let s4 : WhiteBoard :=
    { s3 with
      pages := Function.update s3.pages 0
        (Page.mk [⟨0, 3, [⟨300, 300⟩, ⟨310, 300⟩], some [⟨300, 300⟩, ⟨310, 300⟩], true⟩])
      myDrawing := ⟨0, 3, [], none, true⟩
      myDrawingActive := false }
  let s5 : WhiteBoard :=
    { s4 with
      myDrawing := ⟨0, 3, [⟨200, 200⟩], some [⟨200, 200⟩], true⟩
      myDrawingActive := true }
  have h3 : d.step I2Rectangle.contains (.press ⟨300, 300⟩) = .ok s3 := by
    rw [step_press_identity _ d _ rfl rfl rfl rfl rfl (by decide) (by decide)]
    rfl
  have h4 : s3.step I2Rectangle.contains (.release ⟨310, 300⟩) = .ok s4 := by
    rw [step_release_identity _ s3 _ rfl rfl rfl rfl rfl (by decide) (by decide)]
    rfl
  have h5 : s4.step I2Rectangle.contains (.press ⟨200, 200⟩) = .ok s5 := by
    rw [step_press_identity _ s4 _ rfl rfl rfl rfl rfl (by decide) (by decide)]
    rfl
  refine ⟨s5, ?_, rfl, rfl, rfl, ⟨s5, ?_, rfl, rfl⟩⟩
  · rw [run_calibrated, run_cons _ d s3 _ _ h3, run_cons _ s3 s4 _ _ h4,
      run_cons _ s4 s5 _ _ h5]
    rfl
  · rw [run_calibrated]
    rfl

/-- C16 at its failing input.  From the constructor's state: the two
calibration clicks, a press at (300,300) and, with no release in between,
a press at (200,200).  The second START_CURVE stores the stroke in
progress without `finalize()`, so page 0 holds a stroke with
`finished = false`.  The same happens on the two START_CURVE actions
alone. -/
theorem start_during_capture_stores_unfinished :
    ∃ s' : WhiteBoard,
      (WhiteBoard.new fun _ => ⟨0, 0⟩).run I2Rectangle.contains
          [.press ⟨100, 100⟩, .press ⟨500, 400⟩, .press ⟨300, 300⟩, .press ⟨200, 200⟩] = .ok s'
      ∧ (s'.pages 0).strokes = [⟨0, 3, [⟨300, 300⟩], some [⟨300, 300⟩], false⟩]
      ∧ (∃ m ∈ (s'.pages 0).strokes, m.finished = false)
      ∧ ∃ s'' : WhiteBoard,
        (WhiteBoard.new fun _ => ⟨0, 0⟩).run I2Rectangle.contains
            [.action (Action.startCurve ⟨300, 300⟩ 0 3),
              .action (Action.startCurve ⟨200, 200⟩ 0 3)] = .ok s''
        ∧ (s''.pages 0).strokes = [⟨0, 3, [⟨300, 300⟩], some [⟨300, 300⟩], false⟩] := by
  let d : WhiteBoard :=
    { WhiteBoard.new (fun _ => ⟨0, 0⟩) with
      calibrationClicks := fun i => if i = 0 then ⟨100, 100⟩ else ⟨500, 400⟩
      numCalibrationClicks := 2
      mode := MODE_NORMAL }
  let s3 : WhiteBoard :=
    { d with
      myDrawing := ⟨0, 3, [⟨300, 300⟩], some [⟨300, 300⟩], false⟩
      myDrawingActive := true }
  let s4 : WhiteBoard :=
    { s3 with
      pages := Function.update s3.pages 0
        (Page.mk [⟨0, 3, [⟨300, 300⟩], some [⟨300, 300⟩], false⟩])
      myDrawing := ⟨0, 3, [⟨200, 200⟩], some [⟨200, 200⟩], false⟩
      myDrawingActive := true }
  have h3 : d.step I2Rectangle.contains (.press ⟨300, 300⟩) = .ok s3 := by
    rw [step_press_identity _ d _ rfl rfl rfl rfl rfl (by decide) (by decide)]
    rfl
  have h4 : s3.step I2Rectangle.contains (.press ⟨200, 200⟩) = .ok s4 := by
    rw [step_press_identity _ s3 _ rfl rfl rfl rfl rfl (by decide) (by decide)]
    rfl
  refine ⟨s4, ?_, rfl, ⟨_, List.mem_singleton.mpr rfl, rfl⟩, ⟨_, rfl, rfl⟩⟩
  rw [run_calibrated, run_cons _ d s3 _ _ h3, run_cons _ s3 s4 _ _ h4]
  rfl

/-! ## Tool selection -/

/-- C18 as stated fails.  From the constructor's state the two calibration
clicks and a press at (300,300) start a black stroke; a press on the Red
button at (100,20) while that capture is in progress changes the color of
the stroke in progress from 0 to 2. -/
theorem tool_press_recolors_counterexample :
    ∃ s3 s4 : WhiteBoard,
      (WhiteBoard.new fun _ => ⟨0, 0⟩).run I2Rectangle.contains
          [.press ⟨100, 100⟩, .press ⟨500, 400⟩, .press ⟨300, 300⟩] = .ok s3
      ∧ s3.myDrawingActive = true
      ∧ s3.myDrawing.points = [⟨300, 300⟩]
      ∧ s3.myDrawing.color = BLACK_COLOR_IDX
      ∧ hitButton I2Rectangle.contains (s3.mapMousePoint ⟨100, 20⟩) = some .red
      ∧ s3.mousePressEvent I2Rectangle.contains ⟨100, 20⟩ = .ok s4
      ∧ s4.myDrawing.color = RED_COLOR_IDX := by
  let d : WhiteBoard :=
    { WhiteBoard.new (fun _ => ⟨0, 0⟩) with
      calibrationClicks := fun i => if i = 0 then ⟨100, 100⟩ else ⟨500, 400⟩
      numCalibrationClicks := 2
      mode := MODE_NORMAL }
  let s3 : WhiteBoard :=
    { d with
      myDrawing := ⟨0, 3, [⟨300, 300⟩], some [⟨300, 300⟩], false⟩
      myDrawingActive := true }
  have h3 : d.step I2Rectangle.contains (.press ⟨300, 300⟩) = .ok s3 := by
    rw [step_press_identity _ d _ rfl rfl rfl rfl rfl (by decide) (by decide)]
    rfl
  have h4 : s3.step I2Rectangle.contains (.press ⟨100, 20⟩)
      = .ok (s3.colorButton RED_COLOR_IDX) := by
    rw [step_press_identity _ s3 _ rfl rfl rfl rfl rfl (by decide) (by decide)]
    rfl
  refine ⟨s3, s3.colorButton RED_COLOR_IDX, ?_, rfl, rfl, rfl, ?_, h4, rfl⟩
  · rw [run_calibrated, run_cons _ d s3 _ _ h3]
    rfl
  · rw [mapMousePoint_identity s3 _ rfl rfl rfl rfl (by decide) (by decide)]
    decide

/-- In drawing mode `onButtonPress` is `pressButton` on the button under
the mapped point. -/
theorem onButtonPress_hit (contains : I2Rectangle → I2Point → Bool)
    (s : MyWindow) (t : I2Point) (hmode : s.mode ≠ MODE_CALIBRATION) :
    s.onButtonPress contains t =
      s.pressButton (s.mapMousePoint t) (hitButton contains (s.mapMousePoint t)) := by
  unfold MyWindow.onButtonPress
  rw [if_neg hmode]
  generalize s.mapMousePoint t = wp
  simp only [hitButton, Button.order, List.find?, Button.rect]
  cases h1 : contains WhiteBoard.blackButtonRect wp
  case true => simp [MyWindow.pressButton]
  cases h2 : contains WhiteBoard.blueButtonRect wp
  case true => simp [MyWindow.pressButton]
  cases h3 : contains WhiteBoard.redButtonRect wp
  case true => simp [MyWindow.pressButton]
  cases h4 : contains WhiteBoard.greenButtonRect wp
  case true => simp [MyWindow.pressButton]
  cases h5 : contains WhiteBoard.clearButtonRect wp
  case true => simp [MyWindow.pressButton]
  cases h6 : contains WhiteBoard.calibrateButtonRect wp
  case true => simp [MyWindow.pressButton]
  cases h7 : contains WhiteBoard.eraseButtonRect wp
  case true => simp [MyWindow.pressButton]
  cases h8 : contains WhiteBoard.thinButtonRect wp
  case true => simp [MyWindow.pressButton]
  cases h9 : contains WhiteBoard.normalButtonRect wp
  case true => simp [MyWindow.pressButton]
  cases h10 : contains WhiteBoard.thickButtonRect wp
  case true => simp [MyWindow.pressButton]
  cases h11 : contains WhiteBoard.veryThickButtonRect wp
  case true => simp [MyWindow.pressButton]
  cases h12 : contains WhiteBoard.quitButtonRect wp
  case true => simp [MyWindow.pressButton]
  simp [MyWindow.pressButton]

/-- C18, amended. In both builds, in drawing mode, for every state and
every press that lands on one of the nine tool buttons, the press is
handled without fault and leaves the points (in the Qt build also the path
and the finished flag) of the in-progress stroke, the capture flag and
every page's stroke list unchanged; the color of the in-progress stroke
becomes the newly selected `currentColor`, and its width becomes the newly
selected `currentWidth` for a width button or the eraser and stays as it
was for a color button. -/
theorem tool_press_effect (contains : I2Rectangle → I2Point → Bool)
    (t : I2Point) (b : Button) (htool : b.isTool = true) :
    (∀ s : WhiteBoard, s.mode ≠ MODE_CALIBRATION →
      hitButton contains (s.mapMousePoint t) = some b →
      ∃ s' : WhiteBoard, s.mousePressEvent contains t = .ok s'
        ∧ s'.myDrawing.points = s.myDrawing.points
        ∧ s'.myDrawing.qPath = s.myDrawing.qPath
        ∧ s'.myDrawing.finished = s.myDrawing.finished
        ∧ s'.myDrawingActive = s.myDrawingActive
        ∧ s'.pages = s.pages
        ∧ s'.myDrawing.color = s'.currentColor
        ∧ s'.myDrawing.width = (if (b.color?).isSome then s.myDrawing.width else s'.currentWidth)
        ∧ (∀ c, b.color? = some c → s'.currentColor = c)
        ∧ (∀ w, b.width? = some w → s'.currentWidth = w)
        ∧ (b = .erase → s'.currentColor = ERASER_COLOR_IDX ∧ s'.currentWidth = ERASER_WIDTH))
    ∧ (∀ s : MyWindow, s.mode ≠ MODE_CALIBRATION →
      hitButton contains (s.mapMousePoint t) = some b →
      ∃ s' : MyWindow, s.onButtonPress contains t = .ok s'
        ∧ s'.myDrawing.points = s.myDrawing.points
        ∧ s'.myDrawingActive = s.myDrawingActive
        ∧ s'.pages = s.pages
        ∧ s'.myDrawing.color = s'.currentColor
        ∧ s'.myDrawing.width = (if (b.color?).isSome then s.myDrawing.width else s'.currentWidth)
        ∧ (∀ c, b.color? = some c → s'.currentColor = c)
        ∧ (∀ w, b.width? = some w → s'.currentWidth = w)
        ∧ (b = .erase →
            s'.currentColor = ERASER_COLOR_IDX ∧ s'.currentWidth = MyWindow.ERASER_WIDTH)) := by
  constructor
  · intro s hmode hhit
    rw [mousePressEvent_drawing contains s t hmode, hhit]
    cases b
    case clear => simp [Button.isTool, Button.color?, Button.width?] at htool
    case calibrate => simp [Button.isTool, Button.color?, Button.width?] at htool
    case quit => simp [Button.isTool, Button.color?, Button.width?] at htool
    case erase =>
      exact ⟨_, rfl, rfl, rfl, rfl, rfl, rfl, rfl, rfl,
        by simp [Button.color?], by simp [Button.width?], fun _ => ⟨rfl, rfl⟩⟩
    all_goals
      refine ⟨_, rfl, rfl, rfl, rfl, rfl, rfl, rfl, rfl, ?_, ?_, ?_⟩
      · intro c hc
        simp only [Button.color?, Option.some.injEq] at hc
        first | exact absurd hc (by simp) | (rw [← hc]; rfl)
      · intro w hw
        simp only [Button.width?, Option.some.injEq] at hw
        first | exact absurd hw (by simp) | (rw [← hw]; rfl)
      · intro e
        cases e
  · intro s hmode hhit
    rw [onButtonPress_hit contains s t hmode, hhit]
    cases b
    case clear => simp [Button.isTool, Button.color?, Button.width?] at htool
    case calibrate => simp [Button.isTool, Button.color?, Button.width?] at htool
    case quit => simp [Button.isTool, Button.color?, Button.width?] at htool
    case erase =>
      exact ⟨_, rfl, rfl, rfl, rfl, rfl, rfl,
        by simp [Button.color?], by simp [Button.width?], fun _ => ⟨rfl, rfl⟩⟩
    all_goals
      refine ⟨_, rfl, rfl, rfl, rfl, rfl, rfl, ?_, ?_, ?_⟩
      · intro c hc
        simp only [Button.color?, Option.some.injEq] at hc
        first | exact absurd hc (by simp) | (rw [← hc]; rfl)
      · intro w hw
        simp only [Button.width?, Option.some.injEq] at hw
        first | exact absurd hw (by simp) | (rw [← hw]; rfl)
      · intro e
        cases e

/-- C18, amended, on the capture of the counterexample, in both builds:
the press on the Red button keeps the point (300,300) and the empty pages
and makes the stroke red. -/
theorem tool_press_effect_witness :
    (∃ s' : WhiteBoard,
      ({ WhiteBoard.new (fun _ => ⟨0, 0⟩) with
          mode := MODE_NORMAL
          myDrawing := ⟨0, 3, [⟨300, 300⟩], some [⟨300, 300⟩], false⟩
          myDrawingActive := true } : WhiteBoard).mousePressEvent I2Rectangle.contains ⟨100, 20⟩
        = .ok s'
      ∧ s'.myDrawing.points = [⟨300, 300⟩]
      ∧ s'.pages = (fun _ => ⟨[]⟩)
      ∧ s'.myDrawing.color = s'.currentColor
      ∧ s'.currentColor = RED_COLOR_IDX)
    ∧ (∃ s' : MyWindow,
      ({ MyWindow.new (fun _ => ⟨0, 0⟩) with
          mode := MODE_NORMAL
          myDrawing := ⟨0, 3, [⟨300, 300⟩]⟩
          myDrawingActive := true } : MyWindow).onButtonPress I2Rectangle.contains ⟨100, 20⟩
        = .ok s'
      ∧ s'.myDrawing.points = [⟨300, 300⟩]
      ∧ s'.pages = (fun _ => ⟨[]⟩)
      ∧ s'.myDrawing.color = s'.currentColor
      ∧ s'.currentColor = RED_COLOR_IDX) := by
  have hhit : hitButton I2Rectangle.contains
      (({ WhiteBoard.new (fun _ => ⟨0, 0⟩) with
          mode := MODE_NORMAL
          myDrawing := ⟨0, 3, [⟨300, 300⟩], some [⟨300, 300⟩], false⟩
          myDrawingActive := true } : WhiteBoard).mapMousePoint ⟨100, 20⟩) = some .red := by
    rw [mapMousePoint_identity _ _ rfl rfl rfl rfl (by decide) (by decide)]
    decide
  have hmap : ({ MyWindow.new (fun _ => ⟨0, 0⟩) with
          mode := MODE_NORMAL
          myDrawing := ⟨0, 3, [⟨300, 300⟩]⟩
          myDrawingActive := true } : MyWindow).mapMousePoint ⟨100, 20⟩ = ⟨100, 20⟩ := by
    show (⟨toInt ((0 : ℚ) + ((100 : Int) : ℚ) * 1 + 49 / 100),
      toInt ((0 : ℚ) + ((20 : Int) : ℚ) * 1 + 49 / 100)⟩ : I2Point) = ⟨100, 20⟩
    have e1 : toInt ((0 : ℚ) + ((100 : Int) : ℚ) * 1 + 49 / 100) = 100 := by
      apply toInt_eq_of_floor <;> norm_num
    have e2 : toInt ((0 : ℚ) + ((20 : Int) : ℚ) * 1 + 49 / 100) = 20 := by
      apply toInt_eq_of_floor <;> norm_num
    rw [e1, e2]
  have hhitx : hitButton I2Rectangle.contains
      (({ MyWindow.new (fun _ => ⟨0, 0⟩) with
          mode := MODE_NORMAL
          myDrawing := ⟨0, 3, [⟨300, 300⟩]⟩
          myDrawingActive := true } : MyWindow).mapMousePoint ⟨100, 20⟩) = some .red := by
    rw [hmap]
    decide
  have h := tool_press_effect I2Rectangle.contains ⟨100, 20⟩ .red rfl
  constructor
  · obtain ⟨s', h1, hp, -, -, -, hpg, hc, -, hcc, -, -⟩ := h.1 _ (by decide) hhit
    exact ⟨s', h1, hp, hpg, hc, hcc _ rfl⟩
  · obtain ⟨s', h1, hp, -, hpg, hc, -, hcc, -, -⟩ := h.2 _ (by decide) hhitx
    exact ⟨s', h1, hp, hpg, hc, hcc _ rfl⟩

/-- C19. In every reachable state in drawing mode a press that lands on no
button is handled without fault and starts a stroke with
`color = currentColor` and `width = currentWidth`.  In particular a press
on the Eraser button followed by a press on the canvas starts a stroke
with color `ERASER_COLOR_IDX = 4` and width `ERASER_WIDTH = 32`, whatever
tool was selected before; and so does, in every state reached on inputs
with a palette color, a click on the Eraser button (press, then release
anywhere) followed by a press on the canvas. -/
theorem stroke_carries_selected_tool (contains : I2Rectangle → I2Point → Bool) :
    (∀ (s : WhiteBoard) (t : I2Point), Reachable contains s → s.mode ≠ MODE_CALIBRATION →
      hitButton contains (s.mapMousePoint t) = none →
      ∃ s' : WhiteBoard, s.mousePressEvent contains t = .ok s'
        ∧ s'.myDrawingActive = true
        ∧ s'.myDrawing.color = s.currentColor ∧ s'.myDrawing.width = s.currentWidth
        ∧ s'.currentColor = s.currentColor ∧ s'.currentWidth = s.currentWidth)
    ∧ (∀ (s : WhiteBoard) (t1 t2 : I2Point), Reachable contains s →
      s.mode ≠ MODE_CALIBRATION →
      hitButton contains (s.mapMousePoint t1) = some .erase →
      hitButton contains (s.mapMousePoint t2) = none →
      ∃ s1 s3 : WhiteBoard, s.mousePressEvent contains t1 = .ok s1
        ∧ s1.mousePressEvent contains t2 = .ok s3
        ∧ s3.myDrawingActive = true
        ∧ s3.myDrawing.color = 4 ∧ s3.myDrawing.width = 32)
    ∧ (∀ (s : WhiteBoard) (t1 r t2 : I2Point), PaletteReachable contains s →
      s.mode ≠ MODE_CALIBRATION →
      hitButton contains (s.mapMousePoint t1) = some .erase →
      hitButton contains (s.mapMousePoint t2) = none →
      ∃ s1 s2 s3 : WhiteBoard, s.mousePressEvent contains t1 = .ok s1
        ∧ s1.mouseReleaseEvent r = .ok s2
        ∧ s2.mousePressEvent contains t2 = .ok s3
        ∧ s3.myDrawingActive = true
        ∧ s3.myDrawing.color = 4 ∧ s3.myDrawing.width = 32) := by
  refine ⟨?_, ?_, ?_⟩
  · intro s t hs hmode hhit
    exact press_canvas contains s t (reachable_wf contains s hs) hmode hhit
  · intro s t1 t2 hs hmode hh1 hh2
    have hwf := reachable_wf contains s hs
    let s1 : WhiteBoard :=
      { s with
        currentColor := ERASER_COLOR_IDX
        currentWidth := ERASER_WIDTH
        myDrawing := { s.myDrawing with color := ERASER_COLOR_IDX, width := ERASER_WIDTH } }
    have h1 : s.mousePressEvent contains t1 = .ok s1 := by
      rw [mousePressEvent_drawing contains s t1 hmode, hh1]
      rfl
    have hwf1 : s1.WF := hwf
    obtain ⟨s3, h3, ha, hc, hw, -, -⟩ := press_canvas contains s1 t2 hwf1 hmode hh2
    exact ⟨s1, s3, h1, h3, ha, hc, hw⟩
  · intro s t1 r t2 hs hmode hh1 hh2
    have hwf := reachable_wf contains s (paletteReachable_reachable contains s hs)
    let s1 : WhiteBoard :=
      { s with
        currentColor := ERASER_COLOR_IDX
        currentWidth := ERASER_WIDTH
        myDrawing := { s.myDrawing with color := ERASER_COLOR_IDX, width := ERASER_WIDTH } }
    have h1 : s.mousePressEvent contains t1 = .ok s1 := by
      rw [mousePressEvent_drawing contains s t1 hmode, hh1]
      rfl
    have hwf1 : s1.WF := hwf
    have hrel : s1.mouseReleaseEvent r = s1.processAction ⟨Action.END_CURVE, 0, 0, s1.mapMousePoint r⟩ := by
      unfold WhiteBoard.mouseReleaseEvent
      rw [if_neg hmode]
    have hdr := paletteReachable_drawable contains s hs
    obtain ⟨s2, h2⟩ := processAction_total s1 ⟨Action.END_CURVE, 0, 0, s1.mapMousePoint r⟩ 0
      (wf_index s1 hwf1) hmode (hdr.1 0) ⟨show (0 : Int) ≤ 4 by decide, hdr.2.2⟩
    have hwf2 : s2.WF := processAction_wf s1 s2 _ hwf1 h2
    obtain ⟨pages', m', act', hs2, -, -, -⟩ := processAction_ok s1 s2 _ h2
    have hmode2 : s2.mode ≠ MODE_CALIBRATION := by rw [hs2]; exact hmode
    have hmap2 : s2.mapMousePoint t2 = s.mapMousePoint t2 := by rw [hs2]; rfl
    obtain ⟨s3, h3, ha, hc, hw, -, -⟩ := press_canvas contains s2 t2 hwf2 hmode2
      (by rw [hmap2]; exact hh2)
    refine ⟨s1, s2, s3, h1, hrel.trans h2, h3, ha, ?_, ?_⟩
    · rw [hc, hs2]
    · rw [hw, hs2]

/-- C19 on the state reached by the two calibration clicks: a press on the
canvas at (300,300) starts a black stroke of width 3, the constructor's
tool. -/
theorem stroke_carries_selected_tool_witness :
    ∃ s' : WhiteBoard,
      ({ WhiteBoard.new (fun _ => ⟨0, 0⟩) with
          calibrationClicks := fun i => if i = 0 then ⟨100, 100⟩ else ⟨500, 400⟩
          numCalibrationClicks := 2
          mode := MODE_NORMAL } : WhiteBoard).mousePressEvent I2Rectangle.contains ⟨300, 300⟩
        = .ok s'
      ∧ s'.myDrawingActive = true
      ∧ s'.myDrawing.color = BLACK_COLOR_IDX ∧ s'.myDrawing.width = THICK_WIDTH
      ∧ s'.currentColor = BLACK_COLOR_IDX ∧ s'.currentWidth = THICK_WIDTH :=
  (stroke_carries_selected_tool I2Rectangle.contains).1 _ ⟨300, 300⟩
    (reachable_calibrated I2Rectangle.contains) (by decide)
    (by rw [mapMousePoint_identity _ _ rfl rfl rfl rfl (by decide) (by decide)]; decide)

/-- C20 at its failing input.  From the constructor's state: the two
calibration clicks, then presses on the Very-Thick button (700,20) and on
the Clear button (350,20).  Clear sets `currentWidth = LINE_WIDTH` but
leaves `lastWidth = 5`; the tool is then black, width 3, eraser not
selected.  Pressing the Eraser button (430,20) and the Red button (100,20)
gives color 2 with width 5, not the pre-eraser width 3. -/
theorem clear_forgets_last_width :
    ∃ s4 s6 : WhiteBoard,
      (WhiteBoard.new fun _ => ⟨0, 0⟩).run I2Rectangle.contains
          [.press ⟨100, 100⟩, .press ⟨500, 400⟩, .press ⟨700, 20⟩, .press ⟨350, 20⟩] = .ok s4
      ∧ s4.currentColor = BLACK_COLOR_IDX ∧ s4.currentWidth = 3
      ∧ s4.run I2Rectangle.contains [.press ⟨430, 20⟩, .press ⟨100, 20⟩] = .ok s6
      ∧ s6.currentColor = RED_COLOR_IDX ∧ s6.currentWidth = 5 := by
  let d : WhiteBoard :=
    { WhiteBoard.new (fun _ => ⟨0, 0⟩) with
      calibrationClicks := fun i => if i = 0 then ⟨100, 100⟩ else ⟨500, 400⟩
      numCalibrationClicks := 2
      mode := MODE_NORMAL }
  let s3 : WhiteBoard := d.widthButton VERY_THICK_WIDTH
  let s4 : WhiteBoard :=
    { s3 with
      currentColor := BLACK_COLOR_IDX
      lastColor := BLACK_COLOR_IDX
      currentWidth := LINE_WIDTH
      pages := Function.update s3.pages 0 (Page.mk [])
      myDrawingActive := false }
  let s5 : WhiteBoard :=
    { s4 with
      currentColor := ERASER_COLOR_IDX
      currentWidth := ERASER_WIDTH
      myDrawing := { s4.myDrawing with color := ERASER_COLOR_IDX, width := ERASER_WIDTH } }
  let s6 : WhiteBoard := s5.colorButton RED_COLOR_IDX
  have h3 : d.step I2Rectangle.contains (.press ⟨700, 20⟩) = .ok s3 := by
    rw [step_press_identity _ d _ rfl rfl rfl rfl rfl (by decide) (by decide)]
    rfl
  have h4 : s3.step I2Rectangle.contains (.press ⟨350, 20⟩) = .ok s4 := by
    rw [step_press_identity _ s3 _ rfl rfl rfl rfl rfl (by decide) (by decide)]
    rfl
  have h5 : s4.step I2Rectangle.contains (.press ⟨430, 20⟩) = .ok s5 := by
    rw [step_press_identity _ s4 _ rfl rfl rfl rfl rfl (by decide) (by decide)]
    rfl
  have h6 : s5.step I2Rectangle.contains (.press ⟨100, 20⟩) = .ok s6 := by
    rw [step_press_identity _ s5 _ rfl rfl rfl rfl rfl (by decide) (by decide)]
    rfl
  refine ⟨s4, s6, ?_, rfl, rfl, ?_, rfl, rfl⟩
  · rw [run_calibrated, run_cons _ d s3 _ _ h3, run_cons _ s3 s4 _ _ h4]
    rfl
  · rw [run_cons _ s4 s5 _ _ h5, run_cons _ s5 s6 _ _ h6]
    rfl


/-! ## Drawing -/

/-- C21 as stated fails.  On the finished one-point stroke (10,10) of
color -1 `drawStroke` reads `strokeColors[-1]` and draws no cross; on the
stroke (1,1), (2,2) with a null path it fails `assert(str.qPath != 0)` and
draws no path. -/
theorem drawStroke_requests_counterexample :
    WhiteBoard.drawStroke ⟨-1, 3, [⟨10, 10⟩], some [⟨10, 10⟩], true⟩ = .error .outOfRange
      ∧ WhiteBoard.drawStroke ⟨0, 3, [⟨1, 1⟩, ⟨2, 2⟩], none, false⟩ = .error .assertFailed :=
  ⟨rfl, rfl⟩

/-- C21, amended. What `drawStroke` sends to the painter.  A stroke without
points: nothing.  A stroke with exactly one point `p` and a non-negative
color: nothing when `finished` is false, and when it is true exactly the
two segments (p.x-1,p.y)-(p.x+1,p.y) and (p.x,p.y-1)-(p.x,p.y+1) under the
stroke's pen.  A stroke with two or more points, a non-negative color and
a path that mirrors its points: one path through the points in order.
The pen has the palette color `strokeColors[color % NUM_COLORS]` and the
stroke's width.  Whatever its color, an unfinished one-point stroke gets
no request. -/
theorem drawStroke_requests (str : Stroke) :
    (str.points = [] → WhiteBoard.drawStroke str = .ok [])
    ∧ (∀ p : I2Point, 0 ≤ str.color → str.points = [p] →
        ∃ c : Fin 5, ((c : Nat) : Int) = str.color % NUM_COLORS
          ∧ WhiteBoard.drawStroke str = .ok
            (if str.finished = true then
              [.line ⟨strokeColors c, str.width⟩ ⟨p.x - 1, p.y⟩ ⟨p.x + 1, p.y⟩,
               .line ⟨strokeColors c, str.width⟩ ⟨p.x, p.y - 1⟩ ⟨p.x, p.y + 1⟩]
            else []))
    ∧ (0 ≤ str.color → 2 ≤ str.points.length → str.PathMirrors →
        ∃ c : Fin 5, ((c : Nat) : Int) = str.color % NUM_COLORS
          ∧ WhiteBoard.drawStroke str = .ok [.path ⟨strokeColors c, str.width⟩ str.points])
    ∧ (∀ p : I2Point, str.points = [p] → str.finished = false →
        ∀ r, WhiteBoard.drawStroke str = .ok r → r = []) := by
  refine ⟨?_, ?_, ?_, ?_⟩
  · intro h
    unfold WhiteBoard.drawStroke
    rw [if_pos ((size_eq_zero_iff str).mpr h)]
  · intro p hc hp
    obtain ⟨c, hidx, hcm⟩ := paletteIndex_of_nonneg str.color hc
    refine ⟨c, hcm, ?_⟩
    have h1 : str.size = 1 := length_eq_one_size str p hp
    unfold WhiteBoard.drawStroke
    rw [if_neg (by rw [h1]; decide), hidx]
    simp only [h1, if_true, hp]
    by_cases hf : str.finished = true
    · simp [hf, I2Point.minus, I2Point.plus]
    · simp [hf]
  · intro hc hlen hm
    obtain ⟨c, hidx, hcm⟩ := paletteIndex_of_nonneg str.color hc
    refine ⟨c, hcm, ?_⟩
    have hne : str.points ≠ [] := by
      intro e
      rw [e] at hlen
      simp at hlen
    have hs0 : ¬ str.size = 0 := fun e => hne ((size_eq_zero_iff str).mp e)
    have hs1 : ¬ str.size = 1 := by
      unfold Stroke.size
      omega
    have hq : str.qPath = some str.points := by
      rw [hm, if_neg hne]
    unfold WhiteBoard.drawStroke
    rw [if_neg hs0, hidx]
    simp only [if_neg hs1, hq]
  · intro p hp hf r hr
    have h1 : str.size = 1 := length_eq_one_size str p hp
    unfold WhiteBoard.drawStroke at hr
    rw [if_neg (by rw [h1]; decide)] at hr
    split at hr
    · cases hr
    · simp only [h1, if_true, hf, Bool.false_eq_true, if_false] at hr
      cases hr
      rfl

/-- C21, amended, on the stroke of a click: one point (10,10), red, width
3, finished; `drawStroke` asks for the cross (9,10)-(11,10), (10,9)-(10,11)
under the red pen of width 3.  On the blue stroke (1,1), (2,2) of width 2
it asks for one path through the two points. -/
theorem drawStroke_requests_witness :
    WhiteBoard.drawStroke ⟨2, 3, [⟨10, 10⟩], some [⟨10, 10⟩], true⟩ = .ok
        [.line ⟨.red, 3⟩ ⟨9, 10⟩ ⟨11, 10⟩, .line ⟨.red, 3⟩ ⟨10, 9⟩ ⟨10, 11⟩]
      ∧ WhiteBoard.drawStroke ⟨1, 2, [⟨1, 1⟩, ⟨2, 2⟩], some [⟨1, 1⟩, ⟨2, 2⟩], false⟩ = .ok
        [.path ⟨.blue, 2⟩ [⟨1, 1⟩, ⟨2, 2⟩]] := by
  obtain ⟨c, hc, h⟩ := (drawStroke_requests ⟨2, 3, [⟨10, 10⟩], some [⟨10, 10⟩], true⟩).2.1
    ⟨10, 10⟩ (by decide) rfl
  obtain ⟨d, hd, h'⟩ :=
    (drawStroke_requests ⟨1, 2, [⟨1, 1⟩, ⟨2, 2⟩], some [⟨1, 1⟩, ⟨2, 2⟩], false⟩).2.2.1
      (by decide) (by decide) rfl
  have hc2 : c = 2 := by
    apply Fin.ext
    have h2 : ((c : Nat) : Int) = 2 := hc
    show (c : Nat) = 2
    omega
  have hd1 : d = 1 := by
    apply Fin.ext
    have h2 : ((d : Nat) : Int) = 1 := hd
    show (d : Nat) = 1
    omega
  subst hc2
  subst hd1
  exact ⟨h, h'⟩

/-- C23 at its failing input.  In the X11 build, from the constructor's
state, START_CURVE at (300,300) starts a capture with that one point;
DRAW_CURVE at the same point (300,300) appends it again, since the branch
for at most two points does not compare with the last point; END_CURVE
then stores the stroke with two equal consecutive points. -/
theorem x11_short_stroke_keeps_duplicate :
    ∃ s1 s2 s3 : MyWindow,
      (MyWindow.new fun _ => ⟨0, 0⟩).processAction (Action.startCurve ⟨300, 300⟩ 0 3) = .ok s1
      ∧ s1.myDrawingActive = true
      ∧ s1.myDrawing.points = [⟨300, 300⟩]
      ∧ s1.processAction (Action.drawCurve ⟨300, 300⟩) = .ok s2
      ∧ s2.myDrawing.points = [⟨300, 300⟩, ⟨300, 300⟩]
      ∧ s2.processAction (Action.endCurve ⟨300, 300⟩) = .ok s3
      ∧ (s3.pages 0).strokes = [⟨0, 3, [⟨300, 300⟩, ⟨300, 300⟩]⟩] :=
  ⟨_, _, _, rfl, rfl, rfl, rfl, rfl, rfl, rfl⟩

/-! ## The cached path -/

theorem assign_eq (m str : Stroke) : m.assign str = str := by
  cases str with
  | mk c w pts q f => cases q <;> rfl

/-- The path mirrors the points in every stroke built without
self-assignment. -/
theorem built_pathMirrors (m : Stroke) (h : Stroke.Built m) : m.PathMirrors := by
  induction h with
  | new => rfl
  | push_back p _ hp ih => exact push_back_pathMirrors _ _ p ih hp
  | clear _ _ => exact pathMirrors_clear _
  | finalize _ ih => exact ih
  | copy _ ih =>
    rw [copy_eq]
    exact ih
  | assign _ _ _ ih =>
    rw [assign_eq]
    exact ih
  | setTool c w _ ih => exact ih

/-- C24 as stated fails.  A default-constructed stroke with the two points
(1,1), (2,2) pushed has a path; after the self-assignment `s = s`, which is
an assignment, the points are still there and the path is null, so
`push_back` of a new point fails `assert(qPath != 0)`, and so does
`drawStroke`. -/
theorem self_assignment_drops_path :
    ∃ m : Stroke,
      Stroke.new.pushAll [⟨1, 1⟩, ⟨2, 2⟩] = .ok m
      ∧ m.qPath = some [⟨1, 1⟩, ⟨2, 2⟩]
      ∧ m.assignSelf.points = [⟨1, 1⟩, ⟨2, 2⟩]
      ∧ m.assignSelf.qPath = none
      ∧ m.assignSelf.push_back ⟨3, 3⟩ = .error .assertFailed
      ∧ WhiteBoard.drawStroke m.assignSelf = .error .assertFailed :=
  ⟨_, rfl, rfl, rfl, rfl, rfl, rfl⟩

/-- C24, amended. For every stroke obtained from a default-constructed one
by `push_back`, `clear`, `finalize`, copy construction, assignment from
another such stroke (not from itself) and writes to `color` and `width`:
the path is null exactly when there are no points, a non-null path has the
points as its vertices, `push_back` returns for every point, and
`drawStroke` does not fail its assertion. -/
theorem cached_path_mirrors (m : Stroke) (h : Stroke.Built m) :
    (m.qPath = none ↔ m.points = [])
      ∧ (∀ q, m.qPath = some q → q = m.points)
      ∧ (∀ p, ∃ m', m.push_back p = .ok m')
      ∧ WhiteBoard.drawStroke m ≠ .error .assertFailed := by
  have hm : m.PathMirrors := built_pathMirrors m h
  have hq : m.qPath = if m.points = [] then none else some m.points := hm
  refine ⟨?_, ?_, fun p => push_back_total m p hm, ?_⟩
  · by_cases hp : m.points = []
    · rw [hq, if_pos hp]
      exact ⟨fun _ => hp, fun _ => rfl⟩
    · rw [hq, if_neg hp]
      exact ⟨fun e => Option.noConfusion e, fun e => absurd e hp⟩
  · intro q hq'
    by_cases hp : m.points = []
    · rw [hq, if_pos hp] at hq'
      cases hq'
    · rw [hq, if_neg hp] at hq'
      cases hq'
      rfl
  · intro hfault
    unfold WhiteBoard.drawStroke at hfault
    split at hfault
    · cases hfault
    · split at hfault
      · cases hfault
      · split at hfault
        · split at hfault
          · split at hfault
            · cases hfault
            · cases hfault
          · cases hfault
        · next hs0 _ _ _ hs1 =>
          have hp : m.points ≠ [] := fun e => hs0 ((size_eq_zero_iff m).mpr e)
          rw [hq, if_neg hp] at hfault
          cases hfault

/-- C24, amended, on the stroke built by pushing (1,1), (2,2) and (2,2)
again onto a default-constructed stroke and copying it. -/
theorem cached_path_mirrors_witness :
    Stroke.Built ⟨Qt_black, 1, [⟨1, 1⟩, ⟨2, 2⟩], some [⟨1, 1⟩, ⟨2, 2⟩], false⟩
      ∧ (∀ p, ∃ m', (⟨Qt_black, 1, [⟨1, 1⟩, ⟨2, 2⟩], some [⟨1, 1⟩, ⟨2, 2⟩], false⟩
          : Stroke).push_back p = .ok m')
      ∧ WhiteBoard.drawStroke ⟨Qt_black, 1, [⟨1, 1⟩, ⟨2, 2⟩], some [⟨1, 1⟩, ⟨2, 2⟩], false⟩
          ≠ .error .assertFailed := by
  have hb : Stroke.Built ⟨Qt_black, 1, [⟨1, 1⟩, ⟨2, 2⟩], some [⟨1, 1⟩, ⟨2, 2⟩], false⟩ :=
    Stroke.Built.copy
      (Stroke.Built.push_back ⟨2, 2⟩
        (Stroke.Built.push_back ⟨2, 2⟩
          (Stroke.Built.push_back ⟨1, 1⟩ Stroke.Built.new
            (rfl : Stroke.new.push_back ⟨1, 1⟩
              = .ok ⟨Qt_black, 1, [⟨1, 1⟩], some [⟨1, 1⟩], false⟩))
          (rfl : (⟨Qt_black, 1, [⟨1, 1⟩], some [⟨1, 1⟩], false⟩ : Stroke).push_back ⟨2, 2⟩
            = .ok ⟨Qt_black, 1, [⟨1, 1⟩, ⟨2, 2⟩], some [⟨1, 1⟩, ⟨2, 2⟩], false⟩))
        (rfl : (⟨Qt_black, 1, [⟨1, 1⟩, ⟨2, 2⟩], some [⟨1, 1⟩, ⟨2, 2⟩], false⟩
            : Stroke).push_back ⟨2, 2⟩
          = .ok ⟨Qt_black, 1, [⟨1, 1⟩, ⟨2, 2⟩], some [⟨1, 1⟩, ⟨2, 2⟩], false⟩))
  have h := cached_path_mirrors _ hb
  exact ⟨hb, h.2.2.1, h.2.2.2⟩

/-! ## Tool state -/

theorem xPushStroke_frame (s s' : MyWindow) (str : XStroke) (h : s.pushStroke str = .ok s') :
    s'.currentColor = s.currentColor ∧ s'.lastColor = s.lastColor
      ∧ s'.lastWidth = s.lastWidth ∧ s'.myDrawing = s.myDrawing := by
  unfold MyWindow.pushStroke at h
  split at h
  · cases h
  · cases h
    exact ⟨rfl, rfl, rfl, rfl⟩

theorem xInit_frame (s s' : MyWindow) (h : s.init = .ok s') :
    s'.currentColor = s.currentColor ∧ s'.lastColor = s.lastColor
      ∧ s'.lastWidth = s.lastWidth ∧ s'.myDrawing = s.myDrawing := by
  unfold MyWindow.init at h
  split at h
  · cases h
  · cases h
    exact ⟨rfl, rfl, rfl, rfl⟩

/-- What `MyWindow::processAction` leaves alone: the tool fields; the color
of the in-progress stroke stays or becomes the color of the action. -/
theorem xProcessAction_tool (s s' : MyWindow) (a : Action) (h : s.processAction a = .ok s') :
    s'.currentColor = s.currentColor ∧ s'.lastColor = s.lastColor
      ∧ s'.lastWidth = s.lastWidth
      ∧ (s'.myDrawing.color = s.myDrawing.color ∨ s'.myDrawing.color = a.color) := by
  obtain ⟨pages', m', act', rfl, -, hcol⟩ := xProcessAction_ok s s' a h
  exact ⟨rfl, rfl, rfl, hcol⟩

theorem xCalibrationPress_frame (s s' : MyWindow) (t : I2Point)
    (h : s.calibrationPress t = .ok s') :
    s'.currentColor = s.currentColor ∧ s'.lastColor = s.lastColor
      ∧ s'.lastWidth = s.lastWidth ∧ s'.myDrawing = s.myDrawing := by
  unfold MyWindow.calibrationPress at h
  split at h
  · cases h
  · split at h
    · cases h
    · simp only at h
      split at h
      · split at h
        · cases h
          simp
        · cases hx : fdiv _ _ with
          | error e => rw [hx] at h; simp [Except.bind] at h
          | ok x =>
            rw [hx] at h
            simp only [Except.bind] at h
            cases hy : fdiv _ _ with
            | error e => rw [hy] at h; simp at h
            | ok y =>
              rw [hy] at h
              simp only at h
              split at h <;> cases h <;> simp
      · split at h <;> cases h <;> simp

theorem onButtonPress_drawing (contains : I2Rectangle → I2Point → Bool) (s : MyWindow)
    (t : I2Point) (hmode : s.mode ≠ MODE_CALIBRATION) :
    s.onButtonPress contains t = .ok (s.colorButton BLACK_COLOR_IDX)
    ∨ s.onButtonPress contains t = .ok (s.colorButton BLUE_COLOR_IDX)
    ∨ s.onButtonPress contains t = .ok (s.colorButton RED_COLOR_IDX)
    ∨ s.onButtonPress contains t = .ok (s.colorButton GREEN_COLOR_IDX)
    ∨ s.onButtonPress contains t =
        MyWindow.init { s with
          currentColor := BLACK_COLOR_IDX
          lastColor := BLACK_COLOR_IDX
          currentWidth := LINE_WIDTH }
    ∨ s.onButtonPress contains t = .ok { s with mode := MODE_CALIBRATION, numCalibrationClicks := 0 }
    ∨ s.onButtonPress contains t =
        .ok { s with
          currentColor := ERASER_COLOR_IDX
          currentWidth := MyWindow.ERASER_WIDTH
          myDrawing :=
            { s.myDrawing with color := ERASER_COLOR_IDX, width := MyWindow.ERASER_WIDTH } }
    ∨ s.onButtonPress contains t = .ok (s.widthButton THIN_WIDTH)
    ∨ s.onButtonPress contains t = .ok (s.widthButton NORMAL_WIDTH)
    ∨ s.onButtonPress contains t = .ok (s.widthButton THICK_WIDTH)
    ∨ s.onButtonPress contains t = .ok (s.widthButton VERY_THICK_WIDTH)
    ∨ s.onButtonPress contains t = .ok s
    ∨ s.onButtonPress contains t =
        s.processAction ⟨Action.START_CURVE, s.currentColor, s.currentWidth, s.mapMousePoint t⟩ := by
  have e : s.onButtonPress contains t =
      (if contains WhiteBoard.blackButtonRect (s.mapMousePoint t) then
        .ok (s.colorButton BLACK_COLOR_IDX)
      else if contains WhiteBoard.blueButtonRect (s.mapMousePoint t) then
        .ok (s.colorButton BLUE_COLOR_IDX)
      else if contains WhiteBoard.redButtonRect (s.mapMousePoint t) then
        .ok (s.colorButton RED_COLOR_IDX)
      else if contains WhiteBoard.greenButtonRect (s.mapMousePoint t) then
        .ok (s.colorButton GREEN_COLOR_IDX)
      else if contains WhiteBoard.clearButtonRect (s.mapMousePoint t) then
        MyWindow.init { s with
          currentColor := BLACK_COLOR_IDX
          lastColor := BLACK_COLOR_IDX
          currentWidth := LINE_WIDTH }
      else if contains WhiteBoard.calibrateButtonRect (s.mapMousePoint t) then
        .ok { s with mode := MODE_CALIBRATION, numCalibrationClicks := 0 }
      else if contains WhiteBoard.eraseButtonRect (s.mapMousePoint t) then
        .ok { s with
          currentColor := ERASER_COLOR_IDX
          currentWidth := MyWindow.ERASER_WIDTH
          myDrawing :=
            { s.myDrawing with color := ERASER_COLOR_IDX, width := MyWindow.ERASER_WIDTH } }
      else if contains WhiteBoard.thinButtonRect (s.mapMousePoint t) then
        .ok (s.widthButton THIN_WIDTH)
      else if contains WhiteBoard.normalButtonRect (s.mapMousePoint t) then
        .ok (s.widthButton NORMAL_WIDTH)
      else if contains WhiteBoard.thickButtonRect (s.mapMousePoint t) then
        .ok (s.widthButton THICK_WIDTH)
      else if contains WhiteBoard.veryThickButtonRect (s.mapMousePoint t) then
        .ok (s.widthButton VERY_THICK_WIDTH)
      else if contains WhiteBoard.quitButtonRect (s.mapMousePoint t) then .ok s
      else s.processAction
        ⟨Action.START_CURVE, s.currentColor, s.currentWidth, s.mapMousePoint t⟩) := by
    unfold MyWindow.onButtonPress
    rw [if_neg hmode]
  rw [e]
  by_cases h1 : contains WhiteBoard.blackButtonRect (s.mapMousePoint t) = true
  · rw [if_pos h1]
    exact Or.inl rfl
  rw [if_neg h1]
  refine Or.inr ?_
  by_cases h2 : contains WhiteBoard.blueButtonRect (s.mapMousePoint t) = true
  · rw [if_pos h2]
    exact Or.inl rfl
  rw [if_neg h2]
  refine Or.inr ?_
  by_cases h3 : contains WhiteBoard.redButtonRect (s.mapMousePoint t) = true
  · rw [if_pos h3]
    exact Or.inl rfl
  rw [if_neg h3]
  refine Or.inr ?_
  by_cases h4 : contains WhiteBoard.greenButtonRect (s.mapMousePoint t) = true
  · rw [if_pos h4]
    exact Or.inl rfl
  rw [if_neg h4]
  refine Or.inr ?_
  by_cases h5 : contains WhiteBoard.clearButtonRect (s.mapMousePoint t) = true
  · rw [if_pos h5]
    exact Or.inl rfl
  rw [if_neg h5]
  refine Or.inr ?_
  by_cases h6 : contains WhiteBoard.calibrateButtonRect (s.mapMousePoint t) = true
  · rw [if_pos h6]
    exact Or.inl rfl
  rw [if_neg h6]
  refine Or.inr ?_
  by_cases h7 : contains WhiteBoard.eraseButtonRect (s.mapMousePoint t) = true
  · rw [if_pos h7]
    exact Or.inl rfl
  rw [if_neg h7]
  refine Or.inr ?_
  by_cases h8 : contains WhiteBoard.thinButtonRect (s.mapMousePoint t) = true
  · rw [if_pos h8]
    exact Or.inl rfl
  rw [if_neg h8]
  refine Or.inr ?_
  by_cases h9 : contains WhiteBoard.normalButtonRect (s.mapMousePoint t) = true
  · rw [if_pos h9]
    exact Or.inl rfl
  rw [if_neg h9]
  refine Or.inr ?_
  by_cases h10 : contains WhiteBoard.thickButtonRect (s.mapMousePoint t) = true
  · rw [if_pos h10]
    exact Or.inl rfl
  rw [if_neg h10]
  refine Or.inr ?_
  by_cases h11 : contains WhiteBoard.veryThickButtonRect (s.mapMousePoint t) = true
  · rw [if_pos h11]
    exact Or.inl rfl
  rw [if_neg h11]
  refine Or.inr ?_
  by_cases h12 : contains WhiteBoard.quitButtonRect (s.mapMousePoint t) = true
  · rw [if_pos h12]
    exact Or.inl rfl
  rw [if_neg h12]
  exact Or.inr rfl

theorem xStep_tool (contains : I2Rectangle → I2Point → Bool) (s s' : MyWindow) (e : XInput)
    (h : ToolInRange s.currentColor s.lastColor s.lastWidth)
    (hm : 0 ≤ s.myDrawing.color ∧ s.myDrawing.color < NUM_COLORS)
    (hs : s.step contains e = .ok s') :
    ToolInRange s'.currentColor s'.lastColor s'.lastWidth
      ∧ (0 ≤ s'.myDrawing.color ∧ s'.myDrawing.color < NUM_COLORS) := by
  have hframe : ∀ s0 : MyWindow, s0.currentColor = s.currentColor → s0.lastColor = s.lastColor →
      s0.lastWidth = s.lastWidth → s0.myDrawing = s.myDrawing →
      ToolInRange s0.currentColor s0.lastColor s0.lastWidth
        ∧ (0 ≤ s0.myDrawing.color ∧ s0.myDrawing.color < NUM_COLORS) := by
    intro s0 e1 e2 e3 e4
    rw [e1, e2, e3, e4]
    exact ⟨h, hm⟩
  have hact : ∀ a : Action, (0 ≤ a.color ∧ a.color < NUM_COLORS) → s.processAction a = .ok s' →
      ToolInRange s'.currentColor s'.lastColor s'.lastWidth
        ∧ (0 ≤ s'.myDrawing.color ∧ s'.myDrawing.color < NUM_COLORS) := by
    intro a hcol ha
    obtain ⟨e1, e2, e3, e4⟩ := xProcessAction_tool s s' a ha
    rw [e1, e2, e3]
    refine ⟨h, ?_⟩
    rcases e4 with e4 | e4 <;> rw [e4]
    · exact hm
    · exact hcol
  obtain ⟨hc, hlc, hlw⟩ := h
  cases e with
  | press t =>
    change s.onButtonPress contains t = .ok s' at hs
    by_cases hmode : s.mode = MODE_CALIBRATION
    · unfold MyWindow.onButtonPress at hs
      rw [if_pos hmode] at hs
      obtain ⟨e1, e2, e3, e4⟩ := xCalibrationPress_frame s s' t hs
      exact hframe s' e1 e2 e3 e4
    · rcases onButtonPress_drawing contains s t hmode with
        e | e | e | e | e | e | e | e | e | e | e | e | e <;> rw [e] at hs
      · cases hs
        exact ⟨toolInRange_color _ _ (Or.inl rfl) hlw, (toolInRange_color _ 1 (Or.inl rfl) (Or.inl rfl)).1⟩
      · cases hs
        exact ⟨toolInRange_color _ _ (Or.inr (Or.inl rfl)) hlw, (toolInRange_color _ 1 (Or.inr (Or.inl rfl)) (Or.inl rfl)).1⟩
      · cases hs
        exact ⟨toolInRange_color _ _ (Or.inr (Or.inr (Or.inl rfl))) hlw, (toolInRange_color _ 1 (Or.inr (Or.inr (Or.inl rfl))) (Or.inl rfl)).1⟩
      · cases hs
        exact ⟨toolInRange_color _ _ (Or.inr (Or.inr (Or.inr rfl))) hlw, (toolInRange_color _ 1 (Or.inr (Or.inr (Or.inr rfl))) (Or.inl rfl)).1⟩
      · obtain ⟨e1, e2, e3, e4⟩ := xInit_frame _ s' hs
        rw [e1, e2, e3, e4]
        exact ⟨toolInRange_color _ _ (Or.inl rfl) hlw, hm⟩
      · cases hs
        exact ⟨⟨hc, hlc, hlw⟩, hm⟩
      · cases hs
        exact ⟨toolInRange_eraser _ _ hlc hlw,
          show (0 : Int) ≤ ERASER_COLOR_IDX ∧ ERASER_COLOR_IDX < NUM_COLORS by decide⟩
      · cases hs
        exact ⟨toolInRange_color _ _ hlc (Or.inl rfl), (toolInRange_color _ 1 hlc (Or.inl rfl)).1⟩
      · cases hs
        exact ⟨toolInRange_color _ _ hlc (Or.inr (Or.inl rfl)), (toolInRange_color _ 1 hlc (Or.inl rfl)).1⟩
      · cases hs
        exact ⟨toolInRange_color _ _ hlc (Or.inr (Or.inr (Or.inl rfl))), (toolInRange_color _ 1 hlc (Or.inl rfl)).1⟩
      · cases hs
        exact ⟨toolInRange_color _ _ hlc (Or.inr (Or.inr (Or.inr rfl))), (toolInRange_color _ 1 hlc (Or.inl rfl)).1⟩
      · cases hs
        exact ⟨⟨hc, hlc, hlw⟩, hm⟩
      · exact hact _ hc hs
  | release t =>
    simp only [MyWindow.step, MyWindow.onButtonRelease] at hs
    split at hs
    · cases hs
      exact ⟨⟨hc, hlc, hlw⟩, hm⟩
    · exact hact _ (show (0 : Int) ≤ 0 ∧ (0 : Int) < NUM_COLORS by decide) hs
  | move t =>
    simp only [MyWindow.step, MyWindow.onMotionNotify] at hs
    split at hs
    · cases hs
      exact ⟨⟨hc, hlc, hlw⟩, hm⟩
    · exact hact _ (show (0 : Int) ≤ 0 ∧ (0 : Int) < NUM_COLORS by decide) hs
  | key k =>
    simp only [MyWindow.step, MyWindow.onKeyPress] at hs
    split at hs
    · cases hs
      exact ⟨⟨hc, hlc, hlw⟩, hm⟩
    split at hs
    · obtain ⟨e1, e2, e3, e4⟩ := xInit_frame _ s' hs
      exact hframe s' e1 e2 e3 e4
    split at hs
    · cases hs
      exact ⟨⟨hc, hlc, hlw⟩, hm⟩
    · cases hs
      exact ⟨⟨hc, hlc, hlw⟩, hm⟩

/-- In every reachable state of the X11 build the tool state and the color
of the in-progress stroke are in range. -/
theorem xReachable_tool (contains : I2Rectangle → I2Point → Bool) (s : MyWindow)
    (h : XReachable contains s) :
    ToolInRange s.currentColor s.lastColor s.lastWidth
      ∧ (0 ≤ s.myDrawing.color ∧ s.myDrawing.color < NUM_COLORS) := by
  induction h with
  | new clicks =>
    exact ⟨toolInRange_color _ _ (Or.inl rfl) (Or.inr (Or.inr (Or.inl rfl))),
      show (0 : Int) ≤ 0 ∧ (0 : Int) < NUM_COLORS by decide⟩
  | step e _ hstep ih => exact xStep_tool contains _ _ e ih.1 ih.2 hstep

/-- C25. Tool state stays in range: in every state the Qt window reaches
from its constructor (`s`) and in every state the X11 window reaches from
its constructor (`x`), `currentColor` is in `[0, NUM_COLORS)`, `lastColor`
is one of 0, 1, 2, 3 and `lastWidth` one of 1, 2, 3, 5, so never the eraser
width; hence the lookup `strokeColors[currentColor]` of
`drawCurrentLineType` yields a pen, and in the X11 build both
`strokeColors[currentColor]` and the lookup `strokeColors[curve->color]` of
the DRAW_CURVE branch are in bounds. -/
theorem tool_state_in_range (contains : I2Rectangle → I2Point → Bool)
    (s : WhiteBoard) (x : MyWindow)
    (hs : Reachable contains s) (hx : XReachable contains x) :
    (ToolInRange s.currentColor s.lastColor s.lastWidth
      ∧ s.lastWidth ≠ ERASER_WIDTH
      ∧ ∃ c : Fin 5, ((c : Nat) : Int) = s.currentColor
          ∧ s.currentLinePen = .ok ⟨strokeColors c, s.currentWidth⟩)
    ∧ (ToolInRange x.currentColor x.lastColor x.lastWidth
      ∧ x.lastWidth ≠ MyWindow.ERASER_WIDTH
      ∧ (∃ c : Fin 5, index? 5 x.currentColor = some c ∧ ((c : Nat) : Int) = x.currentColor)
      ∧ ∃ c : Fin 5, x.drawCurveColorIndex = some c ∧ ((c : Nat) : Int) = x.myDrawing.color) := by
  have hq := reachable_toolInRange contains s hs
  obtain ⟨hxt, hxm⟩ := xReachable_tool contains x hx
  refine ⟨⟨hq, ?_, ?_⟩, hxt, ?_, ?_, ?_⟩
  · obtain ⟨-, -, e | e | e | e⟩ := hq <;> rw [e] <;> decide
  · obtain ⟨c, hc, hv⟩ := index_some 5 s.currentColor hq.1.1 hq.1.2
    refine ⟨c, hv, ?_⟩
    unfold WhiteBoard.currentLinePen
    rw [hc]
  · obtain ⟨-, -, e | e | e | e⟩ := hxt <;> rw [e] <;> decide
  · exact index_some 5 x.currentColor hxt.1.1 hxt.1.2
  · exact index_some 5 x.myDrawing.color hxm.1 hxm.2

theorem tool_state_in_range_witness :
    Reachable I2Rectangle.contains
        { WhiteBoard.new (fun _ => ⟨0, 0⟩) with
          calibrationClicks := fun i => if i = 0 then ⟨100, 100⟩ else ⟨500, 400⟩
          numCalibrationClicks := 2
          mode := MODE_NORMAL }
      ∧ XReachable I2Rectangle.contains (MyWindow.new fun _ => ⟨0, 0⟩)
      ∧ (∃ c : Fin 5, ((c : Nat) : Int) = 0
          ∧ WhiteBoard.currentLinePen
              { WhiteBoard.new (fun _ => ⟨0, 0⟩) with
                calibrationClicks := fun i => if i = 0 then ⟨100, 100⟩ else ⟨500, 400⟩
                numCalibrationClicks := 2
                mode := MODE_NORMAL } = .ok ⟨strokeColors c, 3⟩)
      ∧ ∃ c : Fin 5, (MyWindow.new fun _ => ⟨0, 0⟩).drawCurveColorIndex = some c
          ∧ ((c : Nat) : Int) = 0 := by
  have h := tool_state_in_range I2Rectangle.contains _ _
    (reachable_calibrated I2Rectangle.contains)
    (XReachable.new (fun _ => ⟨0, 0⟩) : XReachable I2Rectangle.contains _)
  exact ⟨reachable_calibrated _, XReachable.new _, h.1.2.2, h.2.2.2.2⟩


end WB
